import Mathlib

/-!
# NetworkManager: the address conflict detection manager

A shallow embedding of `src/devices/nm-acd-manager.c`.  The private data of an
`NMAcdManager` becomes a record, every public entry point becomes a function on
that record, and the n-acd probe engine (an external library) is represented by
the results it hands back (`Engine`) and by the list of requests it receives
(`EngineCall`).

Conventions:

* the `GHashTable` of `AddressInfo` keyed by the address is a list of
  `AddressInfo` with pairwise distinct `address` fields; iteration over the
  table visits the list from its head;
* `guint` values (`completed`, the table size) are natural numbers reduced
  modulo `2 ^ 32`;
* `g_return_val_if_fail (cond, v)` returns `v` when `cond` fails (after logging
  a critical message, which is not part of the returned value);
* `NM_IS_ACD_MANAGER (self)` holds for every value of the record type.
-/

namespace NMAcd

/-! ## Data model -/

/-- The C enum `State`: the phase of the manager. -/
inductive State where
  | STATE_INIT
  | STATE_PROBING
  | STATE_PROBE_DONE
  | STATE_ANNOUNCING
  deriving DecidableEq, Repr

/-- The C struct `AddressInfo`.  The field `probe` records whether the
`NAcdProbe *` pointer is set (non-NULL). -/
structure AddressInfo where
  address : Nat
  duplicate : Bool
  probe : Bool
  deriving DecidableEq, Repr

/-- The event codes of n-acd that `_acd_event_to_string` knows. -/
inductive NAcdEventKind where
  | N_ACD_EVENT_READY
  | N_ACD_EVENT_USED
  | N_ACD_EVENT_DEFENDED
  | N_ACD_EVENT_CONFLICT
  | N_ACD_EVENT_DOWN
  deriving DecidableEq, Repr

/-- An `NAcdEvent`: its code and its probe.  The probe is identified by the
address of the `AddressInfo` that `n_acd_probe_set_userdata` attached to it, which
is what `n_acd_probe_get_userdata` gives back. -/
structure NAcdEvent where
  event : NAcdEventKind
  probe : Nat
  deriving DecidableEq, Repr

/-- The defend policies of n-acd; the manager only ever passes
`N_ACD_DEFEND_ONCE`. -/
inductive NAcdDefend where
  | N_ACD_DEFEND_NEVER
  | N_ACD_DEFEND_ONCE
  | N_ACD_DEFEND_ALWAYS
  deriving DecidableEq, Repr

/-- A request made to the probe engine, with the result code it returned. -/
inductive EngineCall where
  | n_acd_probe (address : Nat) (timeout : Nat) (r : Int)
  | n_acd_probe_announce (address : Nat) (defend : NAcdDefend) (r : Int)
  | n_acd_probe_free (address : Nat) (probe : Bool)
  deriving DecidableEq, Repr

/-- Modelled from the spec: the probe engine is the external n-acd library, of
which only the header is included by the source.  Its contract (section 4.1 of
the specification) is a set of calls that each succeed (result `0`) or fail (a
non-zero result); this record holds the result of every such call, the per-probe
ones depending on the address of the probe. -/
structure Engine where
  n_acd_dispatch : Int
  n_acd_config_new : Int
  n_acd_new : Int
  n_acd_probe_config_new : Nat → Int
  n_acd_probe : Nat → Int
  n_acd_probe_announce : Nat → Int

/-- The C struct `NMAcdManagerPrivate`.  `acd` records whether the `NAcd *` is
set, `event_id` counts the watches installed by `g_io_add_watch`.  Two fields
are observations rather than C fields: `calls` lists the requests made to the
engine so far, oldest first, and `signals` counts the emissions of
`PROBE_TERMINATED`. -/
structure NMAcdManagerPrivate where
  ifindex : Int
  hwaddr : List Nat
  state : State
  addresses : List AddressInfo
  completed : Nat
  acd : Bool
  event_id : Nat
  calls : List EngineCall
  signals : Nat
  deriving DecidableEq, Repr

/-- The constant `ETH_ALEN`. -/
def ETH_ALEN : Nat := 6

/-- The GLib constant `G_SOURCE_CONTINUE` (`TRUE`). -/
def G_SOURCE_CONTINUE : Bool := true

/-- The modulus of `guint` arithmetic. -/
def GUINT_MOD : Nat := 4294967296

/-! ## The address table -/

/-- The call `g_hash_table_lookup (priv->addresses, GUINT_TO_POINTER (address))`. -/
def g_hash_table_lookup (t : List AddressInfo) (key : Nat) : Option AddressInfo :=
  t.find? (fun i => i.address == key)

/-- The result of `g_hash_table_size`, a `guint`. -/
def g_hash_table_size (t : List AddressInfo) : Nat :=
  t.length % GUINT_MOD

/-- The assignment `info->duplicate = d` for the `AddressInfo` of address `a`. -/
def info_set_duplicate (t : List AddressInfo) (a : Nat) (d : Bool) : List AddressInfo :=
  t.map (fun i => if i.address = a then { i with duplicate := d } else i)

/-- The keys of the table. -/
def keys (t : List AddressInfo) : List Nat :=
  t.map (fun i => i.address)

/-! ## Construction -/

/-- The function `nm_acd_manager_init` followed by `nm_acd_manager_new`: `none` stands for the
`NULL` returned when an argument check fails. -/
def nm_acd_manager_new (ifindex : Int) (hwaddr : List Nat) : Option NMAcdManagerPrivate :=
  if ¬ (ifindex > 0) then none
  else if hwaddr.length ≠ ETH_ALEN then none
  else some
    { ifindex := ifindex
      hwaddr := hwaddr
      state := State.STATE_INIT
      addresses := []
      completed := 0
      acd := false
      event_id := 0
      calls := []
      signals := 0 }

/-! ## `nm_acd_manager_add_address` -/

/-- The function `nm_acd_manager_add_address`: the new manager and the returned `gboolean`. -/
def nm_acd_manager_add_address (self : NMAcdManagerPrivate) (address : Nat) :
    NMAcdManagerPrivate × Bool :=
  if self.state ≠ State.STATE_INIT then (self, false)
  else
    match g_hash_table_lookup self.addresses address with
    | some _ => (self, false)
    | none =>
      ({ self with
          addresses := self.addresses ++ [{ address := address, duplicate := false, probe := false }] },
        true)

/-! ## `acd_event` -/

/-- The test at the end of the loop body of `acd_event`:
`priv->state == STATE_PROBING && ++priv->completed == g_hash_table_size (...)`. -/
def acd_event_completed (self : NMAcdManagerPrivate) : NMAcdManagerPrivate :=
  if self.state = State.STATE_PROBING then
    let s1 := { self with completed := (self.completed + 1) % GUINT_MOD }
    if s1.completed = g_hash_table_size s1.addresses then
      { s1 with state := State.STATE_PROBE_DONE, signals := s1.signals + 1 }
    else s1
  else self

/-- The `case N_ACD_EVENT_READY` of `acd_event`, up to its `break`. -/
def acd_event_ready (e : Engine) (self : NMAcdManagerPrivate) (probe : Nat) :
    NMAcdManagerPrivate :=
  let s1 := { self with addresses := info_set_duplicate self.addresses probe false }
  if s1.state = State.STATE_ANNOUNCING then
    { s1 with
        calls := s1.calls ++
          [EngineCall.n_acd_probe_announce probe NAcdDefend.N_ACD_DEFEND_ONCE
            (e.n_acd_probe_announce probe)] }
  else s1

/-- The `case N_ACD_EVENT_USED` of `acd_event`, up to its `break`. -/
def acd_event_used (self : NMAcdManagerPrivate) (probe : Nat) : NMAcdManagerPrivate :=
  { self with addresses := info_set_duplicate self.addresses probe true }

/-- The `while` loop of `acd_event` over the engine's event queue: the manager,
the events left in the queue and the value returned.  `n_acd_pop_event`, a
function of the n-acd library, is taken as section 4.1 of the specification
describes it: it returns `0` with the oldest queued event, or `0` with `NULL`
when the queue is empty, which ends the loop. -/
def acd_event_loop (e : Engine) :
    NMAcdManagerPrivate → List NAcdEvent → NMAcdManagerPrivate × List NAcdEvent × Bool
  | self, [] => (self, [], G_SOURCE_CONTINUE)
  | self, ev :: rest =>
    match ev.event with
    | NAcdEventKind.N_ACD_EVENT_READY =>
      acd_event_loop e (acd_event_completed (acd_event_ready e self ev.probe)) rest
    | NAcdEventKind.N_ACD_EVENT_USED =>
      acd_event_loop e (acd_event_completed (acd_event_used self ev.probe)) rest
    | NAcdEventKind.N_ACD_EVENT_DEFENDED => (self, rest, G_SOURCE_CONTINUE)
    | NAcdEventKind.N_ACD_EVENT_CONFLICT => (self, rest, G_SOURCE_CONTINUE)
    | NAcdEventKind.N_ACD_EVENT_DOWN => (self, rest, G_SOURCE_CONTINUE)

/-- The function `acd_event`, the handler of the watch on the engine's descriptor. -/
def acd_event (e : Engine) (self : NMAcdManagerPrivate) (queue : List NAcdEvent) :
    NMAcdManagerPrivate × List NAcdEvent × Bool :=
  if e.n_acd_dispatch ≠ 0 then (self, queue, G_SOURCE_CONTINUE)
  else acd_event_loop e self queue

/-! ## `acd_probe_add`, `acd_init`, `nm_acd_manager_start_probe` -/

/-- The function `acd_probe_add`: the requests made so far, the `AddressInfo` (its `probe`
is set when the engine accepts the probe) and the returned `gboolean`. -/
def acd_probe_add (e : Engine) (calls : List EngineCall) (info : AddressInfo) (timeout : Nat) :
    List EngineCall × AddressInfo × Bool :=
  if e.n_acd_probe_config_new info.address ≠ 0 then (calls, info, false)
  else
    let r := e.n_acd_probe info.address
    let calls1 := calls ++ [EngineCall.n_acd_probe info.address timeout r]
    if r ≠ 0 then (calls1, info, false)
    else (calls1, { info with probe := true }, true)

/-- The function `acd_init`: the manager and the returned result code. -/
def acd_init (e : Engine) (self : NMAcdManagerPrivate) : NMAcdManagerPrivate × Int :=
  if self.acd then (self, 0)
  else if e.n_acd_config_new ≠ 0 then (self, e.n_acd_config_new)
  else if e.n_acd_new ≠ 0 then (self, e.n_acd_new)
  else ({ self with acd := true }, 0)

/-- The loop `while (g_hash_table_iter_next (...)) success |= acd_probe_add (...)`
over the part `t` of the table that is still to be visited. -/
def probe_loop (e : Engine) (timeout : Nat) :
    List AddressInfo → List EngineCall → Bool → List AddressInfo × List EngineCall × Bool
  | [], calls, success => ([], calls, success)
  | info :: rest, calls, success =>
    let r := acd_probe_add e calls info timeout
    let r2 := probe_loop e timeout rest r.1 (success || r.2.2)
    (r.2.1 :: r2.1, r2.2.1, r2.2.2)

/-- The function `nm_acd_manager_start_probe`: the new manager and the returned `gboolean`. -/
def nm_acd_manager_start_probe (e : Engine) (self : NMAcdManagerPrivate) (timeout : Nat) :
    NMAcdManagerPrivate × Bool :=
  if self.state ≠ State.STATE_INIT then (self, false)
  else
    match acd_init e self with
    | (s0, r) =>
      if r ≠ 0 then (s0, false)
      else
        let s1 := { s0 with completed := 0 }
        let l := probe_loop e timeout s1.addresses s1.calls false
        let s2 := { s1 with addresses := l.1, calls := l.2.1 }
        let s3 := if l.2.2 then { s2 with state := State.STATE_PROBING } else s2
        ({ s3 with event_id := s3.event_id + 1 }, l.2.2)

/-! ## `nm_acd_manager_reset`, `nm_acd_manager_check_address` -/

/-- The function `destroy_address_info` applied by `g_hash_table_remove_all` to every entry:
the requests `n_acd_probe_free (info->probe)`. -/
def destroy_address_info (t : List AddressInfo) : List EngineCall :=
  t.map (fun i => EngineCall.n_acd_probe_free i.address i.probe)

/-- The function `nm_acd_manager_reset`. -/
def nm_acd_manager_reset (self : NMAcdManagerPrivate) : NMAcdManagerPrivate :=
  { self with
      calls := self.calls ++ destroy_address_info self.addresses
      addresses := []
      state := State.STATE_INIT }

/-- The function `nm_acd_manager_check_address`: the returned `gboolean`. -/
def nm_acd_manager_check_address (self : NMAcdManagerPrivate) (address : Nat) : Bool :=
  if ¬ (self.state = State.STATE_INIT ∨ self.state = State.STATE_PROBE_DONE) then false
  else
    match g_hash_table_lookup self.addresses address with
    | none => false
    | some info => !info.duplicate

/-! ## `nm_acd_manager_announce_addresses` -/

/-- The loop of the `STATE_INIT` branch: `acd_probe_add (self, info, 0)` for every
entry, the result being discarded. -/
def announce_probe_loop (e : Engine) :
    List AddressInfo → List EngineCall → List AddressInfo × List EngineCall
  | [], calls => ([], calls)
  | info :: rest, calls =>
    let r := acd_probe_add e calls info 0
    let r2 := announce_probe_loop e rest r.1
    (r.2.1 :: r2.1, r2.2)

/-- The loop of the `STATE_ANNOUNCING` branch: entries whose `duplicate` is set
are skipped, `n_acd_probe_announce (info->probe, N_ACD_DEFEND_ONCE)` is called
for the others. -/
def announce_loop (e : Engine) : List AddressInfo → List EngineCall → List EngineCall
  | [], calls => calls
  | info :: rest, calls =>
    if info.duplicate then announce_loop e rest calls
    else
      announce_loop e rest
        (calls ++
          [EngineCall.n_acd_probe_announce info.address NAcdDefend.N_ACD_DEFEND_ONCE
            (e.n_acd_probe_announce info.address)])

/-- The function `nm_acd_manager_announce_addresses`.  When `acd_init` fails the C code
formats its warning from `info->address` while `info` is still uninitialised;
`none` stands for that undefined read. -/
def nm_acd_manager_announce_addresses (e : Engine) (self : NMAcdManagerPrivate) :
    Option NMAcdManagerPrivate :=
  match acd_init e self with
  | (s0, r) =>
    if r ≠ 0 then none
    else if s0.state = State.STATE_INIT then
      let l := announce_probe_loop e s0.addresses s0.calls
      some { s0 with addresses := l.1, calls := l.2, state := State.STATE_ANNOUNCING }
    else if s0.state = State.STATE_ANNOUNCING then
      some { s0 with calls := announce_loop e s0.addresses s0.calls }
    else some s0

/-! ## Vocabulary of the statements -/

/-- Whether the engine accepts the probe of address `a`, that is whether both
engine calls of `acd_probe_add` return `0` for it. -/
def probe_accepted (e : Engine) (a : Nat) : Bool :=
  decide (e.n_acd_probe_config_new a = 0) && decide (e.n_acd_probe a = 0)

/-- An event is terminal for its probe when its code is `N_ACD_EVENT_READY` or
`N_ACD_EVENT_USED`. -/
def terminal (ev : NAcdEvent) : Prop :=
  ev.event = NAcdEventKind.N_ACD_EVENT_READY ∨ ev.event = NAcdEventKind.N_ACD_EVENT_USED

instance (ev : NAcdEvent) : Decidable (terminal ev) := by
  unfold terminal; infer_instance

/-- Successive invocations of `acd_event`, one per wakeup of the watch; every
wakeup comes with the results of the engine during it and with the queue of
events the engine holds at that moment. -/
def dispatch_all :
    NMAcdManagerPrivate → List (Engine × List NAcdEvent) → NMAcdManagerPrivate
  | self, [] => self
  | self, w :: ws => dispatch_all (acd_event w.1 self w.2).1 ws

/-- All the events of a sequence of wakeups, in the order of their dispatch. -/
def events_of (ws : List (Engine × List NAcdEvent)) : List NAcdEvent :=
  (ws.map (fun w => w.2)).flatten

/-- The value of `info->duplicate` for the entry of address `a`, if there is
one. -/
def duplicate_of (t : List AddressInfo) (a : Nat) : Option Bool :=
  (g_hash_table_lookup t a).map (fun i => i.duplicate)

/-- The table after the assignments to `info->duplicate` that a list of terminal
events causes: `TRUE` for `N_ACD_EVENT_USED`, `FALSE` for `N_ACD_EVENT_READY`. -/
def flags_after (t : List AddressInfo) (evs : List NAcdEvent) : List AddressInfo :=
  evs.foldl
    (fun t ev => info_set_duplicate t ev.probe (decide (ev.event = NAcdEventKind.N_ACD_EVENT_USED)))
    t

/-- What can happen to a manager: a call of a public entry point by the owner
of the manager, or a wakeup of the watch with the engine's queue of events. -/
inductive Op where
  | add_address (address : Nat)
  | start_probe (e : Engine) (timeout : Nat)
  | announce_addresses (e : Engine)
  | reset
  | event (e : Engine) (queue : List NAcdEvent)

/-- The manager after one operation; `none` only when
`nm_acd_manager_announce_addresses` has no defined result. -/
def step (self : NMAcdManagerPrivate) : Op → Option NMAcdManagerPrivate
  | Op.add_address address => some (nm_acd_manager_add_address self address).1
  | Op.start_probe e timeout => some (nm_acd_manager_start_probe e self timeout).1
  | Op.announce_addresses e => nm_acd_manager_announce_addresses e self
  | Op.reset => some (nm_acd_manager_reset self)
  | Op.event e queue => some (acd_event e self queue).1

/-- The manager after a sequence of operations. -/
def run : NMAcdManagerPrivate → List Op → Option NMAcdManagerPrivate
  | self, [] => some self
  | self, op :: ops =>
    match step self op with
    | none => none
    | some s1 => run s1 ops

/-- The operation dispatches no event for address `a` and is not a reset. -/
def Op.spares (a : Nat) : Op → Prop
  | Op.reset => False
  | Op.event _ queue => ∀ ev ∈ queue, ev.probe ≠ a
  | _ => True

/-- The number of announce requests for address `a` in a list of engine
requests. -/
def announce_count (calls : List EngineCall) (a : Nat) : Nat :=
  calls.countP (fun c =>
    match c with
    | EngineCall.n_acd_probe_announce b _ _ => decide (b = a)
    | _ => false)

/-- The requests of one pass of the `STATE_ANNOUNCING` loop of
`nm_acd_manager_announce_addresses`, as the statements describe them: one
defend-once announce request for every entry whose `duplicate` is not set. -/
def announce_requests (e : Engine) (t : List AddressInfo) : List EngineCall :=
  (t.filter (fun i => !i.duplicate)).map
    (fun i => EngineCall.n_acd_probe_announce i.address NAcdDefend.N_ACD_DEFEND_ONCE
      (e.n_acd_probe_announce i.address))

/-- The number of probe requests for address `a` with the given timeout in a
list of engine requests. -/
def probe_count (calls : List EngineCall) (a : Nat) (timeout : Nat) : Nat :=
  calls.countP (fun c =>
    match c with
    | EngineCall.n_acd_probe b t _ => decide (b = a) && decide (t = timeout)
    | _ => false)

/-- The operation is a call of `nm_acd_manager_start_probe`. -/
def Op.starts_probe : Op → Prop
  | Op.start_probe _ _ => True
  | _ => False

/-- The bound on `completed` that holds while a probing pass runs and after it
has ended: below the number of entries in `STATE_PROBING`, at most that number
in `STATE_PROBE_DONE`. -/
def probing_bound (self : NMAcdManagerPrivate) : Prop :=
  (self.state = State.STATE_PROBING → self.completed < self.addresses.length) ∧
  (self.state = State.STATE_PROBE_DONE → self.completed ≤ self.addresses.length)

/-- The terminal events that one invocation of `acd_event` acts on: none when
`n_acd_dispatch` fails, otherwise the events of the queue up to the first one
that is neither `N_ACD_EVENT_READY` nor `N_ACD_EVENT_USED`, at which the handler
returns. -/
def consumed (e : Engine) (queue : List NAcdEvent) : List NAcdEvent :=
  if e.n_acd_dispatch ≠ 0 then [] else queue.takeWhile (fun ev => decide (terminal ev))

/-- The terminal events that the manager receives in one operation. -/
def Op.received : Op → List NAcdEvent
  | Op.event e queue => consumed e queue
  | _ => []

/-- The terminal events that the manager receives in a sequence of operations,
oldest first. -/
def received (ops : List Op) : List NAcdEvent :=
  (ops.map Op.received).flatten

/-- The operation is a call of `nm_acd_manager_reset`. -/
def Op.resets : Op → Prop
  | Op.reset => True
  | _ => False

instance (op : Op) : Decidable op.resets := by
  cases op <;> unfold Op.resets <;> infer_instance

/-- The progress of a probing pass over a table of `n` entries after `k` terminal
events: `STATE_PROBING` with `completed = k` while `k < n`, `STATE_PROBE_DONE`
from then on. -/
def pass_progress (n k : Nat) (self : NMAcdManagerPrivate) : Prop :=
  self.addresses.length = n ∧
  (k < n → self.state = State.STATE_PROBING ∧ self.completed = k) ∧
  (n ≤ k → self.state = State.STATE_PROBE_DONE)

/-! ## Sample data -/

/-- An engine that accepts every request. -/
def engine_ok : Engine where
  n_acd_dispatch := 0
  n_acd_config_new := 0
  n_acd_new := 0
  n_acd_probe_config_new := fun _ => 0
  n_acd_probe := fun _ => 0
  n_acd_probe_announce := fun _ => 0

/-- A manager as `nm_acd_manager_new` makes it, for interface 2. -/
def manager0 : NMAcdManagerPrivate where
  ifindex := 2
  hwaddr := [0, 17, 34, 51, 68, 85]
  state := State.STATE_INIT
  addresses := []
  completed := 0
  acd := false
  event_id := 0
  calls := []
  signals := 0

/-- The address 10.0.0.5 as a number. -/
def addr5 : Nat := 167772165

/-- The address 10.0.0.6 as a number. -/
def addr6 : Nat := 167772166

/-- The table with 10.0.0.5 and 10.0.0.6 registered, in `STATE_INIT`. -/
def manager2 : NMAcdManagerPrivate :=
  (nm_acd_manager_add_address (nm_acd_manager_add_address manager0 addr5).1 addr6).1

/-- Two wakeups: `N_ACD_EVENT_READY` for 10.0.0.5, then `N_ACD_EVENT_USED` for
10.0.0.6. -/
def wakeups_ready_used : List (Engine × List NAcdEvent) :=
  [(engine_ok, [{ event := NAcdEventKind.N_ACD_EVENT_READY, probe := addr5 }]),
   (engine_ok, [{ event := NAcdEventKind.N_ACD_EVENT_USED, probe := addr6 }])]

/-- An engine that rejects the probe of 10.0.0.6 (`-ENOMEM`) and accepts every
other request. -/
def engine_reject6 : Engine where
  n_acd_dispatch := 0
  n_acd_config_new := 0
  n_acd_new := 0
  n_acd_probe_config_new := fun _ => 0
  n_acd_probe := fun a => if a = addr6 then -12 else 0
  n_acd_probe_announce := fun _ => 0

/-- The manager after the probing pass of the example scenario: 10.0.0.5 free,
10.0.0.6 duplicate, phase `STATE_PROBE_DONE`. -/
def manager_done : NMAcdManagerPrivate :=
  dispatch_all (nm_acd_manager_start_probe engine_ok manager2 200).1 wakeups_ready_used

/-- The address 10.0.0.7 as a number; it is registered in none of the sample
managers. -/
def addr7 : Nat := 167772167

/-- The manager after `nm_acd_manager_announce_addresses` on the table with
10.0.0.5 and 10.0.0.6 in `STATE_INIT` and after the `N_ACD_EVENT_READY` of the
zero-timeout probe of 10.0.0.5, which made the manager announce 10.0.0.5 with
success. -/
def manager_announced : Option NMAcdManagerPrivate :=
  match nm_acd_manager_announce_addresses engine_ok manager2 with
  | none => none
  | some s1 =>
    some (acd_event engine_ok s1
      [{ event := NAcdEventKind.N_ACD_EVENT_READY, probe := addr5 }]).1

/-- The operations of the example scenario after `nm_acd_manager_start_probe`:
the two wakeups, with a refused registration between them. -/
def sample_pass : List Op :=
  [Op.event engine_ok [{ event := NAcdEventKind.N_ACD_EVENT_READY, probe := addr5 }],
   Op.add_address addr7,
   Op.event engine_ok [{ event := NAcdEventKind.N_ACD_EVENT_USED, probe := addr6 }]]

/-- The operations of the example scenario followed by a late
`N_ACD_EVENT_USED` for 10.0.0.5, dispatched in `STATE_PROBE_DONE`. -/
def sample_pass_late : List Op :=
  sample_pass ++
    [Op.event engine_ok [{ event := NAcdEventKind.N_ACD_EVENT_USED, probe := addr5 }]]

/-- The manager after the example scenario and the late `N_ACD_EVENT_USED` for
10.0.0.5: both addresses duplicate, phase `STATE_PROBE_DONE`. -/
def manager_done_late : NMAcdManagerPrivate :=
  (acd_event engine_ok manager_done
    [{ event := NAcdEventKind.N_ACD_EVENT_USED, probe := addr5 }]).1

/-- One wakeup with two `N_ACD_EVENT_READY` events, both for 10.0.0.5. -/
def sample_repeated : List Op :=
  [Op.event engine_ok
    [{ event := NAcdEventKind.N_ACD_EVENT_READY, probe := addr5 },
     { event := NAcdEventKind.N_ACD_EVENT_READY, probe := addr5 }]]

/-- An engine that cannot be constructed: `n_acd_config_new` fails with
`-ENOMEM`. -/
def engine_no_acd : Engine where
  n_acd_dispatch := 0
  n_acd_config_new := -12
  n_acd_new := 0
  n_acd_probe_config_new := fun _ => 0
  n_acd_probe := fun _ => 0
  n_acd_probe_announce := fun _ => 0

/-- The manager of the example scenario right after
`nm_acd_manager_start_probe`, in `STATE_PROBING`. -/
def manager_probing : NMAcdManagerPrivate :=
  (nm_acd_manager_start_probe engine_ok manager2 200).1

/-- A queue that holds `N_ACD_EVENT_DEFENDED` for 10.0.0.5 followed by
`N_ACD_EVENT_READY` for 10.0.0.6. -/
def queue_defended_ready : List NAcdEvent :=
  [{ event := NAcdEventKind.N_ACD_EVENT_DEFENDED, probe := addr5 },
   { event := NAcdEventKind.N_ACD_EVENT_READY, probe := addr6 }]

/-- The manager that `nm_acd_manager_announce_addresses` makes of the table with
10.0.0.5 and 10.0.0.6 in `STATE_INIT`: both zero-timeout probes started, phase
`STATE_ANNOUNCING`. -/
def manager_announcing : NMAcdManagerPrivate where
  ifindex := 2
  hwaddr := [0, 17, 34, 51, 68, 85]
  state := State.STATE_ANNOUNCING
  addresses :=
    [{ address := addr5, duplicate := false, probe := true },
     { address := addr6, duplicate := false, probe := true }]
  completed := 0
  acd := true
  event_id := 0
  calls := [EngineCall.n_acd_probe addr5 0 0, EngineCall.n_acd_probe addr6 0 0]
  signals := 0

end NMAcd

/-!
# NetworkManager: the dhclient hooks

A shallow embedding of `process_rfc3442_route`,
`nm_dhcp_client_process_classless_routes` and `merge_dhclient_config` of
`src/dhcp-manager/nm-dhcp-dhclient.c`.

Conventions:

* a C string is the list of its characters before the terminating NUL, a
  NULL-terminated vector of strings is a list of strings, and a position in such
  a vector (`const char **o`) is the part of the list from that position on;
* an IPv4 address (`guint32` in network byte order) is the number whose most
  significant octet is the first octet of the address, so that `&` on addresses
  is `&&&` on these numbers;
* `_("...")` is the untranslated message.
-/

namespace NMDhcp

/-! ## Functions of libc and GLib -/

/-- The characters for which `g_ascii_isspace` of GLib holds: space, `\t`,
`\n`, `\f`, `\r`. The vertical tab (11) is not among them. -/
def g_ascii_isspace (c : Char) : Bool :=
  c.toNat = 32 || c.toNat = 9 || c.toNat = 10 || c.toNat = 12 || c.toNat = 13

/-- The characters for which `isspace` of libc holds in the C locale: space,
`\t`, `\n`, `\v`, `\f`, `\r`. -/
def isspace (c : Char) : Bool :=
  c.toNat = 32 || (9 ≤ c.toNat && c.toNat ≤ 13)

/-- The number that a string of decimal digits denotes. -/
def decimal_value (ds : List Char) : Nat :=
  ds.foldl (fun acc c => 10 * acc + (c.toNat - 48)) 0

/-- The constant `LONG_MAX` of a 64-bit `long`. -/
def LONG_MAX : Int := 9223372036854775807

/-- The constant `LONG_MIN` of a 64-bit `long`. -/
def LONG_MIN : Int := -9223372036854775808

/-- The call `strtol (s, NULL, 10)`: leading white space, as `isspace` tells it,
is skipped, an optional sign is read, then the longest run of decimal digits;
without digits the result is 0, and a value out of the range of `long` is
clamped. -/
def strtol (s : List Char) : Int :=
  match s.dropWhile isspace with
  | [] => 0
  | c :: r =>
    if c.toNat = 45 then
      max (-(decimal_value (r.takeWhile Char.isDigit) : Int)) LONG_MIN
    else if c.toNat = 43 then
      min (decimal_value (r.takeWhile Char.isDigit) : Int) LONG_MAX
    else
      min (decimal_value ((c :: r).takeWhile Char.isDigit) : Int) LONG_MAX

/-- The result of `g_strsplit (str, " ", 0)` and of `g_strsplit_set` with no
limit, for the set of delimiters `delim`: the pieces between the delimiters,
empty pieces included; the empty string gives the empty vector. -/
def g_strsplit_set (str : List Char) (delim : Char → Bool) : List (List Char) :=
  if str = [] then [] else str.splitOnP delim

/-- The call `g_strsplit (str, " ", 0)`. -/
def g_strsplit_space (str : List Char) : List (List Char) :=
  g_strsplit_set str (fun c => c == Char.ofNat 32)

/-- The call `g_strjoin (".", ...)`. -/
def g_strjoin_dot (parts : List (List Char)) : List Char :=
  [Char.ofNat 46].intercalate parts

/-- The function `g_strstrip`, that is `g_strchomp (g_strchug (s))`: the leading
and then the trailing characters for which `g_ascii_isspace` holds are removed. -/
def g_strstrip (s : List Char) : List Char :=
  ((s.dropWhile g_ascii_isspace).reverse.dropWhile g_ascii_isspace).reverse

/-- One part of a dotted quad as `inet_pton` of glibc reads it: one to three
decimal digits, no leading zero before another digit, value at most 255. -/
def parse_octet (t : List Char) : Option Nat :=
  if t = [] then none
  else if ¬ (t.all Char.isDigit = true) then none
  else if t.head? = some (Char.ofNat 48) ∧ 1 < t.length then none
  else if 255 < decimal_value t then none
  else some (decimal_value t)

/-- The call `inet_pton (AF_INET, s, &addr)`: `none` when the result is `<= 0`,
otherwise the address written to `addr`. -/
def inet_pton (s : List Char) : Option Nat :=
  match (s.splitOnP (fun c => c == Char.ofNat 46)).map parse_octet with
  | [some a, some b, some c, some d] => some (((a * 256 + b) * 256 + c) * 256 + d)
  | _ => none

/-! ## Functions of libnm-util -/

/-- Modelled from the spec: `nm_utils_ip4_prefix_to_netmask` is a helper of
libnm-util that the source calls and that is not in the source tree; the
statement about `process_rfc3442_route` describes its result as the mask of the
first `p` bits of an address: the 32-bit number whose `p` most significant bits
are set. -/
def nm_utils_ip4_prefix_to_netmask (p : Nat) : Nat :=
  2 ^ 32 - 2 ^ (32 - p)

/-- The fields of an `NMIP4Route` that the source sets and reads;
`nm_ip4_route_new` zeroes them. -/
structure NMIP4Route where
  dest : Nat
  plen : Nat
  next_hop : Nat
  deriving DecidableEq, Repr

/-- The getters of `NMSettingIP4Config` that the source calls; `none` is
`NULL`. -/
structure NMSettingIP4Config where
  dhcp_client_id : Option (List Char)
  dhcp_hostname : Option (List Char)
  deriving DecidableEq, Repr

/-- The fields of an `NMDHCPDevice` that `merge_dhclient_config` reads. -/
structure NMDHCPDevice where
  iface : Option (List Char)
  conf_file : List Char
  deriving DecidableEq, Repr

/-! ## `process_rfc3442_route` -/

/-- The number of address octets of a route entry:
`if (tmp > 0) addr_len = ((tmp - 1) / 8) + 1`. -/
def addr_len (tmp : Int) : Nat :=
  if tmp > 0 then ((tmp - 1) / 8 + 1).toNat else 0

/-- The array `addr` after the loop `addr[i] = *o++`: the first `n` strings at
`o`, the other entries being `"0"`. -/
def addr_octets (o : List (List Char)) (n : Nat) : List (List Char) :=
  (o.take n ++ List.replicate 4 [Char.ofNat 48]).take 4

/-- The end of `process_rfc3442_route`, from the comment `Handle next hop` on:
the position returned and the route stored in `*out_route`, if any. -/
def process_next_hop (o : List (List Char)) (route : NMIP4Route) :
    List (List Char) × Option NMIP4Route :=
  match inet_pton (g_strjoin_dot (o.take 4)) with
  | none => (o, none)
  | some nh => (o.drop 4, some { route with next_hop := nh })

/-- The function `process_rfc3442_route`: the position returned and the route
stored in `*out_route`; `none` when `*out_route` is not written (the caller has
set it to `NULL`). -/
def process_rfc3442_route (octets : List (List Char)) :
    List (List Char) × Option NMIP4Route :=
  match octets with
  | [] => ([], none)
  | t :: o =>
    if strtol t < 0 ∨ strtol t > 32 then (t :: o, none)
    else if o.length < addr_len (strtol t) + 4 then (o, none)
    else if strtol t ≠ 0 then
      match inet_pton (g_strjoin_dot (addr_octets o (addr_len (strtol t)))) with
      | none => (o.drop (addr_len (strtol t)), none)
      | some a =>
        process_next_hop (o.drop (addr_len (strtol t)))
          { dest := a &&& nm_utils_ip4_prefix_to_netmask (strtol t).toNat
            plen := (strtol t).toNat
            next_hop := 0 }
    else
      process_next_hop o { dest := 0, plen := (strtol t).toNat, next_hop := 0 }

/-! ## `nm_dhcp_client_process_classless_routes` -/

/-- The `while (*o)` loop of `nm_dhcp_client_process_classless_routes` from
position `o`: the routes of the IP4 config, `*gwaddr` and `have_routes` when the
loop ends.  The first argument bounds the number of iterations; `none` means
that the bound was reached. -/
def classless_loop :
    Nat → List (List Char) → List NMIP4Route → Nat → Bool →
      Option (List NMIP4Route × Nat × Bool)
  | _, [], routes, gwaddr, have_routes => some (routes, gwaddr, have_routes)
  | 0, _ :: _, _, _, _ => none
  | fuel + 1, t :: o, routes, gwaddr, have_routes =>
    match process_rfc3442_route (t :: o) with
    | (_, none) => some (routes, gwaddr, have_routes)
    | (o1, some route) =>
      if route.plen = 0 then classless_loop fuel o1 routes route.next_hop true
      else classless_loop fuel o1 (routes ++ [route]) gwaddr true

/-- The option string that `nm_dhcp_client_process_classless_routes` reads:
`new_rfc3442_classless_static_routes`, or `new_ms_classless_static_routes` when
the first is absent. -/
def classless_option (options : String → Option (List Char)) : Option (List Char) :=
  match options "new_rfc3442_classless_static_routes" with
  | some str => some str
  | none => options "new_ms_classless_static_routes"

/-- The function `nm_dhcp_client_process_classless_routes`: the routes of the
IP4 config, `*gwaddr` and the returned `gboolean`.  The options are a lookup
function, the IP4 config is its list of routes. -/
def nm_dhcp_client_process_classless_routes (options : String → Option (List Char))
    (ip4_config : List NMIP4Route) (gwaddr : Nat) : Option (List NMIP4Route × Nat × Bool) :=
  match classless_option options with
  | none => some (ip4_config, gwaddr, false)
  | some str =>
    if str.length = 0 then some (ip4_config, gwaddr, false)
    else if (g_strsplit_space str).length < 5 then some (ip4_config, gwaddr, false)
    else
      classless_loop (g_strsplit_space str).length (g_strsplit_space str) ip4_config gwaddr false

/-! ## `merge_dhclient_config` -/

/-- The macro `DHCP_CLIENT_ID_TAG`. -/
def DHCP_CLIENT_ID_TAG : List Char := "send dhcp-client-identifier".toList

/-- The macro `DHCP_HOSTNAME_TAG`. -/
def DHCP_HOSTNAME_TAG : List Char := "send host-name".toList

/-- The text that `g_string_append_printf (..., DHCP_CLIENT_ID_FORMAT "\n", tmp)`
appends. -/
def dhcp_client_id_line (tmp : List Char) : List Char :=
  DHCP_CLIENT_ID_TAG ++ " \"".toList ++ tmp ++ "\"; # added by NetworkManager\n".toList

/-- The text that `g_string_append_printf (..., DHCP_HOSTNAME_FORMAT "\n", tmp)`
appends. -/
def dhcp_hostname_line (tmp : List Char) : List Char :=
  DHCP_HOSTNAME_TAG ++ " \"".toList ++ tmp ++ "\"; # added by NetworkManager\n".toList

/-- The two tests of the loop body that set `ignore`, on a stripped line. -/
def ignore_line (s_ip4 : Option NMSettingIP4Config) (line : List Char) : Bool :=
  match s_ip4 with
  | none => false
  | some c =>
    (c.dhcp_client_id.isSome && DHCP_CLIENT_ID_TAG.isPrefixOf line) ||
    (c.dhcp_hostname.isSome && DHCP_HOSTNAME_TAG.isPrefixOf line)

/-- The `for` loop over the lines of the existing configuration: the string
`new_contents` after it. -/
def merge_lines (s_ip4 : Option NMSettingIP4Config) :
    List (List Char) → List Char → List Char
  | [], new_contents => new_contents
  | line :: rest, new_contents =>
    if (g_strstrip line).length = 0 then merge_lines s_ip4 rest new_contents
    else if ignore_line s_ip4 (g_strstrip line) then merge_lines s_ip4 rest new_contents
    else merge_lines s_ip4 rest (new_contents ++ g_strstrip line ++ [Char.ofNat 10])

/-- The block `Add NM options from connection`: the text appended. -/
def nm_options (s_ip4 : Option NMSettingIP4Config) : List Char :=
  match s_ip4 with
  | none => []
  | some c =>
    (match c.dhcp_client_id with
      | some tmp => dhcp_client_id_line tmp
      | none => []) ++
    (match c.dhcp_hostname with
      | some tmp => dhcp_hostname_line tmp
      | none => [])

/-- The string `new_contents` that `merge_dhclient_config` hands to
`g_file_set_contents`. -/
def merged_contents (s_ip4 : Option NMSettingIP4Config) (contents : Option (List Char))
    (orig : List Char) : List Char :=
  (match contents with
    | some c =>
      merge_lines s_ip4
        (g_strsplit_set c (fun x => x == Char.ofNat 10 || x == Char.ofNat 13))
        ("# Created by NetworkManager\n".toList ++
          ("# Merged from ".toList ++ orig ++ "\n\n".toList))
    | none => "# Created by NetworkManager\n".toList ++ [Char.ofNat 10]) ++
  nm_options s_ip4

/-- The function `merge_dhclient_config`: the text written to
`device->conf_file`, if `g_file_set_contents` is reached, and the returned
`gboolean`; `written` is the result of `g_file_set_contents`. -/
def merge_dhclient_config (device : Option NMDHCPDevice) (s_ip4 : Option NMSettingIP4Config)
    (contents : Option (List Char)) (orig : List Char) (written : Bool) :
    Option (List Char) × Bool :=
  match device with
  | none => (none, false)
  | some d =>
    match d.iface with
    | none => (none, false)
    | some _ => (some (merged_contents s_ip4 contents orig), written)

/-! ## Vocabulary of the statements -/

/-- The address whose octets, first to last, are the given numbers. -/
def ip4_of_octets (octets : List Nat) : Nat :=
  octets.foldl (fun acc v => acc * 256 + v) 0

/-- The string is a nonempty run of decimal digits. -/
def is_decimal (t : List Char) : Prop :=
  t ≠ [] ∧ ∀ c ∈ t, c.isDigit = true

instance (t : List Char) : Decidable (is_decimal t) := by
  unfold is_decimal; infer_instance

/-- A well-formed route entry and the route it denotes: a run of decimal digits
for a prefix length of at most 32, as many valid address octets as the prefix
length needs, and four valid octets for the next hop. -/
def well_formed_entry (ts : List (List Char)) (route : NMIP4Route) : Prop :=
  ∃ (pt : List Char) (addr hop : List (List Char)) (avals : List Nat) (h0 h1 h2 h3 : Nat),
    ts = pt :: (addr ++ hop) ∧
    is_decimal pt ∧ decimal_value pt = route.plen ∧ route.plen ≤ 32 ∧
    addr.length = (route.plen + 7) / 8 ∧
    addr.map parse_octet = avals.map some ∧
    hop.map parse_octet = [some h0, some h1, some h2, some h3] ∧
    route.dest = ip4_of_octets (avals ++ List.replicate (4 - avals.length) 0) &&&
      nm_utils_ip4_prefix_to_netmask route.plen ∧
    route.next_hop = ip4_of_octets [h0, h1, h2, h3]

/-- The tokens of a list of entries, each given with the route it denotes. -/
def tokens_of (entries : List (List (List Char) × NMIP4Route)) : List (List Char) :=
  (entries.map (fun en => en.1)).flatten

/-- The routes of a list of entries. -/
def routes_of (entries : List (List (List Char) × NMIP4Route)) : List NMIP4Route :=
  entries.map (fun en => en.2)

/-- The gateway after a list of routes, as the statements describe it: every
route of prefix length 0 sets it to its next hop, the other routes leave it. -/
def gateway_after (gwaddr : Nat) (routes : List NMIP4Route) : Nat :=
  routes.foldl (fun g r => if r.plen = 0 then r.next_hop else g) gwaddr

/-- The option string `24 192 168 5 10 0 0 1 0 10 0 0 254`: the route
192.168.5.0/24 through 10.0.0.1 and the default gateway 10.0.0.254. -/
def sample_routes : List Char := "24 192 168 5 10 0 0 1 0 10 0 0 254".toList

/-- The lines of an existing configuration that the merged configuration keeps,
as the statements describe them: the lines between line ends, stripped of white
space, without the blank ones and without the ones that NetworkManager
replaces. -/
def kept_lines (s_ip4 : Option NMSettingIP4Config) (c : List Char) : List (List Char) :=
  ((g_strsplit_set c (fun x => x == Char.ofNat 10 || x == Char.ofNat 13)).map g_strstrip).filter
    (fun l => !(l.length == 0) && !ignore_line s_ip4 l)

/-- A device for the interface `eth0`. -/
def sample_device : NMDHCPDevice where
  iface := some "eth0".toList
  conf_file := "/var/run/nm-dhclient-eth0.conf".toList

/-- A setting with the DHCP client id `abc` and no DHCP hostname. -/
def sample_setting : NMSettingIP4Config where
  dhcp_client_id := some "abc".toList
  dhcp_hostname := none

/-- An existing configuration: an indented line, an empty line, a client id
line, a hostname line, and a line that starts with a vertical tab and ends with
a form feed. -/
def sample_config : List Char :=
  "  foo bar;\n\nsend dhcp-client-identifier 1;\r\n send host-name \"x\";\n\x0bv\x0c".toList

/-- The two entries of `sample_routes` with the routes they denote. -/
def sample_entries : List (List (List Char) × NMIP4Route) :=
  [(["24".toList, "192".toList, "168".toList, "5".toList,
      "10".toList, "0".toList, "0".toList, "1".toList],
    { dest := 3232236800, plen := 24, next_hop := 167772161 }),
   (["0".toList, "10".toList, "0".toList, "0".toList, "254".toList],
    { dest := 0, plen := 0, next_hop := 167772414 })]

/-- Options that hold `sample_routes` under the RFC 3442 key. -/
def sample_options : String → Option (List Char) :=
  fun k => if k = "new_rfc3442_classless_static_routes" then some sample_routes else none

end NMDhcp

namespace NMAcd

/-! ## Lemmas on the address table -/

theorem lookup_none_iff (t : List AddressInfo) (a : Nat) :
    g_hash_table_lookup t a = none ↔ a ∉ keys t := by
  unfold g_hash_table_lookup keys
  rw [List.find?_eq_none, List.mem_map]
  constructor
  · rintro h ⟨i, hi, hia⟩
    exact h i hi (by simpa using hia)
  · intro h i hi hia
    exact h ⟨i, hi, by simpa using hia⟩

theorem lookup_append_new (t : List AddressInfo) (a : Nat) (info : AddressInfo)
    (h : info.address = a) (hn : g_hash_table_lookup t a = none) :
    g_hash_table_lookup (t ++ [info]) a = some info := by
  unfold g_hash_table_lookup at *
  rw [List.find?_append, hn]
  simp [List.find?, h]

theorem filter_key_absent (t : List AddressInfo) (a : Nat) (h : a ∉ keys t) :
    t.filter (fun i => i.address == a) = [] := by
  rw [List.filter_eq_nil_iff]
  intro i hi hia
  apply h
  unfold keys
  rw [List.mem_map]
  exact ⟨i, hi, by simpa using hia⟩

/-! ## Registration -/

/-- C1: in `STATE_INIT`, adding an address that is not in the table twice
returns `TRUE` the first time and `FALSE` the second time; afterwards the table
holds exactly one entry for the address and is one entry longer than before. -/
theorem add_address_twice (self : NMAcdManagerPrivate) (a : Nat)
    (hs : self.state = State.STATE_INIT)
    (hn : g_hash_table_lookup self.addresses a = none) :
    (nm_acd_manager_add_address self a).2 = true ∧
    (nm_acd_manager_add_address (nm_acd_manager_add_address self a).1 a).2 = false ∧
    ((nm_acd_manager_add_address (nm_acd_manager_add_address self a).1 a).1.addresses.filter
        (fun i => i.address == a)).length = 1 ∧
    (nm_acd_manager_add_address (nm_acd_manager_add_address self a).1 a).1.addresses.length
      = self.addresses.length + 1 := by
  have h1 : nm_acd_manager_add_address self a =
      ({ self with
          addresses := self.addresses ++ [{ address := a, duplicate := false, probe := false }] },
        true) := by
    simp [nm_acd_manager_add_address, hs, hn]
  have hl := lookup_append_new self.addresses a
    { address := a, duplicate := false, probe := false } rfl hn
  have h2 : nm_acd_manager_add_address
      { self with
          addresses := self.addresses ++ [{ address := a, duplicate := false, probe := false }] } a
      = ({ self with
          addresses := self.addresses ++ [{ address := a, duplicate := false, probe := false }] },
        false) := by
    simp [nm_acd_manager_add_address, hs, hl]
  have hk : a ∉ keys self.addresses := (lookup_none_iff _ _).1 hn
  rw [h1]
  simp only [h2]
  refine ⟨trivial, trivial, ?_, ?_⟩
  · rw [List.filter_append, filter_key_absent _ _ hk]
    simp
  · simp

theorem add_address_twice_witness :
    (nm_acd_manager_add_address manager0 addr5).2 = true ∧
    (nm_acd_manager_add_address (nm_acd_manager_add_address manager0 addr5).1 addr5).2 = false ∧
    ((nm_acd_manager_add_address
        (nm_acd_manager_add_address manager0 addr5).1 addr5).1.addresses.filter
        (fun i => i.address == addr5)).length = 1 ∧
    (nm_acd_manager_add_address
        (nm_acd_manager_add_address manager0 addr5).1 addr5).1.addresses.length
      = manager0.addresses.length + 1 :=
  add_address_twice manager0 addr5 rfl rfl

/-! ## Reset -/

/-- C6: whatever the phase and the contents of the table, `nm_acd_manager_reset`
leaves the table empty and the phase `STATE_INIT`. -/
theorem reset_clears (self : NMAcdManagerPrivate) :
    (nm_acd_manager_reset self).addresses = [] ∧
    (nm_acd_manager_reset self).state = State.STATE_INIT := by
  simp [nm_acd_manager_reset]

/-! ## Starting the probes -/

theorem acd_probe_add_ok (e : Engine) (calls : List EngineCall) (info : AddressInfo)
    (timeout : Nat) :
    (acd_probe_add e calls info timeout).2.2 = probe_accepted e info.address := by
  unfold acd_probe_add probe_accepted
  by_cases h1 : e.n_acd_probe_config_new info.address = 0
  · by_cases h2 : e.n_acd_probe info.address = 0 <;> simp [h1, h2]
  · simp [h1]

theorem acd_probe_add_address (e : Engine) (calls : List EngineCall) (info : AddressInfo)
    (timeout : Nat) :
    (acd_probe_add e calls info timeout).2.1.address = info.address := by
  unfold acd_probe_add
  by_cases h1 : e.n_acd_probe_config_new info.address = 0
  · by_cases h2 : e.n_acd_probe info.address = 0 <;> simp [h1, h2]
  · simp [h1]

theorem acd_probe_add_duplicate (e : Engine) (calls : List EngineCall) (info : AddressInfo)
    (timeout : Nat) :
    (acd_probe_add e calls info timeout).2.1.duplicate = info.duplicate := by
  unfold acd_probe_add
  by_cases h1 : e.n_acd_probe_config_new info.address = 0
  · by_cases h2 : e.n_acd_probe info.address = 0 <;> simp [h1, h2]
  · simp [h1]

theorem probe_loop_success (e : Engine) (timeout : Nat) (t : List AddressInfo) :
    ∀ (calls : List EngineCall) (b : Bool),
      (probe_loop e timeout t calls b).2.2
        = (b || t.any (fun i => probe_accepted e i.address)) := by
  induction t with
  | nil => intro calls b; simp [probe_loop]
  | cons i t ih =>
    intro calls b
    simp only [probe_loop, ih, acd_probe_add_ok, List.any_cons, Bool.or_assoc]

theorem probe_loop_length (e : Engine) (timeout : Nat) (t : List AddressInfo) :
    ∀ (calls : List EngineCall) (b : Bool),
      (probe_loop e timeout t calls b).1.length = t.length := by
  induction t with
  | nil => intro calls b; simp [probe_loop]
  | cons i t ih => intro calls b; simp [probe_loop, ih]

theorem probe_loop_keys (e : Engine) (timeout : Nat) (t : List AddressInfo) :
    ∀ (calls : List EngineCall) (b : Bool),
      keys (probe_loop e timeout t calls b).1 = keys t := by
  induction t with
  | nil => intro calls b; simp [probe_loop, keys]
  | cons i t ih =>
    intro calls b
    have h := ih (acd_probe_add e calls i timeout).1 (b || (acd_probe_add e calls i timeout).2.2)
    unfold keys at h ⊢
    simp [probe_loop, h, acd_probe_add_address]

theorem probe_loop_duplicate_of (e : Engine) (timeout : Nat) (a : Nat)
    (t : List AddressInfo) :
    ∀ (calls : List EngineCall) (b : Bool),
      duplicate_of (probe_loop e timeout t calls b).1 a = duplicate_of t a := by
  induction t with
  | nil => intro calls b; simp [probe_loop]
  | cons i t ih =>
    intro calls b
    have h := ih (acd_probe_add e calls i timeout).1 (b || (acd_probe_add e calls i timeout).2.2)
    unfold duplicate_of g_hash_table_lookup at h ⊢
    simp only [probe_loop, List.find?_cons, acd_probe_add_address]
    by_cases hia : i.address = a
    · have hb : (i.address == a) = true := by simpa using hia
      simp only [hb, Option.map_some', acd_probe_add_duplicate]
    · have hb : (i.address == a) = false := by simpa using hia
      simp only [hb]
      exact h

/-- The manager that `nm_acd_manager_start_probe` leaves when it runs in
`STATE_INIT` with an engine that can be constructed. -/
theorem start_probe_unfold (e : Engine) (self : NMAcdManagerPrivate) (timeout : Nat)
    (hs : self.state = State.STATE_INIT) (hi : (acd_init e self).2 = 0) :
    (nm_acd_manager_start_probe e self timeout).2
        = self.addresses.any (fun i => probe_accepted e i.address) ∧
    (nm_acd_manager_start_probe e self timeout).1.state
        = (if self.addresses.any (fun i => probe_accepted e i.address)
            then State.STATE_PROBING else State.STATE_INIT) ∧
    (nm_acd_manager_start_probe e self timeout).1.completed = 0 ∧
    (nm_acd_manager_start_probe e self timeout).1.signals = self.signals ∧
    (nm_acd_manager_start_probe e self timeout).1.addresses.length = self.addresses.length ∧
    keys (nm_acd_manager_start_probe e self timeout).1.addresses = keys self.addresses ∧
    ∀ a, duplicate_of (nm_acd_manager_start_probe e self timeout).1.addresses a
        = duplicate_of self.addresses a := by
  have h1 : (acd_init e self).1.state = State.STATE_INIT := by
    unfold acd_init; split_ifs <;> simp [hs]
  have h2 : (acd_init e self).1.addresses = self.addresses := by
    unfold acd_init; split_ifs <;> simp
  have h3 : (acd_init e self).1.signals = self.signals := by
    unfold acd_init; split_ifs <;> simp
  unfold nm_acd_manager_start_probe
  rcases hp : acd_init e self with ⟨s0, r⟩
  rw [hp] at hi h1 h2 h3
  simp only at hi h1 h2 h3
  subst hi
  simp only [hs, ne_eq, not_true_eq_false, if_false]
  simp only [h2, probe_loop_success, Bool.false_or]
  refine ⟨trivial, ?_, ?_, ?_, ?_, ?_, ?_⟩
  · by_cases hb : self.addresses.any (fun i => probe_accepted e i.address) = true
    · simp [hb]
    · simp [hb, h1]
  · split_ifs <;> simp
  · split_ifs <;> simp [h3]
  · split_ifs <;> simp [probe_loop_length]
  · split_ifs <;> simp [probe_loop_keys]
  · intro a
    split_ifs <;> simp [probe_loop_duplicate_of]

/-- C7: in `STATE_INIT` with an engine that can be constructed,
`nm_acd_manager_start_probe` returns `TRUE` exactly when the engine accepted the
probe of at least one registered address; the phase afterwards is
`STATE_PROBING` exactly when it returned `TRUE` and `STATE_INIT` otherwise, an
empty table gives `FALSE` and `STATE_INIT`, and `completed` is `0` afterwards. -/
theorem start_probe_result (e : Engine) (self : NMAcdManagerPrivate) (timeout : Nat)
    (hs : self.state = State.STATE_INIT) (hi : (acd_init e self).2 = 0) :
    ((nm_acd_manager_start_probe e self timeout).2 = true ↔
        ∃ i ∈ self.addresses, probe_accepted e i.address = true) ∧
    ((nm_acd_manager_start_probe e self timeout).1.state = State.STATE_PROBING ↔
        (nm_acd_manager_start_probe e self timeout).2 = true) ∧
    ((nm_acd_manager_start_probe e self timeout).2 = false →
        (nm_acd_manager_start_probe e self timeout).1.state = State.STATE_INIT) ∧
    (self.addresses = [] →
        (nm_acd_manager_start_probe e self timeout).2 = false ∧
        (nm_acd_manager_start_probe e self timeout).1.state = State.STATE_INIT) ∧
    (nm_acd_manager_start_probe e self timeout).1.completed = 0 := by
  obtain ⟨hr, hst, hc, -⟩ := start_probe_unfold e self timeout hs hi
  rw [hr, hst]
  refine ⟨?_, ?_, ?_, ?_, hc⟩
  · simp [List.any_eq_true]
  · by_cases hb : self.addresses.any (fun i => probe_accepted e i.address) = true
    · simp [hb]
    · simp [hb]
  · intro hb
    simp [hb]
  · intro he
    simp [he]

theorem start_probe_result_witness :
    ((nm_acd_manager_start_probe engine_ok (nm_acd_manager_add_address manager0 addr5).1 200).2
        = true ↔
        ∃ i ∈ (nm_acd_manager_add_address manager0 addr5).1.addresses,
          probe_accepted engine_ok i.address = true) ∧
    ((nm_acd_manager_start_probe engine_ok
        (nm_acd_manager_add_address manager0 addr5).1 200).1.state = State.STATE_PROBING ↔
      (nm_acd_manager_start_probe engine_ok
        (nm_acd_manager_add_address manager0 addr5).1 200).2 = true) ∧
    ((nm_acd_manager_start_probe engine_ok
        (nm_acd_manager_add_address manager0 addr5).1 200).2 = false →
      (nm_acd_manager_start_probe engine_ok
        (nm_acd_manager_add_address manager0 addr5).1 200).1.state = State.STATE_INIT) ∧
    ((nm_acd_manager_add_address manager0 addr5).1.addresses = [] →
      (nm_acd_manager_start_probe engine_ok
        (nm_acd_manager_add_address manager0 addr5).1 200).2 = false ∧
      (nm_acd_manager_start_probe engine_ok
        (nm_acd_manager_add_address manager0 addr5).1 200).1.state = State.STATE_INIT) ∧
    (nm_acd_manager_start_probe engine_ok
        (nm_acd_manager_add_address manager0 addr5).1 200).1.completed = 0 :=
  start_probe_result engine_ok (nm_acd_manager_add_address manager0 addr5).1 200 rfl rfl

/-! ## Dispatch of terminal events -/

theorem info_set_duplicate_length (t : List AddressInfo) (a : Nat) (d : Bool) :
    (info_set_duplicate t a d).length = t.length := by
  simp [info_set_duplicate]

theorem acd_event_completed_addresses (self : NMAcdManagerPrivate) :
    (acd_event_completed self).addresses = self.addresses := by
  unfold acd_event_completed
  dsimp only
  split_ifs <;> rfl

/-- One terminal event: the manager after the body of the loop. -/
theorem terminal_step (e : Engine) (self : NMAcdManagerPrivate) (ev : NAcdEvent)
    (rest : List NAcdEvent) (ht : terminal ev) :
    ∃ s1 : NMAcdManagerPrivate,
      acd_event_loop e self (ev :: rest) = acd_event_loop e (acd_event_completed s1) rest ∧
      s1.state = self.state ∧ s1.completed = self.completed ∧ s1.signals = self.signals ∧
      s1.addresses = info_set_duplicate self.addresses ev.probe
        (decide (ev.event = NAcdEventKind.N_ACD_EVENT_USED)) := by
  rcases ht with h | h
  · refine ⟨acd_event_ready e self ev.probe, ?_, ?_, ?_, ?_, ?_⟩
    · simp [acd_event_loop, h]
    all_goals (unfold acd_event_ready; dsimp only; split_ifs <;> simp [h])
  · refine ⟨acd_event_used self ev.probe, ?_, ?_, ?_, ?_, ?_⟩
    · simp [acd_event_loop, h]
    all_goals simp [acd_event_used, h]

theorem loop_flags (e : Engine) (evs : List NAcdEvent) :
    ∀ self : NMAcdManagerPrivate, (∀ ev ∈ evs, terminal ev) →
      (acd_event_loop e self evs).1.addresses = flags_after self.addresses evs := by
  induction evs with
  | nil => intro self _; simp [acd_event_loop, flags_after]
  | cons ev rest ih =>
    intro self ht
    obtain ⟨s1, hl, -, -, -, ha⟩ := terminal_step e self ev rest (ht ev (List.mem_cons_self _ _))
    rw [hl, ih _ (fun x hx => ht x (List.mem_cons_of_mem _ hx)),
      acd_event_completed_addresses, ha]
    simp [flags_after]

theorem flags_after_length (evs : List NAcdEvent) :
    ∀ t : List AddressInfo, (flags_after t evs).length = t.length := by
  induction evs with
  | nil => intro t; rfl
  | cons ev rest ih =>
    intro t
    have h := ih (info_set_duplicate t ev.probe (decide (ev.event = NAcdEventKind.N_ACD_EVENT_USED)))
    rw [info_set_duplicate_length] at h
    simpa [flags_after] using h

theorem flags_after_append (t : List AddressInfo) (xs ys : List NAcdEvent) :
    flags_after t (xs ++ ys) = flags_after (flags_after t xs) ys := by
  simp [flags_after, List.foldl_append]

/-- While fewer terminal events than registered addresses have been counted, the
loop stays in `STATE_PROBING`, counts every event and emits nothing. -/
theorem loop_probing (e : Engine) (evs : List NAcdEvent) :
    ∀ self : NMAcdManagerPrivate, (∀ ev ∈ evs, terminal ev) →
      self.state = State.STATE_PROBING →
      self.addresses.length < GUINT_MOD →
      self.completed + evs.length < self.addresses.length →
      (acd_event_loop e self evs).1.state = State.STATE_PROBING ∧
      (acd_event_loop e self evs).1.completed = self.completed + evs.length ∧
      (acd_event_loop e self evs).1.signals = self.signals := by
  induction evs with
  | nil => intro self _ hs _ _; simp [acd_event_loop, hs]
  | cons ev rest ih =>
    intro self ht hs hm hc
    obtain ⟨s1, hl, h1, h2, h3, h4⟩ :=
      terminal_step e self ev rest (ht ev (List.mem_cons_self _ _))
    simp only [List.length_cons] at hc
    have hlen : s1.addresses.length = self.addresses.length := by
      rw [h4, info_set_duplicate_length]
    have hstep : acd_event_completed s1
        = { s1 with completed := self.completed + 1 } := by
      unfold acd_event_completed g_hash_table_size
      unfold GUINT_MOD at hm ⊢
      have hmod : (s1.completed + 1) % 4294967296 = self.completed + 1 := by
        rw [h2]; omega
      have hne : ¬ (self.completed + 1 = s1.addresses.length % 4294967296) := by
        rw [hlen]; omega
      simp [h1, hs, hmod, hne]
    rw [hl, hstep]
    have := ih { s1 with completed := self.completed + 1 }
      (fun x hx => ht x (List.mem_cons_of_mem _ hx)) (by simpa [h1] using hs)
      (by simpa [hlen] using hm) (by simp only [hlen]; omega)
    obtain ⟨i1, i2, i3⟩ := this
    refine ⟨i1, ?_, ?_⟩
    · rw [i2]; simp only [List.length_cons]; omega
    · rw [i3]; exact h3

/-- Outside `STATE_PROBING` terminal events change neither the phase, nor
`completed`, nor the number of signals emitted. -/
theorem loop_not_probing (e : Engine) (evs : List NAcdEvent) :
    ∀ self : NMAcdManagerPrivate, (∀ ev ∈ evs, terminal ev) →
      self.state ≠ State.STATE_PROBING →
      (acd_event_loop e self evs).1.state = self.state ∧
      (acd_event_loop e self evs).1.completed = self.completed ∧
      (acd_event_loop e self evs).1.signals = self.signals := by
  induction evs with
  | nil => intro self _ _; simp [acd_event_loop]
  | cons ev rest ih =>
    intro self ht hs
    obtain ⟨s1, hl, h1, h2, h3, -⟩ :=
      terminal_step e self ev rest (ht ev (List.mem_cons_self _ _))
    have hstep : acd_event_completed s1 = s1 := by
      unfold acd_event_completed
      simp [h1, hs]
    rw [hl, hstep]
    obtain ⟨i1, i2, i3⟩ := ih s1 (fun x hx => ht x (List.mem_cons_of_mem _ hx))
      (by rw [h1]; exact hs)
    exact ⟨i1.trans h1, i2.trans h2, i3.trans h3⟩

/-- The terminal event that brings `completed` to the size of the table moves
the manager to `STATE_PROBE_DONE` and emits the signal once. -/
theorem loop_probe_done (e : Engine) (evs : List NAcdEvent) :
    ∀ self : NMAcdManagerPrivate, (∀ ev ∈ evs, terminal ev) →
      self.state = State.STATE_PROBING →
      self.addresses.length < GUINT_MOD →
      self.completed < self.addresses.length →
      self.completed + evs.length = self.addresses.length →
      (acd_event_loop e self evs).1.state = State.STATE_PROBE_DONE ∧
      (acd_event_loop e self evs).1.signals = self.signals + 1 := by
  induction evs with
  | nil => intro self _ _ _ hlt hc; simp at hc; omega
  | cons ev rest ih =>
    intro self ht hs hm hlt hc
    obtain ⟨s1, hl, h1, h2, h3, h4⟩ :=
      terminal_step e self ev rest (ht ev (List.mem_cons_self _ _))
    simp only [List.length_cons] at hc
    have hlen : s1.addresses.length = self.addresses.length := by
      rw [h4, info_set_duplicate_length]
    have hmod : (s1.completed + 1) % 4294967296 = self.completed + 1 := by
      unfold GUINT_MOD at hm
      rw [h2]; omega
    have hsz : s1.addresses.length % 4294967296 = self.addresses.length := by
      unfold GUINT_MOD at hm
      rw [hlen]; omega
    by_cases hlast : rest.length = 0
    · have hrest : rest = [] := List.length_eq_zero.mp hlast
      have hstep : acd_event_completed s1
          = { s1 with completed := self.completed + 1, state := State.STATE_PROBE_DONE,
                      signals := s1.signals + 1 } := by
        unfold acd_event_completed g_hash_table_size GUINT_MOD
        have heq : self.completed + 1 = self.addresses.length := by omega
        simp [h1, hs, hmod, hsz, heq]
      rw [hl, hstep, hrest]
      simp [acd_event_loop, h3]
    · have hstep : acd_event_completed s1
          = { s1 with completed := self.completed + 1 } := by
        unfold acd_event_completed g_hash_table_size GUINT_MOD
        have hne : ¬ (self.completed + 1 = self.addresses.length) := by omega
        simp [h1, hs, hmod, hsz, hne]
      rw [hl, hstep]
      have := ih { s1 with completed := self.completed + 1 }
        (fun x hx => ht x (List.mem_cons_of_mem _ hx)) (by simpa [h1] using hs)
        (by simpa [hlen] using hm) (by simp only [hlen]; omega) (by simp only [hlen]; omega)
      obtain ⟨i1, i2⟩ := this
      exact ⟨i1, by rw [i2]; simp [h3]⟩

/-! ## Several wakeups -/

theorem events_of_cons (w : Engine × List NAcdEvent) (ws : List (Engine × List NAcdEvent)) :
    events_of (w :: ws) = w.2 ++ events_of ws := by
  simp [events_of]

theorem acd_event_ok (e : Engine) (self : NMAcdManagerPrivate) (q : List NAcdEvent)
    (h : e.n_acd_dispatch = 0) : acd_event e self q = acd_event_loop e self q := by
  simp [acd_event, h]

theorem dispatch_flags (ws : List (Engine × List NAcdEvent)) :
    ∀ self : NMAcdManagerPrivate, (∀ w ∈ ws, w.1.n_acd_dispatch = 0) →
      (∀ ev ∈ events_of ws, terminal ev) →
      (dispatch_all self ws).addresses = flags_after self.addresses (events_of ws) := by
  induction ws with
  | nil => intro self _ _; simp [dispatch_all, events_of, flags_after]
  | cons w ws ih =>
    intro self hd ht
    rw [events_of_cons] at ht
    have hq : ∀ ev ∈ w.2, terminal ev := fun ev h => ht ev (List.mem_append_left _ h)
    have hr : ∀ ev ∈ events_of ws, terminal ev := fun ev h => ht ev (List.mem_append_right _ h)
    simp only [dispatch_all]
    rw [acd_event_ok _ _ _ (hd w (List.mem_cons_self _ _)),
      ih _ (fun x hx => hd x (List.mem_cons_of_mem _ hx)) hr, loop_flags _ _ _ hq,
      events_of_cons, flags_after_append]

theorem dispatch_not_probing (ws : List (Engine × List NAcdEvent)) :
    ∀ self : NMAcdManagerPrivate, (∀ w ∈ ws, w.1.n_acd_dispatch = 0) →
      (∀ ev ∈ events_of ws, terminal ev) →
      self.state ≠ State.STATE_PROBING →
      (dispatch_all self ws).state = self.state ∧
      (dispatch_all self ws).completed = self.completed ∧
      (dispatch_all self ws).signals = self.signals := by
  induction ws with
  | nil => intro self _ _ _; simp [dispatch_all]
  | cons w ws ih =>
    intro self hd ht hs
    rw [events_of_cons] at ht
    have hq : ∀ ev ∈ w.2, terminal ev := fun ev h => ht ev (List.mem_append_left _ h)
    have hr : ∀ ev ∈ events_of ws, terminal ev := fun ev h => ht ev (List.mem_append_right _ h)
    simp only [dispatch_all]
    rw [acd_event_ok _ _ _ (hd w (List.mem_cons_self _ _))]
    obtain ⟨l1, l2, l3⟩ := loop_not_probing w.1 w.2 self hq hs
    obtain ⟨i1, i2, i3⟩ := ih (acd_event_loop w.1 self w.2).1
      (fun x hx => hd x (List.mem_cons_of_mem _ hx)) hr (by rw [l1]; exact hs)
    exact ⟨i1.trans l1, i2.trans l2, i3.trans l3⟩

theorem dispatch_probing (ws : List (Engine × List NAcdEvent)) :
    ∀ self : NMAcdManagerPrivate, (∀ w ∈ ws, w.1.n_acd_dispatch = 0) →
      (∀ ev ∈ events_of ws, terminal ev) →
      self.state = State.STATE_PROBING →
      self.addresses.length < GUINT_MOD →
      self.completed + (events_of ws).length < self.addresses.length →
      (dispatch_all self ws).state = State.STATE_PROBING ∧
      (dispatch_all self ws).completed = self.completed + (events_of ws).length ∧
      (dispatch_all self ws).signals = self.signals := by
  induction ws with
  | nil => intro self _ _ hs _ _; simp [dispatch_all, events_of, hs]
  | cons w ws ih =>
    intro self hd ht hs hm hc
    rw [events_of_cons] at ht hc ⊢
    rw [List.length_append] at hc ⊢
    have hq : ∀ ev ∈ w.2, terminal ev := fun ev h => ht ev (List.mem_append_left _ h)
    have hr : ∀ ev ∈ events_of ws, terminal ev := fun ev h => ht ev (List.mem_append_right _ h)
    simp only [dispatch_all]
    rw [acd_event_ok _ _ _ (hd w (List.mem_cons_self _ _))]
    obtain ⟨l1, l2, l3⟩ := loop_probing w.1 w.2 self hq hs hm (by omega)
    have hlen : (acd_event_loop w.1 self w.2).1.addresses.length = self.addresses.length := by
      rw [loop_flags _ _ _ hq, flags_after_length]
    obtain ⟨i1, i2, i3⟩ := ih (acd_event_loop w.1 self w.2).1
      (fun x hx => hd x (List.mem_cons_of_mem _ hx)) hr l1 (by rw [hlen]; exact hm)
      (by rw [hlen, l2]; omega)
    exact ⟨i1, by rw [i2, l2]; omega, i3.trans l3⟩

theorem dispatch_probe_done (ws : List (Engine × List NAcdEvent)) :
    ∀ self : NMAcdManagerPrivate, (∀ w ∈ ws, w.1.n_acd_dispatch = 0) →
      (∀ ev ∈ events_of ws, terminal ev) →
      self.state = State.STATE_PROBING →
      self.addresses.length < GUINT_MOD →
      self.completed < self.addresses.length →
      self.completed + (events_of ws).length = self.addresses.length →
      (dispatch_all self ws).state = State.STATE_PROBE_DONE ∧
      (dispatch_all self ws).signals = self.signals + 1 := by
  induction ws with
  | nil => intro self _ _ _ _ hlt hc; simp [events_of] at hc; omega
  | cons w ws ih =>
    intro self hd ht hs hm hlt hc
    rw [events_of_cons] at ht hc
    rw [List.length_append] at hc
    have hq : ∀ ev ∈ w.2, terminal ev := fun ev h => ht ev (List.mem_append_left _ h)
    have hr : ∀ ev ∈ events_of ws, terminal ev := fun ev h => ht ev (List.mem_append_right _ h)
    have hd2 : ∀ x ∈ ws, x.1.n_acd_dispatch = 0 := fun x hx => hd x (List.mem_cons_of_mem _ hx)
    simp only [dispatch_all]
    rw [acd_event_ok _ _ _ (hd w (List.mem_cons_self _ _))]
    have hlen : (acd_event_loop w.1 self w.2).1.addresses.length = self.addresses.length := by
      rw [loop_flags _ _ _ hq, flags_after_length]
    by_cases hfin : self.completed + w.2.length = self.addresses.length
    · obtain ⟨l1, l2⟩ := loop_probe_done w.1 w.2 self hq hs hm hlt hfin
      obtain ⟨i1, -, i3⟩ := dispatch_not_probing ws (acd_event_loop w.1 self w.2).1 hd2 hr
        (by rw [l1]; decide)
      exact ⟨i1.trans l1, i3.trans l2⟩
    · obtain ⟨l1, l2, l3⟩ := loop_probing w.1 w.2 self hq hs hm (by omega)
      obtain ⟨i1, i2⟩ := ih (acd_event_loop w.1 self w.2).1 hd2 hr l1 (by rw [hlen]; exact hm)
        (by rw [hlen, l2]; omega) (by rw [hlen, l2]; omega)
      exact ⟨i1, by rw [i2, l3]⟩

/-- C2: in `STATE_INIT` with at least one registered address, an engine that
can be constructed and that accepts every probe, after
`nm_acd_manager_start_probe` and the dispatch of terminal events (each
`N_ACD_EVENT_READY` or `N_ACD_EVENT_USED`), spread over any number of wakeups:
while fewer events than registered addresses have been dispatched the phase is
`STATE_PROBING`, `completed` is the number of events and no signal has been
emitted; once one event per registered address has been dispatched, in any
order, the phase is `STATE_PROBE_DONE` and the signal has been emitted exactly
once. -/
theorem probe_pass_completes (e : Engine) (self : NMAcdManagerPrivate) (timeout : Nat)
    (ws : List (Engine × List NAcdEvent))
    (hs : self.state = State.STATE_INIT)
    (hn : 1 ≤ self.addresses.length)
    (hm : self.addresses.length < GUINT_MOD)
    (hi : (acd_init e self).2 = 0)
    (hacc : ∀ i ∈ self.addresses, probe_accepted e i.address = true)
    (hd : ∀ w ∈ ws, w.1.n_acd_dispatch = 0)
    (ht : ∀ ev ∈ events_of ws, terminal ev) :
    ((events_of ws).length < self.addresses.length →
      (dispatch_all (nm_acd_manager_start_probe e self timeout).1 ws).state
          = State.STATE_PROBING ∧
      (dispatch_all (nm_acd_manager_start_probe e self timeout).1 ws).completed
          = (events_of ws).length ∧
      (dispatch_all (nm_acd_manager_start_probe e self timeout).1 ws).signals
          = self.signals) ∧
    (((events_of ws).map (fun ev => ev.probe)).Perm (keys self.addresses) →
      (dispatch_all (nm_acd_manager_start_probe e self timeout).1 ws).state
          = State.STATE_PROBE_DONE ∧
      (dispatch_all (nm_acd_manager_start_probe e self timeout).1 ws).signals
          = self.signals + 1) := by
  obtain ⟨-, hst, hc, hsig, hlen, -, -⟩ := start_probe_unfold e self timeout hs hi
  have hany : self.addresses.any (fun i => probe_accepted e i.address) = true := by
    obtain ⟨i, hi⟩ := List.exists_mem_of_length_pos hn
    exact List.any_eq_true.mpr ⟨i, hi, hacc i hi⟩
  rw [hany] at hst
  simp only [if_true] at hst
  constructor
  · intro hk
    obtain ⟨h1, h2, h3⟩ := dispatch_probing ws (nm_acd_manager_start_probe e self timeout).1
      hd ht hst (by rw [hlen]; exact hm) (by rw [hlen, hc]; omega)
    exact ⟨h1, by rw [h2, hc]; omega, h3.trans hsig⟩
  · intro hp
    have hN : (events_of ws).length = self.addresses.length := by
      have := hp.length_eq
      simpa [keys] using this
    obtain ⟨h1, h2⟩ := dispatch_probe_done ws (nm_acd_manager_start_probe e self timeout).1
      hd ht hst (by rw [hlen]; exact hm) (by rw [hlen, hc]; omega) (by rw [hlen, hc]; omega)
    exact ⟨h1, by rw [h2, hsig]⟩

theorem probe_pass_completes_witness :
    (dispatch_all (nm_acd_manager_start_probe engine_ok manager2 200).1
        wakeups_ready_used).state = State.STATE_PROBE_DONE ∧
    (dispatch_all (nm_acd_manager_start_probe engine_ok manager2 200).1
        wakeups_ready_used).signals = manager2.signals + 1 :=
  (probe_pass_completes engine_ok manager2 200 wakeups_ready_used rfl (by decide) (by decide)
    rfl (by decide) (by decide) (by decide)).2 (List.Perm.refl _)

/-- C3: with 10.0.0.5 and 10.0.0.6 registered and the probe of 10.0.0.6
rejected by the engine, `nm_acd_manager_start_probe` returns `TRUE` and enters
`STATE_PROBING`; after the terminal event of the only probe that was started,
`completed` is 1, the table size is 2, the phase is still `STATE_PROBING` and no
signal has been emitted. -/
theorem partial_failure_stays_probing :
    (nm_acd_manager_start_probe engine_reject6 manager2 200).2 = true ∧
    (nm_acd_manager_start_probe engine_reject6 manager2 200).1.state = State.STATE_PROBING ∧
    (nm_acd_manager_start_probe engine_reject6 manager2 200).1.calls
      = [EngineCall.n_acd_probe addr5 200 0, EngineCall.n_acd_probe addr6 200 (-12)] ∧
    (acd_event engine_ok (nm_acd_manager_start_probe engine_reject6 manager2 200).1
      [{ event := NAcdEventKind.N_ACD_EVENT_READY, probe := addr5 }]).1.state
        = State.STATE_PROBING ∧
    (acd_event engine_ok (nm_acd_manager_start_probe engine_reject6 manager2 200).1
      [{ event := NAcdEventKind.N_ACD_EVENT_READY, probe := addr5 }]).1.completed = 1 ∧
    g_hash_table_size (acd_event engine_ok
      (nm_acd_manager_start_probe engine_reject6 manager2 200).1
      [{ event := NAcdEventKind.N_ACD_EVENT_READY, probe := addr5 }]).1.addresses = 2 ∧
    (acd_event engine_ok (nm_acd_manager_start_probe engine_reject6 manager2 200).1
      [{ event := NAcdEventKind.N_ACD_EVENT_READY, probe := addr5 }]).1.signals = 0 := by
  decide

/-! ## Classification -/

theorem info_set_duplicate_keys (t : List AddressInfo) (a : Nat) (d : Bool) :
    keys (info_set_duplicate t a d) = keys t := by
  unfold keys info_set_duplicate
  rw [List.map_map]
  apply List.map_congr_left
  intro i _
  by_cases h : i.address = a <;> simp [h]

theorem duplicate_of_set (t : List AddressInfo) (a b : Nat) (d : Bool) :
    duplicate_of (info_set_duplicate t a d) b
      = if a = b then (duplicate_of t b).map (fun _ => d) else duplicate_of t b := by
  unfold duplicate_of g_hash_table_lookup info_set_duplicate
  induction t with
  | nil => simp
  | cons i t ih =>
    have hf : (if i.address = a then ({ i with duplicate := d } : AddressInfo) else i).address
        = i.address := by
      split_ifs <;> rfl
    simp only [List.map_cons, List.find?_cons, hf]
    by_cases hib : i.address = b
    · have h1 : (i.address == b) = true := by simpa using hib
      simp only [h1, Option.map_some']
      by_cases hab : a = b
      · have hia : i.address = a := hib.trans hab.symm
        simp [hab, hia]
      · have hia : ¬ i.address = a := fun h => hab (h.symm.trans hib)
        simp [hab, hia]
    · have h1 : (i.address == b) = false := by simpa using hib
      simp only [h1]
      exact ih

theorem flags_after_keys (evs : List NAcdEvent) :
    ∀ t : List AddressInfo, keys (flags_after t evs) = keys t := by
  induction evs with
  | nil => intro t; rfl
  | cons ev rest ih =>
    intro t
    have h := ih (info_set_duplicate t ev.probe (decide (ev.event = NAcdEventKind.N_ACD_EVENT_USED)))
    rw [info_set_duplicate_keys] at h
    simpa [flags_after] using h

/-- Events for other addresses leave the flag of `a` as it is. -/
theorem flags_after_other (evs : List NAcdEvent) (a : Nat) :
    ∀ t : List AddressInfo, (∀ ev ∈ evs, ev.probe ≠ a) →
      duplicate_of (flags_after t evs) a = duplicate_of t a := by
  induction evs with
  | nil => intro t _; rfl
  | cons ev rest ih =>
    intro t h
    have h1 := ih (info_set_duplicate t ev.probe (decide (ev.event = NAcdEventKind.N_ACD_EVENT_USED)))
      (fun x hx => h x (List.mem_cons_of_mem _ hx))
    have h2 : ¬ ev.probe = a := h ev (List.mem_cons_self _ _)
    rw [duplicate_of_set, if_neg h2] at h1
    simpa [flags_after] using h1

theorem duplicate_of_isSome (t : List AddressInfo) (a : Nat) (h : a ∈ keys t) :
    ∃ d, duplicate_of t a = some d := by
  unfold duplicate_of
  cases hl : g_hash_table_lookup t a with
  | none => exact absurd h ((lookup_none_iff t a).1 hl)
  | some i => exact ⟨i.duplicate, rfl⟩

/-- When every address has at most one event in the list, the flag of the
address of an event of the list ends as that event sets it. -/
theorem flags_after_mem (evs : List NAcdEvent) :
    ∀ (t : List AddressInfo) (ev : NAcdEvent), ev ∈ evs →
      (evs.map (fun x => x.probe)).Nodup → ev.probe ∈ keys t →
      duplicate_of (flags_after t evs) ev.probe
        = some (decide (ev.event = NAcdEventKind.N_ACD_EVENT_USED)) := by
  induction evs with
  | nil => intro t ev h; simp at h
  | cons x rest ih =>
    intro t ev hmem hnd hk
    rw [List.map_cons, List.nodup_cons] at hnd
    have hfold : flags_after t (x :: rest)
        = flags_after
            (info_set_duplicate t x.probe (decide (x.event = NAcdEventKind.N_ACD_EVENT_USED)))
            rest := by
      simp [flags_after]
    rw [hfold]
    rcases List.mem_cons.1 hmem with rfl | hin
    · have hother : ∀ y ∈ rest, y.probe ≠ ev.probe := by
        intro y hy heq
        exact hnd.1 (List.mem_map.2 ⟨y, hy, heq⟩)
      rw [flags_after_other rest ev.probe _ hother, duplicate_of_set, if_pos rfl]
      obtain ⟨d, hd⟩ := duplicate_of_isSome t ev.probe hk
      rw [hd]; rfl
    · exact ih _ ev hin hnd.2 (by rw [info_set_duplicate_keys]; exact hk)

theorem check_address_eq (self : NMAcdManagerPrivate) (a : Nat) (d : Bool)
    (hs : self.state = State.STATE_INIT ∨ self.state = State.STATE_PROBE_DONE)
    (hd : duplicate_of self.addresses a = some d) :
    nm_acd_manager_check_address self a = !d := by
  unfold duplicate_of at hd
  unfold nm_acd_manager_check_address
  cases hl : g_hash_table_lookup self.addresses a with
  | none => rw [hl] at hd; simp at hd
  | some i =>
    rw [hl] at hd
    simp only [Option.map_some', Option.some.injEq] at hd
    simp [hs, hd]

/-- C4: after a probing pass in which every registered address received exactly
one terminal event, the phase is `STATE_PROBE_DONE` and, for the address of
every event, `nm_acd_manager_check_address` returns `FALSE` exactly when the
event was `N_ACD_EVENT_USED` and `TRUE` exactly when it was
`N_ACD_EVENT_READY`. -/
theorem probe_pass_classifies (e : Engine) (self : NMAcdManagerPrivate) (timeout : Nat)
    (ws : List (Engine × List NAcdEvent))
    (hs : self.state = State.STATE_INIT)
    (hn : 1 ≤ self.addresses.length)
    (hm : self.addresses.length < GUINT_MOD)
    (hk : (keys self.addresses).Nodup)
    (hi : (acd_init e self).2 = 0)
    (hacc : ∀ i ∈ self.addresses, probe_accepted e i.address = true)
    (hd : ∀ w ∈ ws, w.1.n_acd_dispatch = 0)
    (ht : ∀ ev ∈ events_of ws, terminal ev)
    (hp : ((events_of ws).map (fun ev => ev.probe)).Perm (keys self.addresses)) :
    (dispatch_all (nm_acd_manager_start_probe e self timeout).1 ws).state
        = State.STATE_PROBE_DONE ∧
    ∀ ev ∈ events_of ws,
      (nm_acd_manager_check_address
          (dispatch_all (nm_acd_manager_start_probe e self timeout).1 ws) ev.probe = false ↔
        ev.event = NAcdEventKind.N_ACD_EVENT_USED) ∧
      (nm_acd_manager_check_address
          (dispatch_all (nm_acd_manager_start_probe e self timeout).1 ws) ev.probe = true ↔
        ev.event = NAcdEventKind.N_ACD_EVENT_READY) := by
  obtain ⟨-, hst, hc, -, hlen, hkeys, -⟩ := start_probe_unfold e self timeout hs hi
  have hany : self.addresses.any (fun i => probe_accepted e i.address) = true := by
    obtain ⟨i, hi⟩ := List.exists_mem_of_length_pos hn
    exact List.any_eq_true.mpr ⟨i, hi, hacc i hi⟩
  rw [hany] at hst
  simp only [if_true] at hst
  have hN : (events_of ws).length = self.addresses.length := by
    simpa [keys] using hp.length_eq
  obtain ⟨hdone, -⟩ := dispatch_probe_done ws (nm_acd_manager_start_probe e self timeout).1
    hd ht hst (by rw [hlen]; exact hm) (by rw [hlen, hc]; omega) (by rw [hlen, hc]; omega)
  refine ⟨hdone, ?_⟩
  intro ev hev
  have hnd : ((events_of ws).map (fun x => x.probe)).Nodup := hp.nodup_iff.2 hk
  have hin : ev.probe ∈ keys (nm_acd_manager_start_probe e self timeout).1.addresses := by
    rw [hkeys]
    exact hp.subset (List.mem_map.2 ⟨ev, hev, rfl⟩)
  have hflag := flags_after_mem (events_of ws)
    (nm_acd_manager_start_probe e self timeout).1.addresses ev hev hnd hin
  rw [← dispatch_flags ws _ hd ht] at hflag
  rw [check_address_eq _ _ _ (Or.inr hdone) hflag]
  rcases ht ev hev with h | h <;> simp [h]

theorem probe_pass_classifies_witness :
    (dispatch_all (nm_acd_manager_start_probe engine_ok manager2 200).1
        wakeups_ready_used).state = State.STATE_PROBE_DONE ∧
    ∀ ev ∈ events_of wakeups_ready_used,
      (nm_acd_manager_check_address
          (dispatch_all (nm_acd_manager_start_probe engine_ok manager2 200).1
            wakeups_ready_used) ev.probe = false ↔
        ev.event = NAcdEventKind.N_ACD_EVENT_USED) ∧
      (nm_acd_manager_check_address
          (dispatch_all (nm_acd_manager_start_probe engine_ok manager2 200).1
            wakeups_ready_used) ev.probe = true ↔
        ev.event = NAcdEventKind.N_ACD_EVENT_READY) :=
  probe_pass_classifies engine_ok manager2 200 wakeups_ready_used rfl (by decide) (by decide)
    (by decide) rfl (by decide) (by decide) (by decide) (List.Perm.refl _)

/-! ## Flags of addresses that receive no event -/

theorem add_address_duplicate_of (self : NMAcdManagerPrivate) (a b : Nat)
    (h : duplicate_of self.addresses a = some false) :
    duplicate_of (nm_acd_manager_add_address self b).1.addresses a = some false := by
  unfold nm_acd_manager_add_address
  by_cases hs : self.state = State.STATE_INIT
  · cases hl : g_hash_table_lookup self.addresses b with
    | some i => simpa [hs, hl] using h
    | none =>
      simp only [hs, ne_eq, not_true_eq_false, if_false]
      unfold duplicate_of g_hash_table_lookup at h ⊢
      rw [List.find?_append]
      cases hf : List.find? (fun i => i.address == a) self.addresses with
      | none => rw [hf] at h; simp at h
      | some i => rw [hf] at h; simpa using h
  · simpa [hs] using h

theorem add_address_fresh (self : NMAcdManagerPrivate) (a : Nat)
    (hs : self.state = State.STATE_INIT)
    (hn : g_hash_table_lookup self.addresses a = none) :
    (nm_acd_manager_add_address self a).1.state = State.STATE_INIT ∧
    duplicate_of (nm_acd_manager_add_address self a).1.addresses a = some false := by
  have hl := lookup_append_new self.addresses a
    { address := a, duplicate := false, probe := false } rfl hn
  unfold nm_acd_manager_add_address duplicate_of
  simp [hs, hn, hl]

theorem acd_init_addresses (e : Engine) (self : NMAcdManagerPrivate) :
    (acd_init e self).1.addresses = self.addresses ∧
    (acd_init e self).1.state = self.state ∧
    (acd_init e self).1.calls = self.calls ∧
    (acd_init e self).1.completed = self.completed ∧
    (acd_init e self).1.signals = self.signals := by
  unfold acd_init
  split_ifs <;> simp

theorem start_probe_duplicate_of (e : Engine) (self : NMAcdManagerPrivate) (timeout a : Nat) :
    duplicate_of (nm_acd_manager_start_probe e self timeout).1.addresses a
      = duplicate_of self.addresses a := by
  obtain ⟨h1, -⟩ := acd_init_addresses e self
  unfold nm_acd_manager_start_probe
  rcases hp : acd_init e self with ⟨s0, r⟩
  rw [hp] at h1
  simp only at h1
  by_cases hs : self.state = State.STATE_INIT
  · by_cases hr : r = 0
    · simp only [hs, hr, ne_eq, not_true_eq_false, if_false, h1]
      split_ifs <;> simp [probe_loop_duplicate_of]
    · simp [hs, hr, h1]
  · simp [hs]

theorem announce_probe_loop_duplicate_of (e : Engine) (a : Nat) (t : List AddressInfo) :
    ∀ calls : List EngineCall,
      duplicate_of (announce_probe_loop e t calls).1 a = duplicate_of t a := by
  induction t with
  | nil => intro calls; simp [announce_probe_loop]
  | cons i t ih =>
    intro calls
    have h := ih (acd_probe_add e calls i 0).1
    unfold duplicate_of g_hash_table_lookup at h ⊢
    simp only [announce_probe_loop, List.find?_cons, acd_probe_add_address]
    by_cases hia : i.address = a
    · have hb : (i.address == a) = true := by simpa using hia
      simp only [hb, Option.map_some', acd_probe_add_duplicate]
    · have hb : (i.address == a) = false := by simpa using hia
      simp only [hb]
      exact h

theorem announce_duplicate_of (e : Engine) (self s2 : NMAcdManagerPrivate) (a : Nat)
    (h : nm_acd_manager_announce_addresses e self = some s2) :
    duplicate_of s2.addresses a = duplicate_of self.addresses a := by
  obtain ⟨h1, -⟩ := acd_init_addresses e self
  unfold nm_acd_manager_announce_addresses at h
  rcases hp : acd_init e self with ⟨s0, r⟩
  rw [hp] at h h1
  simp only at h h1
  by_cases hr : r = 0
  · simp only [hr, ne_eq, not_true_eq_false, if_false] at h
    split_ifs at h
    · simp only [Option.some.injEq] at h
      rw [← h]
      simp [announce_probe_loop_duplicate_of, h1]
    · simp only [Option.some.injEq] at h
      rw [← h]
      simp [h1]
    · simp only [Option.some.injEq] at h
      rw [← h, h1]
  · simp [hr] at h

theorem loop_duplicate_of_other (e : Engine) (a : Nat) (q : List NAcdEvent) :
    ∀ self : NMAcdManagerPrivate, (∀ ev ∈ q, ev.probe ≠ a) →
      duplicate_of (acd_event_loop e self q).1.addresses a = duplicate_of self.addresses a := by
  induction q with
  | nil => intro self _; simp [acd_event_loop]
  | cons ev rest ih =>
    intro self h
    have hne : ¬ ev.probe = a := h ev (List.mem_cons_self _ _)
    have hrest : ∀ x ∈ rest, x.probe ≠ a := fun x hx => h x (List.mem_cons_of_mem _ hx)
    cases hk : ev.event with
    | N_ACD_EVENT_READY =>
      obtain ⟨s1, hl, -, -, -, ha⟩ := terminal_step e self ev rest (Or.inl hk)
      rw [hl, ih _ hrest, acd_event_completed_addresses, ha, duplicate_of_set, if_neg hne]
    | N_ACD_EVENT_USED =>
      obtain ⟨s1, hl, -, -, -, ha⟩ := terminal_step e self ev rest (Or.inr hk)
      rw [hl, ih _ hrest, acd_event_completed_addresses, ha, duplicate_of_set, if_neg hne]
    | N_ACD_EVENT_DEFENDED => simp [acd_event_loop, hk]
    | N_ACD_EVENT_CONFLICT => simp [acd_event_loop, hk]
    | N_ACD_EVENT_DOWN => simp [acd_event_loop, hk]

theorem acd_event_duplicate_of_other (e : Engine) (a : Nat) (q : List NAcdEvent)
    (self : NMAcdManagerPrivate) (h : ∀ ev ∈ q, ev.probe ≠ a) :
    duplicate_of (acd_event e self q).1.addresses a = duplicate_of self.addresses a := by
  unfold acd_event
  split_ifs
  · rfl
  · exact loop_duplicate_of_other e a q self h

theorem step_spares (a : Nat) (op : Op) (self s2 : NMAcdManagerPrivate)
    (hop : op.spares a) (hstep : step self op = some s2)
    (h : duplicate_of self.addresses a = some false) :
    duplicate_of s2.addresses a = some false := by
  cases op with
  | add_address b =>
    simp only [step, Option.some.injEq] at hstep
    rw [← hstep]
    exact add_address_duplicate_of self a b h
  | start_probe e timeout =>
    simp only [step, Option.some.injEq] at hstep
    rw [← hstep, start_probe_duplicate_of]
    exact h
  | announce_addresses e =>
    simp only [step] at hstep
    rw [announce_duplicate_of e self s2 a hstep]
    exact h
  | reset => exact absurd hop (by simp [Op.spares])
  | event e q =>
    simp only [step, Option.some.injEq] at hstep
    rw [← hstep, acd_event_duplicate_of_other e a q self (by simpa [Op.spares] using hop)]
    exact h

theorem run_spares (a : Nat) (ops : List Op) :
    ∀ self s2 : NMAcdManagerPrivate, (∀ op ∈ ops, op.spares a) →
      run self ops = some s2 →
      duplicate_of self.addresses a = some false →
      duplicate_of s2.addresses a = some false := by
  induction ops with
  | nil =>
    intro self s2 _ hrun h
    simp only [run, Option.some.injEq] at hrun
    rw [← hrun]; exact h
  | cons op ops ih =>
    intro self s2 hops hrun h
    simp only [run] at hrun
    cases hst : step self op with
    | none => rw [hst] at hrun; simp at hrun
    | some s1 =>
      rw [hst] at hrun
      exact ih s1 s2 (fun x hx => hops x (List.mem_cons_of_mem _ hx)) hrun
        (step_spares a op self s1 (hops op (List.mem_cons_self _ _)) hst h)

/-- C5: an address added in `STATE_INIT` that was not in the table is reported
as not duplicate (`nm_acd_manager_check_address` returns `TRUE`) right after the
registration, and its flag stays unset along every sequence of operations that
contains no reset and dispatches no event for it, so that
`nm_acd_manager_check_address` returns `TRUE` whenever the phase allows the
query; in particular it returns `TRUE` for an address added after
`nm_acd_manager_reset` of any manager `s0`, whatever the flag the address had in
`s0`. -/
theorem fresh_address_not_duplicate (self s0 final : NMAcdManagerPrivate) (a : Nat)
    (ops : List Op)
    (hs : self.state = State.STATE_INIT)
    (hn : g_hash_table_lookup self.addresses a = none)
    (hops : ∀ op ∈ ops, op.spares a)
    (hrun : run (nm_acd_manager_add_address self a).1 ops = some final) :
    nm_acd_manager_check_address (nm_acd_manager_add_address self a).1 a = true ∧
    duplicate_of final.addresses a = some false ∧
    ((final.state = State.STATE_INIT ∨ final.state = State.STATE_PROBE_DONE) →
      nm_acd_manager_check_address final a = true) ∧
    nm_acd_manager_check_address
      (nm_acd_manager_add_address (nm_acd_manager_reset s0) a).1 a = true := by
  obtain ⟨h1, h2⟩ := add_address_fresh self a hs hn
  have hfinal := run_spares a ops _ final hops hrun h2
  obtain ⟨h3, h4⟩ := add_address_fresh (nm_acd_manager_reset s0) a
    (by simp [nm_acd_manager_reset]) (by simp [nm_acd_manager_reset, g_hash_table_lookup])
  refine ⟨?_, hfinal, ?_, ?_⟩
  · simpa using check_address_eq _ a false (Or.inl h1) h2
  · intro hst
    simpa using check_address_eq final a false hst hfinal
  · simpa using check_address_eq _ a false (Or.inl h3) h4

theorem fresh_address_not_duplicate_witness :
    nm_acd_manager_check_address manager_done addr6 = false ∧
    nm_acd_manager_check_address (nm_acd_manager_add_address manager0 addr6).1 addr6 = true ∧
    duplicate_of
      (nm_acd_manager_add_address (nm_acd_manager_add_address manager0 addr6).1 addr5).1.addresses
      addr6 = some false ∧
    (((nm_acd_manager_add_address (nm_acd_manager_add_address manager0 addr6).1 addr5).1.state
        = State.STATE_INIT ∨
      (nm_acd_manager_add_address (nm_acd_manager_add_address manager0 addr6).1 addr5).1.state
        = State.STATE_PROBE_DONE) →
      nm_acd_manager_check_address
        (nm_acd_manager_add_address (nm_acd_manager_add_address manager0 addr6).1 addr5).1
        addr6 = true) ∧
    nm_acd_manager_check_address
      (nm_acd_manager_add_address (nm_acd_manager_reset manager_done) addr6).1 addr6 = true :=
  ⟨by decide,
    fresh_address_not_duplicate manager0 manager_done
      (nm_acd_manager_add_address (nm_acd_manager_add_address manager0 addr6).1 addr5).1 addr6
      [Op.add_address addr5] rfl rfl
      (by intro op hop; rw [List.mem_singleton] at hop; subst hop; trivial) rfl⟩

/-! ## Queries for addresses that are not in the table -/

/-- C8, as the code contradicts it: in the `STATE_PROBE_DONE` manager of the
example scenario 10.0.0.7 was never registered and 10.0.0.6 is a registered
duplicate, and `nm_acd_manager_check_address` returns the same value for
both. -/
theorem check_address_unregistered_counterexample :
    manager_done.state = State.STATE_PROBE_DONE ∧
    g_hash_table_lookup manager_done.addresses addr7 = none ∧
    duplicate_of manager_done.addresses addr6 = some true ∧
    nm_acd_manager_check_address manager_done addr7
      = nm_acd_manager_check_address manager_done addr6 := by
  decide

/-- C8, amended: for an address that is not in the table
`nm_acd_manager_check_address` returns `FALSE` in every phase, in particular in
`STATE_INIT` and `STATE_PROBE_DONE`, and that is the value it returns for every
registered address whose `duplicate` flag is set. -/
theorem check_address_unregistered (self : NMAcdManagerPrivate) (a : Nat)
    (hn : g_hash_table_lookup self.addresses a = none) :
    nm_acd_manager_check_address self a = false ∧
    ∀ b, duplicate_of self.addresses b = some true →
      nm_acd_manager_check_address self b = nm_acd_manager_check_address self a := by
  have h1 : nm_acd_manager_check_address self a = false := by
    unfold nm_acd_manager_check_address
    split_ifs <;> simp [hn]
  refine ⟨h1, ?_⟩
  intro b hb
  rw [h1]
  unfold duplicate_of at hb
  unfold nm_acd_manager_check_address
  cases hl : g_hash_table_lookup self.addresses b with
  | none => rw [hl] at hb; simp at hb
  | some i =>
    rw [hl] at hb
    simp only [Option.map_some', Option.some.injEq] at hb
    split_ifs <;> simp [hb]

theorem check_address_unregistered_witness :
    nm_acd_manager_check_address manager_done addr7 = false ∧
    ∀ b, duplicate_of manager_done.addresses b = some true →
      nm_acd_manager_check_address manager_done b
        = nm_acd_manager_check_address manager_done addr7 :=
  check_address_unregistered manager_done addr7 (by decide)

/-! ## Announcing -/

theorem announce_loop_eq (e : Engine) (t : List AddressInfo) :
    ∀ calls : List EngineCall, announce_loop e t calls = calls ++ announce_requests e t := by
  induction t with
  | nil => intro calls; simp [announce_loop, announce_requests]
  | cons i t ih =>
    intro calls
    unfold announce_requests at ih ⊢
    by_cases hd : i.duplicate = true
    · simp [announce_loop, hd, ih]
    · simp [announce_loop, hd, ih]

theorem announce_count_append (xs ys : List EngineCall) (a : Nat) :
    announce_count (xs ++ ys) a = announce_count xs a + announce_count ys a := by
  simp [announce_count, List.countP_append]

theorem announce_requests_absent (e : Engine) (t : List AddressInfo) (a : Nat)
    (h : a ∉ keys t) : announce_count (announce_requests e t) a = 0 := by
  induction t with
  | nil => simp [announce_requests, announce_count]
  | cons i t ih =>
    have hi : ¬ i.address = a := fun hia => h (by simp [keys, hia.symm])
    have ht : a ∉ keys t := fun hin => h (by
      unfold keys at hin ⊢
      exact List.mem_cons_of_mem _ hin)
    have := ih ht
    unfold announce_requests announce_count at this ⊢
    by_cases hd : i.duplicate = true
    · simpa [hd] using this
    · simp only [List.filter_cons, hd, Bool.not_false, Bool.false_eq_true, if_true,
        Bool.not_eq_true, List.map_cons, List.countP_cons, decide_eq_true_eq, hi, if_false,
        Nat.add_zero] at this ⊢
      simpa [hd] using this

/-- With pairwise distinct keys, one pass of the announce loop makes one request
for a registered address whose flag is unset and none for one whose flag is
set. -/
theorem announce_requests_count (e : Engine) (t : List AddressInfo) (a : Nat) (d : Bool)
    (hk : (keys t).Nodup) (hd : duplicate_of t a = some d) :
    announce_count (announce_requests e t) a = if d then 0 else 1 := by
  induction t with
  | nil => simp [duplicate_of, g_hash_table_lookup] at hd
  | cons i t ih =>
    have hk2 : i.address ∉ keys t ∧ (keys t).Nodup := by
      simpa [keys] using hk
    have hsplit : announce_requests e (i :: t)
        = announce_requests e [i] ++ announce_requests e t := by
      unfold announce_requests
      rw [← List.map_append, ← List.filter_append]
      rfl
    rw [hsplit, announce_count_append]
    by_cases hia : i.address = a
    · have hb : (i.address == a) = true := by simpa using hia
      have hdi : i.duplicate = d := by
        simpa [duplicate_of, g_hash_table_lookup, List.find?_cons, hb] using hd
      rw [announce_requests_absent e t a (by rw [← hia]; exact hk2.1)]
      subst hdi
      by_cases hdup : i.duplicate = true
      · simp [announce_requests, announce_count, hdup]
      · simp [announce_requests, announce_count, hdup, hia]
    · have hb : (i.address == a) = false := by simpa using hia
      have hd2 : duplicate_of t a = some d := by
        simpa [duplicate_of, g_hash_table_lookup, List.find?_cons, hb] using hd
      rw [ih hk2.2 hd2]
      by_cases hdup : i.duplicate = true
      · simp [announce_requests, announce_count, hdup]
      · simp [announce_requests, announce_count, hdup, hia]

/-- C9, as the code contradicts it: after the announcement of 10.0.0.5 has
been requested with success in `STATE_ANNOUNCING`, one more call of
`nm_acd_manager_announce_addresses` requests it again. -/
theorem announce_again_counterexample :
    manager_announced.map (fun s => s.state) = some State.STATE_ANNOUNCING ∧
    manager_announced.map (fun s => duplicate_of s.addresses addr5) = some (some false) ∧
    manager_announced.map (fun s =>
        decide (EngineCall.n_acd_probe_announce addr5 NAcdDefend.N_ACD_DEFEND_ONCE 0 ∈ s.calls))
      = some true ∧
    manager_announced.map (fun s => announce_count s.calls addr5) = some 1 ∧
    (manager_announced.bind (nm_acd_manager_announce_addresses engine_ok)).map
        (fun s => announce_count s.calls addr5) = some 2 := by
  decide

/-- C9, amended: in `STATE_ANNOUNCING` with an engine that exists or can be
constructed, `nm_acd_manager_announce_addresses` appends to the requests one
defend-once announce request for every table entry whose `duplicate` flag is
unset, whatever was requested before, and nothing else; with pairwise distinct
keys that is exactly one more announce request for every registered address
whose flag is unset and none for an address whose flag is set.  Phase, table and
`completed` are unchanged. -/
theorem announce_again (e : Engine) (self : NMAcdManagerPrivate)
    (hs : self.state = State.STATE_ANNOUNCING)
    (hi : (acd_init e self).2 = 0)
    (hk : (keys self.addresses).Nodup) :
    ∃ s2, nm_acd_manager_announce_addresses e self = some s2 ∧
      s2.state = State.STATE_ANNOUNCING ∧
      s2.addresses = self.addresses ∧
      s2.completed = self.completed ∧
      s2.calls = self.calls ++ announce_requests e self.addresses ∧
      (∀ a, duplicate_of self.addresses a = some false →
        announce_count s2.calls a = announce_count self.calls a + 1) ∧
      (∀ a, duplicate_of self.addresses a = some true →
        announce_count s2.calls a = announce_count self.calls a) := by
  obtain ⟨h1, h2, h3, h4, -⟩ := acd_init_addresses e self
  rcases hp : acd_init e self with ⟨s0, r⟩
  rw [hp] at hi h1 h2 h3 h4
  simp only at hi h1 h2 h3 h4
  subst hi
  have hst : s0.state = State.STATE_ANNOUNCING := h2.trans hs
  refine ⟨{ s0 with calls := announce_loop e s0.addresses s0.calls }, ?_, hst, h1, h4, ?_, ?_, ?_⟩
  · unfold nm_acd_manager_announce_addresses
    rw [hp]
    simp [hst]
  · simp only [announce_loop_eq, h1, h3]
  · intro a ha
    simp only [announce_loop_eq, h1, h3, announce_count_append]
    rw [announce_requests_count e self.addresses a false hk ha]
    simp
  · intro a ha
    simp only [announce_loop_eq, h1, h3, announce_count_append]
    rw [announce_requests_count e self.addresses a true hk ha]
    simp

theorem announce_again_witness :
    ∃ s2, nm_acd_manager_announce_addresses engine_ok
        { manager2 with state := State.STATE_ANNOUNCING } = some s2 ∧
      s2.state = State.STATE_ANNOUNCING ∧
      s2.addresses = manager2.addresses ∧
      s2.completed = manager2.completed ∧
      s2.calls = manager2.calls ++ announce_requests engine_ok manager2.addresses ∧
      (∀ a, duplicate_of manager2.addresses a = some false →
        announce_count s2.calls a = announce_count manager2.calls a + 1) ∧
      (∀ a, duplicate_of manager2.addresses a = some true →
        announce_count s2.calls a = announce_count manager2.calls a) :=
  announce_again engine_ok { manager2 with state := State.STATE_ANNOUNCING } rfl rfl
    (by decide)

/-- C10, as the code contradicts it: in the `STATE_PROBE_DONE` manager of the
example scenario 10.0.0.5 was found free, and
`nm_acd_manager_announce_addresses` returns the manager as it was: no announce
request for 10.0.0.5 has been made. -/
theorem announce_probe_done_counterexample :
    manager_done.state = State.STATE_PROBE_DONE ∧
    nm_acd_manager_check_address manager_done addr5 = true ∧
    nm_acd_manager_announce_addresses engine_ok manager_done = some manager_done ∧
    announce_count manager_done.calls addr5 = 0 := by
  decide

/-- C10, amended: in `STATE_PROBE_DONE` with an engine that exists or can be
constructed, `nm_acd_manager_announce_addresses` makes no request to the engine
and leaves the phase, the table with its flags, `completed` and the number of
signals as they were. -/
theorem announce_probe_done (e : Engine) (self : NMAcdManagerPrivate)
    (hs : self.state = State.STATE_PROBE_DONE)
    (hi : (acd_init e self).2 = 0) :
    ∃ s2, nm_acd_manager_announce_addresses e self = some s2 ∧
      s2.state = State.STATE_PROBE_DONE ∧
      s2.calls = self.calls ∧
      s2.addresses = self.addresses ∧
      s2.completed = self.completed ∧
      s2.signals = self.signals := by
  obtain ⟨h1, h2, h3, h4, h5⟩ := acd_init_addresses e self
  rcases hp : acd_init e self with ⟨s0, r⟩
  rw [hp] at hi h1 h2 h3 h4 h5
  simp only at hi h1 h2 h3 h4 h5
  subst hi
  have hst : s0.state = State.STATE_PROBE_DONE := h2.trans hs
  refine ⟨s0, ?_, hst, h3, h1, h4, h5⟩
  unfold nm_acd_manager_announce_addresses
  rw [hp]
  simp [hst]

theorem announce_probe_done_witness :
    ∃ s2, nm_acd_manager_announce_addresses engine_ok manager_done = some s2 ∧
      s2.state = State.STATE_PROBE_DONE ∧
      s2.calls = manager_done.calls ∧
      s2.addresses = manager_done.addresses ∧
      s2.completed = manager_done.completed ∧
      s2.signals = manager_done.signals :=
  announce_probe_done engine_ok manager_done (by decide) (by decide)

/-! ## Calls outside the allowed phase -/

/-- C11: outside `STATE_INIT`, that is in `STATE_PROBING`, `STATE_PROBE_DONE`
and `STATE_ANNOUNCING`, `nm_acd_manager_add_address` and
`nm_acd_manager_start_probe` return `FALSE` and leave the whole manager as it
was (phase, table with keys and flags, `completed`, requests made to the
engine); in `STATE_PROBING` and `STATE_ANNOUNCING`
`nm_acd_manager_check_address`, which writes nothing, returns `FALSE`. -/
theorem wrong_phase_fails (e : Engine) (self : NMAcdManagerPrivate) (a timeout : Nat)
    (hs : self.state ≠ State.STATE_INIT) :
    nm_acd_manager_add_address self a = (self, false) ∧
    nm_acd_manager_start_probe e self timeout = (self, false) ∧
    ((self.state = State.STATE_PROBING ∨ self.state = State.STATE_ANNOUNCING) →
      nm_acd_manager_check_address self a = false) := by
  refine ⟨?_, ?_, ?_⟩
  · simp [nm_acd_manager_add_address, hs]
  · simp [nm_acd_manager_start_probe, hs]
  · intro h
    unfold nm_acd_manager_check_address
    rcases h with h | h <;> simp [h]

theorem wrong_phase_fails_witness :
    nm_acd_manager_add_address manager_probing addr7 = (manager_probing, false) ∧
    nm_acd_manager_start_probe engine_ok manager_probing 200 = (manager_probing, false) ∧
    ((manager_probing.state = State.STATE_PROBING ∨
        manager_probing.state = State.STATE_ANNOUNCING) →
      nm_acd_manager_check_address manager_probing addr5 = false) :=
  wrong_phase_fails engine_ok manager_probing addr5 200 (by decide)

/-! ## Events that end the handler -/

/-- C12: in `STATE_ANNOUNCING`, with `N_ACD_EVENT_DEFENDED` for 10.0.0.5 queued
before `N_ACD_EVENT_READY` for 10.0.0.6, one invocation of `acd_event` whose
`n_acd_dispatch` succeeds returns with the second event still in the queue and
with the manager as it was: 10.0.0.6 has not been announced. -/
theorem defended_leaves_queue :
    manager_announced.map (fun s => s.state) = some State.STATE_ANNOUNCING ∧
    engine_ok.n_acd_dispatch = 0 ∧
    manager_announced.map (fun s => (acd_event engine_ok s queue_defended_ready).2.1)
      = some [{ event := NAcdEventKind.N_ACD_EVENT_READY, probe := addr6 }] ∧
    manager_announced.map (fun s => (acd_event engine_ok s queue_defended_ready).1)
      = manager_announced ∧
    manager_announced.map (fun s =>
        announce_count (acd_event engine_ok s queue_defended_ready).1.calls addr6) = some 0 := by
  decide

/-- C15: an `N_ACD_EVENT_DEFENDED` or `N_ACD_EVENT_CONFLICT` event at the head
of the queue leaves the whole manager as it was, in every phase and for every
address: phase, table with all flags, `completed`, requests and number of
signals emitted. -/
theorem defended_conflict_no_change (e : Engine) (self : NMAcdManagerPrivate) (ev : NAcdEvent)
    (rest : List NAcdEvent)
    (h : ev.event = NAcdEventKind.N_ACD_EVENT_DEFENDED ∨
      ev.event = NAcdEventKind.N_ACD_EVENT_CONFLICT) :
    (acd_event e self (ev :: rest)).1 = self := by
  unfold acd_event
  split_ifs
  · rfl
  · rcases h with h | h <;> simp [acd_event_loop, h]

theorem defended_conflict_no_change_witness :
    (acd_event engine_ok manager_done
      [{ event := NAcdEventKind.N_ACD_EVENT_CONFLICT, probe := addr5 }]).1 = manager_done :=
  defended_conflict_no_change engine_ok manager_done
    { event := NAcdEventKind.N_ACD_EVENT_CONFLICT, probe := addr5 } [] (Or.inr rfl)

/-! ## The value returned by the handler -/

theorem loop_continue (e : Engine) (q : List NAcdEvent) :
    ∀ self : NMAcdManagerPrivate, (acd_event_loop e self q).2.2 = G_SOURCE_CONTINUE := by
  induction q with
  | nil => intro self; simp [acd_event_loop]
  | cons ev rest ih =>
    intro self
    cases hk : ev.event <;> simp [acd_event_loop, hk, ih]

/-- C20: when `n_acd_dispatch` fails, `acd_event` returns `G_SOURCE_CONTINUE`
with the manager and the queue as they were; and `acd_event` returns
`G_SOURCE_CONTINUE` for every manager, queue and engine result. -/
theorem acd_event_keeps_watch (e : Engine) (self : NMAcdManagerPrivate)
    (queue : List NAcdEvent) :
    (e.n_acd_dispatch ≠ 0 → acd_event e self queue = (self, queue, G_SOURCE_CONTINUE)) ∧
    (acd_event e self queue).2.2 = G_SOURCE_CONTINUE := by
  constructor
  · intro h
    simp [acd_event, h]
  · unfold acd_event
    split_ifs
    · rfl
    · exact loop_continue e queue self

/-! ## The bound on `completed` -/

theorem acd_event_ready_fields (e : Engine) (self : NMAcdManagerPrivate) (a : Nat) :
    (acd_event_ready e self a).state = self.state ∧
    (acd_event_ready e self a).completed = self.completed ∧
    (acd_event_ready e self a).signals = self.signals ∧
    (acd_event_ready e self a).addresses = info_set_duplicate self.addresses a false := by
  unfold acd_event_ready
  dsimp only
  split_ifs <;> simp

theorem acd_event_completed_bound (self : NMAcdManagerPrivate) (h : probing_bound self) :
    probing_bound (acd_event_completed self) := by
  unfold acd_event_completed g_hash_table_size GUINT_MOD
  dsimp only
  by_cases hs : self.state = State.STATE_PROBING
  · have hlt := h.1 hs
    simp only [hs, if_true]
    have hle : (self.completed + 1) % 4294967296 ≤ self.completed + 1 := Nat.mod_le _ _
    by_cases heq : (self.completed + 1) % 4294967296 = self.addresses.length % 4294967296
    · simp only [heq, if_true]
      constructor
      · intro hc; simp at hc
      · intro _
        exact Nat.mod_le _ _
    · simp only [heq, if_false]
      constructor
      · intro _
        show (self.completed + 1) % 4294967296 < self.addresses.length
        omega
      · intro hc; simp at hc
  · simp only [hs, if_false]
    exact h

theorem loop_bound (e : Engine) (q : List NAcdEvent) :
    ∀ self : NMAcdManagerPrivate, probing_bound self →
      probing_bound (acd_event_loop e self q).1 := by
  induction q with
  | nil => intro self h; simpa [acd_event_loop] using h
  | cons ev rest ih =>
    intro self h
    cases hk : ev.event with
    | N_ACD_EVENT_READY =>
      obtain ⟨s1, hl, h1, h2, -, h4⟩ := terminal_step e self ev rest (Or.inl hk)
      rw [hl]
      apply ih
      apply acd_event_completed_bound
      unfold probing_bound at h ⊢
      rw [h1, h2, h4, info_set_duplicate_length]
      exact h
    | N_ACD_EVENT_USED =>
      obtain ⟨s1, hl, h1, h2, -, h4⟩ := terminal_step e self ev rest (Or.inr hk)
      rw [hl]
      apply ih
      apply acd_event_completed_bound
      unfold probing_bound at h ⊢
      rw [h1, h2, h4, info_set_duplicate_length]
      exact h
    | N_ACD_EVENT_DEFENDED => simpa [acd_event_loop, hk] using h
    | N_ACD_EVENT_CONFLICT => simpa [acd_event_loop, hk] using h
    | N_ACD_EVENT_DOWN => simpa [acd_event_loop, hk] using h

theorem acd_event_bound (e : Engine) (q : List NAcdEvent) (self : NMAcdManagerPrivate)
    (h : probing_bound self) : probing_bound (acd_event e self q).1 := by
  unfold acd_event
  split_ifs
  · exact h
  · exact loop_bound e q self h

theorem add_address_bound (self : NMAcdManagerPrivate) (a : Nat) (h : probing_bound self) :
    probing_bound (nm_acd_manager_add_address self a).1 := by
  unfold nm_acd_manager_add_address
  by_cases hs : self.state = State.STATE_INIT
  · cases hl : g_hash_table_lookup self.addresses a with
    | some i => simpa [hs, hl] using h
    | none =>
      simp only [hs, ne_eq, not_true_eq_false, if_false]
      unfold probing_bound
      simp [hs]
  · simpa [hs] using h

theorem start_probe_bound (e : Engine) (self : NMAcdManagerPrivate) (timeout : Nat)
    (h : probing_bound self) :
    probing_bound (nm_acd_manager_start_probe e self timeout).1 := by
  by_cases hs : self.state = State.STATE_INIT
  · by_cases hi : (acd_init e self).2 = 0
    · obtain ⟨-, hst, hc, -, hlen, -, -⟩ := start_probe_unfold e self timeout hs hi
      unfold probing_bound
      rw [hst, hc, hlen]
      by_cases hany : self.addresses.any (fun i => probe_accepted e i.address) = true
      · obtain ⟨i, hi, -⟩ := List.any_eq_true.1 hany
        simp only [hany, if_true]
        exact ⟨fun _ => List.length_pos_of_mem hi, fun _ => Nat.zero_le _⟩
      · simp [hany]
    · obtain ⟨-, h2, -⟩ := acd_init_addresses e self
      unfold nm_acd_manager_start_probe
      rcases hp : acd_init e self with ⟨s0, r⟩
      rw [hp] at hi h2
      simp only at hi h2
      simp only [hs, ne_eq, not_true_eq_false, if_false, hi, not_false_eq_true, if_true]
      unfold probing_bound
      simp [h2, hs]
  · simpa [nm_acd_manager_start_probe, hs] using h

theorem announce_bound (e : Engine) (self s2 : NMAcdManagerPrivate)
    (hr : nm_acd_manager_announce_addresses e self = some s2) (h : probing_bound self) :
    probing_bound s2 := by
  obtain ⟨h1, h2, -, h4, -⟩ := acd_init_addresses e self
  unfold nm_acd_manager_announce_addresses at hr
  rcases hp : acd_init e self with ⟨s0, r⟩
  rw [hp] at hr h1 h2 h4
  simp only at hr h1 h2 h4
  by_cases hz : r = 0
  · simp only [hz, ne_eq, not_true_eq_false, if_false] at hr
    split_ifs at hr with ha hb
    · simp only [Option.some.injEq] at hr
      rw [← hr]
      unfold probing_bound
      simp
    · simp only [Option.some.injEq] at hr
      rw [← hr]
      unfold probing_bound
      simp [hb]
    · simp only [Option.some.injEq] at hr
      rw [← hr]
      unfold probing_bound at h ⊢
      rw [h1, h2, h4]
      exact h
  · simp [hz] at hr

theorem step_bound (op : Op) (self s2 : NMAcdManagerPrivate)
    (hstep : step self op = some s2) (h : probing_bound self) : probing_bound s2 := by
  cases op with
  | add_address b =>
    simp only [step, Option.some.injEq] at hstep
    rw [← hstep]; exact add_address_bound self b h
  | start_probe e timeout =>
    simp only [step, Option.some.injEq] at hstep
    rw [← hstep]; exact start_probe_bound e self timeout h
  | announce_addresses e =>
    simp only [step] at hstep
    exact announce_bound e self s2 hstep h
  | reset =>
    simp only [step, Option.some.injEq] at hstep
    rw [← hstep]
    unfold probing_bound nm_acd_manager_reset
    simp
  | event e q =>
    simp only [step, Option.some.injEq] at hstep
    rw [← hstep]; exact acd_event_bound e q self h

theorem run_bound (ops : List Op) :
    ∀ self s2 : NMAcdManagerPrivate, run self ops = some s2 → probing_bound self →
      probing_bound s2 := by
  induction ops with
  | nil =>
    intro self s2 hrun h
    simp only [run, Option.some.injEq] at hrun
    rw [← hrun]; exact h
  | cons op ops ih =>
    intro self s2 hrun h
    simp only [run] at hrun
    cases hst : step self op with
    | none => rw [hst] at hrun; simp at hrun
    | some s1 =>
      rw [hst] at hrun
      exact ih s1 s2 hrun (step_bound op self s1 hst h)

/-- C13, as the code contradicts it: from a newly constructed manager, after
two registrations, `nm_acd_manager_start_probe`, one `N_ACD_EVENT_READY` and
`nm_acd_manager_reset`, `completed` is 1 and the table is empty. -/
theorem completed_exceeds_after_reset :
    nm_acd_manager_new 2 [0, 17, 34, 51, 68, 85] = some manager0 ∧
    (run manager0
      [Op.add_address addr5, Op.add_address addr6, Op.start_probe engine_ok 200,
        Op.event engine_ok [{ event := NAcdEventKind.N_ACD_EVENT_READY, probe := addr5 }],
        Op.reset]).map
      (fun s => (s.state, s.completed, s.addresses.length))
      = some (State.STATE_INIT, 1, 0) := by
  decide

/-- C13, amended: in every state reached from a newly constructed manager by
any sequence of registrations, `nm_acd_manager_start_probe`,
`nm_acd_manager_announce_addresses`, `nm_acd_manager_reset` and wakeups of
`acd_event`, `completed` is below the number of registered addresses when the
phase is `STATE_PROBING` and at most that number when the phase is
`STATE_PROBE_DONE`. -/
theorem completed_bounded_while_probing (ifindex : Int) (hwaddr : List Nat)
    (s0 s : NMAcdManagerPrivate) (ops : List Op)
    (hnew : nm_acd_manager_new ifindex hwaddr = some s0)
    (hrun : run s0 ops = some s) :
    (s.state = State.STATE_PROBING → s.completed < s.addresses.length) ∧
    (s.state = State.STATE_PROBE_DONE → s.completed ≤ s.addresses.length) := by
  have h0 : probing_bound s0 := by
    unfold nm_acd_manager_new at hnew
    split_ifs at hnew
    simp only [Option.some.injEq] at hnew
    rw [← hnew]
    unfold probing_bound
    simp
  exact run_bound ops s0 s hrun h0

theorem completed_bounded_while_probing_witness :
    (manager_done.state = State.STATE_PROBING →
      manager_done.completed < manager_done.addresses.length) ∧
    (manager_done.state = State.STATE_PROBE_DONE →
      manager_done.completed ≤ manager_done.addresses.length) :=
  completed_bounded_while_probing 2 [0, 17, 34, 51, 68, 85] manager0 manager_done
    [Op.add_address addr5, Op.add_address addr6, Op.start_probe engine_ok 200,
      Op.event engine_ok [{ event := NAcdEventKind.N_ACD_EVENT_READY, probe := addr5 }],
      Op.event engine_ok [{ event := NAcdEventKind.N_ACD_EVENT_USED, probe := addr6 }]]
    (by decide) (by decide)

/-! ## Failure to construct the engine -/

/-- C14: with an engine that cannot be constructed (`n_acd_config_new` returns
`-ENOMEM`) `acd_init` returns that code, `nm_acd_manager_start_probe` returns
`FALSE` and leaves the manager as it was, and `acd_init` on a manager whose
engine exists returns `0` without a change; but
`nm_acd_manager_announce_addresses` has no defined result: it reads
`info->address` from the uninitialised `info` to format its warning. -/
theorem announce_without_engine :
    (acd_init engine_no_acd manager2).2 = -12 ∧
    nm_acd_manager_start_probe engine_no_acd manager2 200 = (manager2, false) ∧
    acd_init engine_no_acd manager_done = (manager_done, 0) ∧
    nm_acd_manager_announce_addresses engine_no_acd manager2 = none := by
  decide

/-! ## The requests of the probe loops -/

theorem acd_probe_add_calls (e : Engine) (calls : List EngineCall) (info : AddressInfo)
    (timeout : Nat) :
    (acd_probe_add e calls info timeout).1 = calls ++ (acd_probe_add e [] info timeout).1 ∧
    (acd_probe_add e calls info timeout).2.1 = (acd_probe_add e [] info timeout).2.1 := by
  unfold acd_probe_add
  by_cases h1 : e.n_acd_probe_config_new info.address = 0
  · by_cases h2 : e.n_acd_probe info.address = 0 <;> simp [h1, h2]
  · simp [h1]

theorem probe_loop_table (e : Engine) (timeout : Nat) (t : List AddressInfo) :
    ∀ (calls : List EngineCall) (b : Bool),
      (probe_loop e timeout t calls b).1
          = t.map (fun i => (acd_probe_add e [] i timeout).2.1) ∧
      (probe_loop e timeout t calls b).2.1
          = calls ++ (t.map (fun i => (acd_probe_add e [] i timeout).1)).flatten := by
  induction t with
  | nil => intro calls b; simp [probe_loop]
  | cons i t ih =>
    intro calls b
    obtain ⟨h1, h2⟩ := ih (acd_probe_add e calls i timeout).1
      (b || (acd_probe_add e calls i timeout).2.2)
    obtain ⟨c1, c2⟩ := acd_probe_add_calls e calls i timeout
    simp only [probe_loop, h1, h2, List.map_cons, List.flatten_cons]
    rw [c2, c1, List.append_assoc]
    exact ⟨rfl, rfl⟩

theorem announce_probe_loop_eq (e : Engine) (t : List AddressInfo) :
    ∀ calls : List EngineCall,
      announce_probe_loop e t calls
        = ((probe_loop e 0 t calls false).1, (probe_loop e 0 t calls false).2.1) := by
  induction t with
  | nil => intro calls; simp [announce_probe_loop, probe_loop]
  | cons i t ih =>
    intro calls
    obtain ⟨h1, h2⟩ := probe_loop_table e 0 t (acd_probe_add e calls i 0).1
      (false || (acd_probe_add e calls i 0).2.2)
    obtain ⟨h3, h4⟩ := probe_loop_table e 0 t (acd_probe_add e calls i 0).1 false
    simp only [announce_probe_loop, probe_loop, ih, h1, h2, h3, h4]

/-- When the probe configuration can be allocated for every entry, the requests
of the loop are one `n_acd_probe` per entry, in the order of the table. -/
theorem probe_requests_all (e : Engine) (timeout : Nat) (t : List AddressInfo)
    (h : ∀ i ∈ t, e.n_acd_probe_config_new i.address = 0) :
    (t.map (fun i => (acd_probe_add e [] i timeout).1)).flatten
      = t.map (fun i => EngineCall.n_acd_probe i.address timeout (e.n_acd_probe i.address)) := by
  induction t with
  | nil => simp
  | cons i t ih =>
    have hi : e.n_acd_probe_config_new i.address = 0 := h i (List.mem_cons_self _ _)
    have hrest := ih (fun x hx => h x (List.mem_cons_of_mem _ hx))
    have hone : (acd_probe_add e [] i timeout).1
        = [EngineCall.n_acd_probe i.address timeout (e.n_acd_probe i.address)] := by
      unfold acd_probe_add
      by_cases h2 : e.n_acd_probe i.address = 0 <;> simp [hi, h2]
    simp only [List.map_cons, List.flatten_cons, hrest, hone, List.singleton_append]

theorem probe_count_append (xs ys : List EngineCall) (a timeout : Nat) :
    probe_count (xs ++ ys) a timeout = probe_count xs a timeout + probe_count ys a timeout := by
  simp [probe_count, List.countP_append]

theorem probe_count_one (e : Engine) (i : AddressInfo) (a timeout : Nat) :
    probe_count (acd_probe_add e [] i timeout).1 a timeout
      = if i.address = a ∧ e.n_acd_probe_config_new i.address = 0 then 1 else 0 := by
  unfold acd_probe_add probe_count
  by_cases h1 : e.n_acd_probe_config_new i.address = 0
  · by_cases h3 : i.address = a
    · subst h3
      by_cases h2 : e.n_acd_probe i.address = 0 <;> simp [h1, h2]
    · by_cases h2 : e.n_acd_probe i.address = 0 <;> simp [h1, h2, h3]
  · simp [h1]

theorem probe_requests_absent (e : Engine) (timeout : Nat) (a : Nat) (t : List AddressInfo)
    (h : a ∉ keys t) :
    probe_count (t.map (fun i => (acd_probe_add e [] i timeout).1)).flatten a timeout = 0 := by
  induction t with
  | nil => simp [probe_count]
  | cons i t ih =>
    have hk : ¬ i.address = a ∧ a ∉ keys t := by
      unfold keys at h ⊢
      simp only [List.map_cons, List.mem_cons, not_or] at h
      exact ⟨fun hia => h.1 hia.symm, h.2⟩
    simp only [List.map_cons, List.flatten_cons, probe_count_append, probe_count_one, ih hk.2]
    simp [hk.1]

/-- With pairwise distinct keys, the loop makes exactly one `n_acd_probe` request
with the given timeout for a registered address whose probe configuration can be
allocated, whatever happens to the other entries. -/
theorem probe_requests_count (e : Engine) (timeout : Nat) (a : Nat) (t : List AddressInfo)
    (hk : (keys t).Nodup) (ha : a ∈ keys t) (hc : e.n_acd_probe_config_new a = 0) :
    probe_count (t.map (fun i => (acd_probe_add e [] i timeout).1)).flatten a timeout = 1 := by
  induction t with
  | nil => simp [keys] at ha
  | cons i t ih =>
    have hk2 : i.address ∉ keys t ∧ (keys t).Nodup := by
      simpa [keys] using hk
    simp only [List.map_cons, List.flatten_cons, probe_count_append, probe_count_one]
    by_cases hia : i.address = a
    · rw [probe_requests_absent e timeout a t (by rw [← hia]; exact hk2.1)]
      simp [hia, hc]
    · have hin : a ∈ keys t := by
        unfold keys at ha ⊢
        simp only [List.map_cons, List.mem_cons] at ha
        rcases ha with h | h
        · exact absurd h.symm hia
        · exact h
      rw [ih hk2.2 hin]
      simp [hia]

theorem start_probe_loop (e : Engine) (self : NMAcdManagerPrivate) (timeout : Nat)
    (hs : self.state = State.STATE_INIT) (hi : (acd_init e self).2 = 0) :
    (nm_acd_manager_start_probe e self timeout).1.addresses
        = (probe_loop e timeout self.addresses self.calls false).1 ∧
    (nm_acd_manager_start_probe e self timeout).1.calls
        = (probe_loop e timeout self.addresses self.calls false).2.1 := by
  obtain ⟨h1, -, h3, -, -⟩ := acd_init_addresses e self
  unfold nm_acd_manager_start_probe
  rcases hp : acd_init e self with ⟨s0, r⟩
  rw [hp] at hi h1 h3
  simp only at hi h1 h3
  subst hi
  simp only [hs, ne_eq, not_true_eq_false, if_false, h1, h3]
  constructor <;> split_ifs <;> rfl

/-- C16: in `STATE_INIT` with an engine that exists or can be constructed,
`nm_acd_manager_start_probe` applies `acd_probe_add` with the given timeout to
every entry of the table, once and in table order, whatever the results of the
engine: the table and the requests afterwards are those of one `acd_probe_add`
per entry.  When every probe configuration can be allocated the requests are one
`n_acd_probe` with the given timeout per entry, whichever of them the engine
rejects; and with pairwise distinct keys every registered address whose probe
configuration can be allocated gets exactly one such request, whatever happens
to the other addresses. -/
theorem start_probe_requests (e : Engine) (self : NMAcdManagerPrivate) (timeout : Nat)
    (hs : self.state = State.STATE_INIT) (hi : (acd_init e self).2 = 0)
    (hk : (keys self.addresses).Nodup) :
    (nm_acd_manager_start_probe e self timeout).1.addresses
        = self.addresses.map (fun i => (acd_probe_add e [] i timeout).2.1) ∧
    (nm_acd_manager_start_probe e self timeout).1.calls
        = self.calls ++
          (self.addresses.map (fun i => (acd_probe_add e [] i timeout).1)).flatten ∧
    ((∀ i ∈ self.addresses, e.n_acd_probe_config_new i.address = 0) →
      (nm_acd_manager_start_probe e self timeout).1.calls
        = self.calls ++ self.addresses.map
            (fun i => EngineCall.n_acd_probe i.address timeout (e.n_acd_probe i.address))) ∧
    (∀ i ∈ self.addresses, e.n_acd_probe_config_new i.address = 0 →
      probe_count (nm_acd_manager_start_probe e self timeout).1.calls i.address timeout
        = probe_count self.calls i.address timeout + 1) := by
  obtain ⟨h1, h2⟩ := start_probe_loop e self timeout hs hi
  obtain ⟨t1, t2⟩ := probe_loop_table e timeout self.addresses self.calls false
  rw [h1, h2, t1, t2]
  refine ⟨rfl, rfl, ?_, ?_⟩
  · intro hall
    rw [probe_requests_all e timeout self.addresses hall]
  · intro i hi hc
    rw [probe_count_append,
      probe_requests_count e timeout i.address self.addresses hk
        (List.mem_map.2 ⟨i, hi, rfl⟩) hc]

theorem start_probe_requests_witness :
    (nm_acd_manager_start_probe engine_reject6 manager2 200).1.addresses
        = manager2.addresses.map (fun i => (acd_probe_add engine_reject6 [] i 200).2.1) ∧
    (nm_acd_manager_start_probe engine_reject6 manager2 200).1.calls
        = manager2.calls ++
          (manager2.addresses.map (fun i => (acd_probe_add engine_reject6 [] i 200).1)).flatten ∧
    ((∀ i ∈ manager2.addresses, engine_reject6.n_acd_probe_config_new i.address = 0) →
      (nm_acd_manager_start_probe engine_reject6 manager2 200).1.calls
        = manager2.calls ++ manager2.addresses.map
            (fun i => EngineCall.n_acd_probe i.address 200
              (engine_reject6.n_acd_probe i.address))) ∧
    (∀ i ∈ manager2.addresses, engine_reject6.n_acd_probe_config_new i.address = 0 →
      probe_count (nm_acd_manager_start_probe engine_reject6 manager2 200).1.calls
          i.address 200
        = probe_count manager2.calls i.address 200 + 1) :=
  start_probe_requests engine_reject6 manager2 200 rfl rfl (by decide)

/-! ## Announcing from `STATE_INIT` -/

/-- C17: in `STATE_INIT` with an engine that exists or can be constructed,
`nm_acd_manager_announce_addresses` applies `acd_probe_add` with timeout 0 to
every entry of the table, once and in table order, and sets the phase to
`STATE_ANNOUNCING` whatever the results of the engine, also for an empty table;
`completed`, the keys and all `duplicate` flags are as before.  When every probe
configuration can be allocated the requests are one `n_acd_probe` with timeout 0
per entry, and with pairwise distinct keys every registered address whose probe
configuration can be allocated gets exactly one such request. -/
theorem announce_from_init (e : Engine) (self : NMAcdManagerPrivate)
    (hs : self.state = State.STATE_INIT) (hi : (acd_init e self).2 = 0)
    (hk : (keys self.addresses).Nodup) :
    ∃ s2, nm_acd_manager_announce_addresses e self = some s2 ∧
      s2.state = State.STATE_ANNOUNCING ∧
      s2.completed = self.completed ∧
      keys s2.addresses = keys self.addresses ∧
      s2.addresses.map (fun i => i.duplicate) = self.addresses.map (fun i => i.duplicate) ∧
      s2.addresses = self.addresses.map (fun i => (acd_probe_add e [] i 0).2.1) ∧
      s2.calls = self.calls ++ (self.addresses.map (fun i => (acd_probe_add e [] i 0).1)).flatten ∧
      ((∀ i ∈ self.addresses, e.n_acd_probe_config_new i.address = 0) →
        s2.calls = self.calls ++ self.addresses.map
          (fun i => EngineCall.n_acd_probe i.address 0 (e.n_acd_probe i.address))) ∧
      (∀ i ∈ self.addresses, e.n_acd_probe_config_new i.address = 0 →
        probe_count s2.calls i.address 0 = probe_count self.calls i.address 0 + 1) := by
  obtain ⟨h1, h2, h3, h4, -⟩ := acd_init_addresses e self
  rcases hp : acd_init e self with ⟨s0, r⟩
  rw [hp] at hi h1 h2 h3 h4
  simp only at hi h1 h2 h3 h4
  subst hi
  have hst : s0.state = State.STATE_INIT := h2.trans hs
  obtain ⟨t1, t2⟩ := probe_loop_table e 0 self.addresses self.calls false
  refine ⟨{ s0 with
      addresses := (probe_loop e 0 self.addresses self.calls false).1
      calls := (probe_loop e 0 self.addresses self.calls false).2.1
      state := State.STATE_ANNOUNCING }, ?_, rfl, h4, ?_, ?_, t1, t2, ?_, ?_⟩
  · unfold nm_acd_manager_announce_addresses
    rw [hp]
    simp [hst, announce_probe_loop_eq, h1, h3]
  · exact probe_loop_keys e 0 self.addresses self.calls false
  · simp only [t1, List.map_map]
    apply List.map_congr_left
    intro i _
    exact acd_probe_add_duplicate e [] i 0
  · intro hall
    simp only [t2]
    rw [probe_requests_all e 0 self.addresses hall]
  · intro i hi hc
    simp only [t2]
    rw [probe_count_append,
      probe_requests_count e 0 i.address self.addresses hk (List.mem_map.2 ⟨i, hi, rfl⟩) hc]

theorem announce_from_init_witness :
    ∃ s2, nm_acd_manager_announce_addresses engine_reject6 manager2 = some s2 ∧
      s2.state = State.STATE_ANNOUNCING ∧
      s2.completed = manager2.completed ∧
      keys s2.addresses = keys manager2.addresses ∧
      s2.addresses.map (fun i => i.duplicate) = manager2.addresses.map (fun i => i.duplicate) ∧
      s2.addresses = manager2.addresses.map (fun i => (acd_probe_add engine_reject6 [] i 0).2.1) ∧
      s2.calls = manager2.calls ++
        (manager2.addresses.map (fun i => (acd_probe_add engine_reject6 [] i 0).1)).flatten ∧
      ((∀ i ∈ manager2.addresses, engine_reject6.n_acd_probe_config_new i.address = 0) →
        s2.calls = manager2.calls ++ manager2.addresses.map
          (fun i => EngineCall.n_acd_probe i.address 0 (engine_reject6.n_acd_probe i.address))) ∧
      (∀ i ∈ manager2.addresses, engine_reject6.n_acd_probe_config_new i.address = 0 →
        probe_count s2.calls i.address 0 = probe_count manager2.calls i.address 0 + 1) :=
  announce_from_init engine_reject6 manager2 rfl rfl (by decide)

/-! ## `N_ACD_EVENT_READY` while announcing -/

/-- C18: in `STATE_ANNOUNCING`, the dispatch of `N_ACD_EVENT_READY` for a
registered address sets the `duplicate` flag of that address to `FALSE`, leaves
the flags of the other addresses, and makes exactly one request to the engine:
`n_acd_probe_announce` for that address with `N_ACD_DEFEND_ONCE`; whatever the
result of that request, the phase stays `STATE_ANNOUNCING` and `completed` is
unchanged. -/
theorem ready_while_announcing (e : Engine) (self : NMAcdManagerPrivate) (a : Nat)
    (hs : self.state = State.STATE_ANNOUNCING)
    (hd : e.n_acd_dispatch = 0)
    (ha : a ∈ keys self.addresses) :
    duplicate_of (acd_event e self
        [{ event := NAcdEventKind.N_ACD_EVENT_READY, probe := a }]).1.addresses a
      = some false ∧
    (∀ b, b ≠ a →
      duplicate_of (acd_event e self
          [{ event := NAcdEventKind.N_ACD_EVENT_READY, probe := a }]).1.addresses b
        = duplicate_of self.addresses b) ∧
    (acd_event e self [{ event := NAcdEventKind.N_ACD_EVENT_READY, probe := a }]).1.calls
      = self.calls ++
        [EngineCall.n_acd_probe_announce a NAcdDefend.N_ACD_DEFEND_ONCE
          (e.n_acd_probe_announce a)] ∧
    announce_count (acd_event e self
        [{ event := NAcdEventKind.N_ACD_EVENT_READY, probe := a }]).1.calls a
      = announce_count self.calls a + 1 ∧
    (acd_event e self [{ event := NAcdEventKind.N_ACD_EVENT_READY, probe := a }]).1.state
      = State.STATE_ANNOUNCING ∧
    (acd_event e self [{ event := NAcdEventKind.N_ACD_EVENT_READY, probe := a }]).1.completed
      = self.completed := by
  have hev : (acd_event e self [{ event := NAcdEventKind.N_ACD_EVENT_READY, probe := a }]).1
      = { self with
          addresses := info_set_duplicate self.addresses a false
          calls := self.calls ++
            [EngineCall.n_acd_probe_announce a NAcdDefend.N_ACD_DEFEND_ONCE
              (e.n_acd_probe_announce a)] } := by
    simp [acd_event, hd, acd_event_loop, acd_event_ready, acd_event_completed, hs]
  rw [hev]
  obtain ⟨d, hdup⟩ := duplicate_of_isSome self.addresses a ha
  refine ⟨?_, ?_, rfl, ?_, hs, rfl⟩
  · simp only [duplicate_of_set, if_true, hdup, Option.map_some']
  · intro b hb
    have hne : ¬ a = b := fun h => hb h.symm
    simp only [duplicate_of_set, if_neg hne]
  · simp [announce_count_append, announce_count]

theorem manager_announcing_reached :
    nm_acd_manager_announce_addresses engine_ok manager2 = some manager_announcing := by
  decide

theorem ready_while_announcing_witness :
    duplicate_of (acd_event engine_ok manager_announcing
        [{ event := NAcdEventKind.N_ACD_EVENT_READY, probe := addr5 }]).1.addresses addr5
      = some false ∧
    (acd_event engine_ok manager_announcing
        [{ event := NAcdEventKind.N_ACD_EVENT_READY, probe := addr5 }]).1.calls
      = manager_announcing.calls ++
        [EngineCall.n_acd_probe_announce addr5 NAcdDefend.N_ACD_DEFEND_ONCE 0] :=
  ⟨(ready_while_announcing engine_ok manager_announcing addr5 rfl rfl (by decide)).1,
   (ready_while_announcing engine_ok manager_announcing addr5 rfl rfl (by decide)).2.2.1⟩

/-! ## When `completed` changes -/

/-- Outside `STATE_PROBING` no queue of events, of whatever codes, changes the
phase, `completed` or the number of signals emitted. -/
theorem loop_outside_probing (e : Engine) (q : List NAcdEvent) :
    ∀ self : NMAcdManagerPrivate, self.state ≠ State.STATE_PROBING →
      (acd_event_loop e self q).1.state = self.state ∧
      (acd_event_loop e self q).1.completed = self.completed ∧
      (acd_event_loop e self q).1.signals = self.signals := by
  induction q with
  | nil => intro self _; simp [acd_event_loop]
  | cons ev rest ih =>
    intro self hs
    have hterm : terminal ev →
        (acd_event_loop e self (ev :: rest)).1.state = self.state ∧
        (acd_event_loop e self (ev :: rest)).1.completed = self.completed ∧
        (acd_event_loop e self (ev :: rest)).1.signals = self.signals := by
      intro ht
      obtain ⟨s1, hl, h1, h2, h3, -⟩ := terminal_step e self ev rest ht
      have hstep : acd_event_completed s1 = s1 := by
        unfold acd_event_completed
        simp [h1, hs]
      rw [hl, hstep]
      obtain ⟨i1, i2, i3⟩ := ih s1 (by rw [h1]; exact hs)
      exact ⟨i1.trans h1, i2.trans h2, i3.trans h3⟩
    cases hk : ev.event with
    | N_ACD_EVENT_READY => exact hterm (Or.inl hk)
    | N_ACD_EVENT_USED => exact hterm (Or.inr hk)
    | N_ACD_EVENT_DEFENDED => simp [acd_event_loop, hk]
    | N_ACD_EVENT_CONFLICT => simp [acd_event_loop, hk]
    | N_ACD_EVENT_DOWN => simp [acd_event_loop, hk]

theorem acd_event_outside_probing (e : Engine) (q : List NAcdEvent)
    (self : NMAcdManagerPrivate) (hs : self.state ≠ State.STATE_PROBING) :
    (acd_event e self q).1.state = self.state ∧
    (acd_event e self q).1.completed = self.completed ∧
    (acd_event e self q).1.signals = self.signals := by
  unfold acd_event
  split_ifs
  · exact ⟨rfl, rfl, rfl⟩
  · exact loop_outside_probing e q self hs

/-- An event that is neither `N_ACD_EVENT_READY` nor `N_ACD_EVENT_USED` leaves
the manager as it was. -/
theorem acd_event_not_terminal (e : Engine) (self : NMAcdManagerPrivate) (ev : NAcdEvent)
    (rest : List NAcdEvent) (h : ¬ terminal ev) :
    (acd_event e self (ev :: rest)).1 = self := by
  unfold terminal at h
  unfold acd_event
  split_ifs
  · rfl
  · cases hk : ev.event with
    | N_ACD_EVENT_READY => exact absurd (Or.inl hk) h
    | N_ACD_EVENT_USED => exact absurd (Or.inr hk) h
    | N_ACD_EVENT_DEFENDED => simp [acd_event_loop, hk]
    | N_ACD_EVENT_CONFLICT => simp [acd_event_loop, hk]
    | N_ACD_EVENT_DOWN => simp [acd_event_loop, hk]

theorem step_without_start_probe (op : Op) (self s2 : NMAcdManagerPrivate)
    (hop : ¬ op.starts_probe) (hstep : step self op = some s2)
    (hs : self.state ≠ State.STATE_PROBING) :
    s2.signals = self.signals ∧ s2.state ≠ State.STATE_PROBING := by
  cases op with
  | add_address b =>
    simp only [step, Option.some.injEq] at hstep
    rw [← hstep]
    unfold nm_acd_manager_add_address
    by_cases h0 : self.state = State.STATE_INIT
    · cases hl : g_hash_table_lookup self.addresses b <;> simp [h0, hl]
    · simp [h0, hs]
  | start_probe e timeout => exact absurd trivial hop
  | announce_addresses e =>
    simp only [step] at hstep
    obtain ⟨-, h2, -, -, h5⟩ := acd_init_addresses e self
    unfold nm_acd_manager_announce_addresses at hstep
    rcases hp : acd_init e self with ⟨s0, r⟩
    rw [hp] at hstep h2 h5
    simp only at hstep h2 h5
    by_cases hz : r = 0
    · simp only [hz, ne_eq, not_true_eq_false, if_false] at hstep
      split_ifs at hstep
      · simp only [Option.some.injEq] at hstep
        rw [← hstep]
        simp [h5]
      · simp only [Option.some.injEq] at hstep
        rw [← hstep]
        simp [h5, h2, hs]
      · simp only [Option.some.injEq] at hstep
        rw [← hstep, h5, h2]
        exact ⟨rfl, hs⟩
    · simp [hz] at hstep
  | reset =>
    simp only [step, Option.some.injEq] at hstep
    rw [← hstep]
    simp [nm_acd_manager_reset]
  | event e q =>
    simp only [step, Option.some.injEq] at hstep
    rw [← hstep]
    obtain ⟨h1, -, h3⟩ := acd_event_outside_probing e q self hs
    exact ⟨h3, by rw [h1]; exact hs⟩

theorem run_without_start_probe (ops : List Op) :
    ∀ self s2 : NMAcdManagerPrivate, (∀ op ∈ ops, ¬ op.starts_probe) →
      run self ops = some s2 → self.state ≠ State.STATE_PROBING →
      s2.signals = self.signals ∧ s2.state ≠ State.STATE_PROBING := by
  induction ops with
  | nil =>
    intro self s2 _ hrun hs
    simp only [run, Option.some.injEq] at hrun
    rw [← hrun]; exact ⟨rfl, hs⟩
  | cons op ops ih =>
    intro self s2 hops hrun hs
    simp only [run] at hrun
    cases hst : step self op with
    | none => rw [hst] at hrun; simp at hrun
    | some s1 =>
      rw [hst] at hrun
      obtain ⟨h1, h2⟩ := step_without_start_probe op self s1
        (hops op (List.mem_cons_self _ _)) hst hs
      obtain ⟨i1, i2⟩ := ih s1 s2 (fun x hx => hops x (List.mem_cons_of_mem _ hx)) hrun h2
      exact ⟨i1.trans h1, i2⟩

/-- C19: the dispatch of one event changes `completed` only when the phase is
`STATE_PROBING` and the event is `N_ACD_EVENT_READY` or `N_ACD_EVENT_USED`, and
then `completed` grows by exactly 1 (for a `guint` that does not wrap, as is the
case while `completed` is below the table size).  In `STATE_INIT`,
`STATE_PROBE_DONE` and `STATE_ANNOUNCING` no queue of events of any codes
changes `completed` or the phase or emits the signal; and from such a phase no
sequence of operations without `nm_acd_manager_start_probe` emits the signal or
reaches `STATE_PROBING`. -/
theorem completed_changes_only_when_probing (e : Engine) (self final : NMAcdManagerPrivate)
    (ev : NAcdEvent) (queue : List NAcdEvent) (ops : List Op)
    (hops : ∀ op ∈ ops, ¬ op.starts_probe)
    (hrun : run self ops = some final) :
    ((acd_event e self [ev]).1.completed ≠ self.completed →
      self.state = State.STATE_PROBING ∧ terminal ev) ∧
    (self.state = State.STATE_PROBING → terminal ev → e.n_acd_dispatch = 0 →
      self.completed + 1 < GUINT_MOD →
      (acd_event e self [ev]).1.completed = self.completed + 1) ∧
    (self.state ≠ State.STATE_PROBING →
      (acd_event e self queue).1.completed = self.completed ∧
      (acd_event e self queue).1.state = self.state ∧
      (acd_event e self queue).1.signals = self.signals) ∧
    (self.state ≠ State.STATE_PROBING →
      final.signals = self.signals ∧ final.state ≠ State.STATE_PROBING) := by
  refine ⟨?_, ?_, ?_, ?_⟩
  · intro hne
    by_cases ht : terminal ev
    · by_cases hs : self.state = State.STATE_PROBING
      · exact ⟨hs, ht⟩
      · exact absurd (acd_event_outside_probing e [ev] self hs).2.1 hne
    · rw [acd_event_not_terminal e self ev [] ht] at hne
      exact absurd rfl hne
  · intro hs ht hd hlt
    obtain ⟨s1, hl, h1, h2, -, -⟩ := terminal_step e self ev [] ht
    rw [acd_event_ok e self [ev] hd, hl]
    have hc : (acd_event_completed s1).completed = self.completed + 1 := by
      unfold acd_event_completed
      unfold GUINT_MOD at hlt ⊢
      dsimp only
      rw [h1, h2]
      simp only [hs, if_true]
      split_ifs <;> simp <;> omega
    simpa [acd_event_loop] using hc
  · intro hs
    obtain ⟨h1, h2, h3⟩ := acd_event_outside_probing e queue self hs
    exact ⟨h2, h1, h3⟩
  · intro hs
    exact run_without_start_probe ops self final hops hrun hs

theorem completed_changes_only_when_probing_witness :
    ((acd_event engine_ok manager_done
        [{ event := NAcdEventKind.N_ACD_EVENT_USED, probe := addr5 }]).1.completed
        ≠ manager_done.completed →
      manager_done.state = State.STATE_PROBING ∧
      terminal { event := NAcdEventKind.N_ACD_EVENT_USED, probe := addr5 }) ∧
    (manager_done.state = State.STATE_PROBING →
      terminal { event := NAcdEventKind.N_ACD_EVENT_USED, probe := addr5 } →
      engine_ok.n_acd_dispatch = 0 →
      manager_done.completed + 1 < GUINT_MOD →
      (acd_event engine_ok manager_done
        [{ event := NAcdEventKind.N_ACD_EVENT_USED, probe := addr5 }]).1.completed
        = manager_done.completed + 1) ∧
    (manager_done.state ≠ State.STATE_PROBING →
      (acd_event engine_ok manager_done queue_defended_ready).1.completed
        = manager_done.completed ∧
      (acd_event engine_ok manager_done queue_defended_ready).1.state = manager_done.state ∧
      (acd_event engine_ok manager_done queue_defended_ready).1.signals
        = manager_done.signals) ∧
    (manager_done.state ≠ State.STATE_PROBING →
      (nm_acd_manager_reset (acd_event engine_ok manager_done
        [{ event := NAcdEventKind.N_ACD_EVENT_USED, probe := addr5 }]).1).signals
        = manager_done.signals ∧
      (nm_acd_manager_reset (acd_event engine_ok manager_done
        [{ event := NAcdEventKind.N_ACD_EVENT_USED, probe := addr5 }]).1).state
        ≠ State.STATE_PROBING) :=
  completed_changes_only_when_probing engine_ok manager_done
    (nm_acd_manager_reset (acd_event engine_ok manager_done
      [{ event := NAcdEventKind.N_ACD_EVENT_USED, probe := addr5 }]).1)
    { event := NAcdEventKind.N_ACD_EVENT_USED, probe := addr5 } queue_defended_ready
    [Op.event engine_ok [{ event := NAcdEventKind.N_ACD_EVENT_USED, probe := addr5 }], Op.reset]
    (by
      intro op hop
      simp only [List.mem_cons, List.mem_singleton, List.not_mem_nil, or_false] at hop
      rcases hop with h | h <;> subst h <;> exact fun hf => hf)
    rfl

/-! ## What `STATE_PROBE_DONE` tells about the addresses -/

theorem consumed_terminal (e : Engine) (q : List NAcdEvent) :
    ∀ ev ∈ consumed e q, terminal ev := by
  intro ev hev
  unfold consumed at hev
  split_ifs at hev
  · simp at hev
  · simpa using List.mem_takeWhile_imp hev

theorem loop_takeWhile (e : Engine) (q : List NAcdEvent) :
    ∀ self : NMAcdManagerPrivate,
      (acd_event_loop e self q).1
        = (acd_event_loop e self (q.takeWhile (fun ev => decide (terminal ev)))).1 := by
  induction q with
  | nil => intro self; rfl
  | cons ev rest ih =>
    intro self
    cases hk : ev.event with
    | N_ACD_EVENT_READY =>
      have ht : decide (terminal ev) = true := by simp [terminal, hk]
      simp only [List.takeWhile_cons, ht, if_true, acd_event_loop, hk]
      exact ih _
    | N_ACD_EVENT_USED =>
      have ht : decide (terminal ev) = true := by simp [terminal, hk]
      simp only [List.takeWhile_cons, ht, if_true, acd_event_loop, hk]
      exact ih _
    | N_ACD_EVENT_DEFENDED =>
      have ht : decide (terminal ev) = false := by simp [terminal, hk]
      simp [List.takeWhile_cons, ht, acd_event_loop, hk]
    | N_ACD_EVENT_CONFLICT =>
      have ht : decide (terminal ev) = false := by simp [terminal, hk]
      simp [List.takeWhile_cons, ht, acd_event_loop, hk]
    | N_ACD_EVENT_DOWN =>
      have ht : decide (terminal ev) = false := by simp [terminal, hk]
      simp [List.takeWhile_cons, ht, acd_event_loop, hk]

/-- One invocation of `acd_event` changes the manager as the loop over the
events it acts on does. -/
theorem acd_event_consumed (e : Engine) (self : NMAcdManagerPrivate) (q : List NAcdEvent) :
    (acd_event e self q).1 = (acd_event_loop e self (consumed e q)).1 := by
  unfold acd_event consumed
  split_ifs
  · simp [acd_event_loop]
  · exact loop_takeWhile e q self

/-- A list of terminal events that brings the count to the size of the table or
beyond ends in `STATE_PROBE_DONE`. -/
theorem loop_reaches_done (e : Engine) (evs : List NAcdEvent) :
    ∀ self : NMAcdManagerPrivate, (∀ ev ∈ evs, terminal ev) →
      self.state = State.STATE_PROBING →
      self.addresses.length < GUINT_MOD →
      self.completed < self.addresses.length →
      self.addresses.length ≤ self.completed + evs.length →
      (acd_event_loop e self evs).1.state = State.STATE_PROBE_DONE := by
  induction evs with
  | nil => intro self _ _ _ hlt hc; simp at hc; omega
  | cons ev rest ih =>
    intro self ht hs hm hlt hc
    obtain ⟨s1, hl, h1, h2, -, h4⟩ :=
      terminal_step e self ev rest (ht ev (List.mem_cons_self _ _))
    simp only [List.length_cons] at hc
    have hrest : ∀ x ∈ rest, terminal x := fun x hx => ht x (List.mem_cons_of_mem _ hx)
    have hlen : s1.addresses.length = self.addresses.length := by
      rw [h4, info_set_duplicate_length]
    have hmod : (s1.completed + 1) % 4294967296 = self.completed + 1 := by
      unfold GUINT_MOD at hm
      rw [h2]; omega
    have hsz : s1.addresses.length % 4294967296 = self.addresses.length := by
      unfold GUINT_MOD at hm
      rw [hlen]; omega
    by_cases hlast : self.completed + 1 = self.addresses.length
    · have hstep : acd_event_completed s1
          = { s1 with completed := self.completed + 1, state := State.STATE_PROBE_DONE,
                      signals := s1.signals + 1 } := by
        unfold acd_event_completed g_hash_table_size GUINT_MOD
        simp [h1, hs, hmod, hsz, hlast]
      rw [hl, hstep]
      exact (loop_not_probing e rest _ hrest (by simp)).1
    · have hstep : acd_event_completed s1
          = { s1 with completed := self.completed + 1 } := by
        unfold acd_event_completed g_hash_table_size GUINT_MOD
        simp [h1, hs, hmod, hsz, hlast]
      rw [hl, hstep]
      exact ih { s1 with completed := self.completed + 1 } hrest (by simpa [h1] using hs)
        (by simpa [hlen] using hm) (by simp only [hlen]; omega) (by simp only [hlen]; omega)

theorem start_probe_true (e : Engine) (self : NMAcdManagerPrivate) (timeout : Nat)
    (h : (nm_acd_manager_start_probe e self timeout).2 = true) :
    self.state = State.STATE_INIT ∧ (acd_init e self).2 = 0 := by
  unfold nm_acd_manager_start_probe at h
  by_cases hs : self.state = State.STATE_INIT
  · refine ⟨hs, ?_⟩
    rcases hp : acd_init e self with ⟨s0, r⟩
    rw [hp] at h
    by_cases hr : r = 0
    · exact hr
    · simp [hs, hr] at h
  · simp [hs] at h

theorem step_progress (n k : Nat) (op : Op) (self s2 : NMAcdManagerPrivate)
    (hn : n < GUINT_MOD) (hop : ¬ op.resets) (hstep : step self op = some s2)
    (h : pass_progress n k self) :
    pass_progress n (k + op.received.length) s2 := by
  obtain ⟨hlen, hlt, hge⟩ := h
  have hne : self.state ≠ State.STATE_INIT := by
    intro h0
    by_cases hk : k < n
    · rw [(hlt hk).1] at h0; exact absurd h0 (by decide)
    · rw [hge (by omega)] at h0; exact absurd h0 (by decide)
  have hna : self.state ≠ State.STATE_ANNOUNCING := by
    intro h0
    by_cases hk : k < n
    · rw [(hlt hk).1] at h0; exact absurd h0 (by decide)
    · rw [hge (by omega)] at h0; exact absurd h0 (by decide)
  cases op with
  | add_address b =>
    simp only [step, Option.some.injEq] at hstep
    rw [← hstep]
    simpa [nm_acd_manager_add_address, hne, Op.received] using
      (show pass_progress n k self from ⟨hlen, hlt, hge⟩)
  | start_probe e timeout =>
    simp only [step, Option.some.injEq] at hstep
    rw [← hstep]
    simpa [nm_acd_manager_start_probe, hne, Op.received] using
      (show pass_progress n k self from ⟨hlen, hlt, hge⟩)
  | announce_addresses e =>
    simp only [step] at hstep
    obtain ⟨h1, h2, -, h4, -⟩ := acd_init_addresses e self
    unfold nm_acd_manager_announce_addresses at hstep
    rcases hp : acd_init e self with ⟨s0, r⟩
    rw [hp] at hstep h1 h2 h4
    simp only at hstep h1 h2 h4
    by_cases hz : r = 0
    · simp only [hz, ne_eq, not_true_eq_false, if_false, h2, hne, hna] at hstep
      simp only [Option.some.injEq] at hstep
      rw [← hstep]
      unfold pass_progress
      simp only [Op.received, List.length_nil, Nat.add_zero, h1, h2, h4]
      exact ⟨hlen, hlt, hge⟩
    · simp [hz] at hstep
  | reset => exact absurd trivial hop
  | event e q =>
    simp only [step, Option.some.injEq] at hstep
    rw [← hstep, acd_event_consumed]
    simp only [Op.received]
    have hterm := consumed_terminal e q
    have hlen2 : (acd_event_loop e self (consumed e q)).1.addresses.length = n := by
      rw [loop_flags e _ self hterm, flags_after_length, hlen]
    by_cases hk : k < n
    · obtain ⟨hs, hc⟩ := hlt hk
      by_cases hk2 : k + (consumed e q).length < n
      · obtain ⟨l1, l2, -⟩ := loop_probing e (consumed e q) self hterm hs
          (by rw [hlen]; exact hn) (by rw [hlen, hc]; exact hk2)
        exact ⟨hlen2, fun _ => ⟨l1, by rw [l2, hc]⟩, fun hge2 => absurd hge2 (by omega)⟩
      · have l1 := loop_reaches_done e (consumed e q) self hterm hs
          (by rw [hlen]; exact hn) (by rw [hlen, hc]; exact hk) (by rw [hlen, hc]; omega)
        exact ⟨hlen2, fun hlt2 => absurd hlt2 hk2, fun _ => l1⟩
    · have hs := hge (by omega)
      obtain ⟨l1, -, -⟩ := loop_not_probing e (consumed e q) self hterm (by rw [hs]; decide)
      exact ⟨hlen2, fun hlt2 => absurd hlt2 (by omega), fun _ => l1.trans hs⟩

theorem run_progress (n : Nat) (hn : n < GUINT_MOD) (ops : List Op) :
    ∀ (k : Nat) (self s2 : NMAcdManagerPrivate), (∀ op ∈ ops, ¬ op.resets) →
      run self ops = some s2 → pass_progress n k self →
      pass_progress n (k + (received ops).length) s2 := by
  induction ops with
  | nil =>
    intro k self s2 _ hrun h
    simp only [run, Option.some.injEq] at hrun
    rw [← hrun]
    simpa [received] using h
  | cons op ops ih =>
    intro k self s2 hops hrun h
    simp only [run] at hrun
    cases hst : step self op with
    | none => rw [hst] at hrun; simp at hrun
    | some s1 =>
      rw [hst] at hrun
      have h1 := step_progress n k op self s1 hn (hops op (List.mem_cons_self _ _)) hst h
      have h2 := ih (k + op.received.length) s1 s2
        (fun x hx => hops x (List.mem_cons_of_mem _ hx)) hrun h1
      have hlen : (received (op :: ops)).length
          = op.received.length + (received ops).length := by
        simp [received]
      rw [hlen, ← Nat.add_assoc]
      exact h2

theorem received_terminal (ops : List Op) : ∀ ev ∈ received ops, terminal ev := by
  intro ev hev
  unfold received at hev
  obtain ⟨l, hl, hevl⟩ := List.mem_flatten.1 hev
  obtain ⟨op, -, rfl⟩ := List.mem_map.1 hl
  cases op with
  | event e2 q => exact consumed_terminal e2 q ev hevl
  | add_address b => simp [Op.received] at hevl
  | start_probe e2 t2 => simp [Op.received] at hevl
  | announce_addresses e2 => simp [Op.received] at hevl
  | reset => simp [Op.received] at hevl

/-- C21, as the code contradicts it: with 10.0.0.5 and 10.0.0.6 registered and
a call of `nm_acd_manager_start_probe` that returned `TRUE`, one wakeup with two
`N_ACD_EVENT_READY` events for 10.0.0.5 takes the manager to
`STATE_PROBE_DONE`, with both addresses still registered, although no event for
10.0.0.6 was received; its `duplicate` flag is still the initial `FALSE`. -/
theorem probe_done_unreported :
    (nm_acd_manager_start_probe engine_ok manager2 200).2 = true ∧
    (run (nm_acd_manager_start_probe engine_ok manager2 200).1 sample_repeated).map
      (fun s => (s.state, keys s.addresses, duplicate_of s.addresses addr6))
      = some (State.STATE_PROBE_DONE, keys manager2.addresses, some false) ∧
    addr6 ∈ keys manager2.addresses ∧
    (∀ op ∈ sample_repeated, ¬ op.resets) ∧
    (∀ ev ∈ received sample_repeated, ev.probe ≠ addr6) := by
  decide

/-- C21, amended: take a pass begun by a call of `nm_acd_manager_start_probe`
that returned `TRUE` on a table of `n` addresses, followed by any operations
other than `nm_acd_manager_reset`.  If the phase reached is
`STATE_PROBE_DONE`, the manager has received at least `n` events since that
call, each of them `N_ACD_EVENT_READY` or `N_ACD_EVENT_USED`; and if the first
`n` of them are for pairwise different addresses, all registered, then every
registered address has received an `N_ACD_EVENT_READY` or `N_ACD_EVENT_USED`
event since that call.  Nothing is asked of the events after the first `n`. -/
theorem probe_done_all_reported (e : Engine) (self final : NMAcdManagerPrivate)
    (timeout : Nat) (ops : List Op)
    (hstart : (nm_acd_manager_start_probe e self timeout).2 = true)
    (hm : self.addresses.length < GUINT_MOD)
    (hops : ∀ op ∈ ops, ¬ op.resets)
    (hrun : run (nm_acd_manager_start_probe e self timeout).1 ops = some final)
    (hdone : final.state = State.STATE_PROBE_DONE) :
    self.addresses.length ≤ (received ops).length ∧
    (∀ ev ∈ received ops, terminal ev) ∧
    ((((received ops).take self.addresses.length).map (fun ev => ev.probe)).Nodup →
      (∀ ev ∈ (received ops).take self.addresses.length, ev.probe ∈ keys self.addresses) →
      ∀ a ∈ keys self.addresses, ∃ ev ∈ received ops, terminal ev ∧ ev.probe = a) := by
  obtain ⟨hs, hi⟩ := start_probe_true e self timeout hstart
  obtain ⟨hr, hst, hc, -, hlen, -, -⟩ := start_probe_unfold e self timeout hs hi
  rw [hr] at hstart
  rw [hstart] at hst
  simp only [if_true] at hst
  have h0 : pass_progress self.addresses.length 0 (nm_acd_manager_start_probe e self timeout).1 :=
    ⟨hlen, fun _ => ⟨hst, hc⟩, fun hle => by
      obtain ⟨i, hi, -⟩ := List.any_eq_true.1 hstart
      exact absurd (List.length_pos_of_mem hi) (by omega)⟩
  have hfin := run_progress self.addresses.length hm ops 0 _ final hops hrun h0
  have hcount : self.addresses.length ≤ (received ops).length := by
    by_contra hlt
    have := (hfin.2.1 (by omega)).1
    rw [hdone] at this
    exact absurd this (by decide)
  refine ⟨hcount, received_terminal ops, ?_⟩
  intro honce hreg
  have hsub : ((received ops).take self.addresses.length).map (fun ev => ev.probe)
      ⊆ keys self.addresses := by
    intro a ha
    obtain ⟨ev, hev, rfl⟩ := List.mem_map.1 ha
    exact hreg ev hev
  have hperm : (((received ops).take self.addresses.length).map (fun ev => ev.probe)).Perm
      (keys self.addresses) :=
    (List.subperm_of_subset honce hsub).perm_of_length_le
      (by simp only [keys, List.length_map, List.length_take]; omega)
  intro a ha
  obtain ⟨ev, hev, rfl⟩ := List.mem_map.1 (hperm.symm.subset ha)
  have hmem : ev ∈ received ops := List.mem_of_mem_take hev
  exact ⟨ev, hmem, received_terminal ops ev hmem, rfl⟩

theorem probe_done_all_reported_witness :
    manager2.addresses.length ≤ (received sample_pass_late).length ∧
    (∃ ev ∈ received sample_pass_late, terminal ev ∧ ev.probe = addr5) ∧
    (∃ ev ∈ received sample_pass_late, terminal ev ∧ ev.probe = addr6) :=
  ⟨(probe_done_all_reported engine_ok manager2 manager_done_late 200 sample_pass_late
      (by decide) (by decide) (by decide) (by decide) (by decide)).1,
   (probe_done_all_reported engine_ok manager2 manager_done_late 200 sample_pass_late
      (by decide) (by decide) (by decide) (by decide) (by decide)).2.2
      (by decide) (by decide) addr5 (by decide),
   (probe_done_all_reported engine_ok manager2 manager_done_late 200 sample_pass_late
      (by decide) (by decide) (by decide) (by decide) (by decide)).2.2
      (by decide) (by decide) addr6 (by decide)⟩

/-! ## Terminal events outside `STATE_PROBING` -/

/-- C22: in every phase the dispatch of `N_ACD_EVENT_USED` for a registered
address sets its `duplicate` flag and the dispatch of `N_ACD_EVENT_READY`
clears it; in `STATE_PROBE_DONE`, when `nm_acd_manager_check_address` returns
`TRUE` for an address, the dispatch of `N_ACD_EVENT_USED` for it makes
`nm_acd_manager_check_address` return `FALSE`, while the phase stays
`STATE_PROBE_DONE`, `completed` is unchanged and no signal is emitted. -/
theorem used_after_probe_done (e : Engine) (self : NMAcdManagerPrivate) (a : Nat)
    (hd : e.n_acd_dispatch = 0)
    (ha : a ∈ keys self.addresses) :
    duplicate_of (acd_event e self
        [{ event := NAcdEventKind.N_ACD_EVENT_USED, probe := a }]).1.addresses a = some true ∧
    duplicate_of (acd_event e self
        [{ event := NAcdEventKind.N_ACD_EVENT_READY, probe := a }]).1.addresses a = some false ∧
    (self.state = State.STATE_PROBE_DONE → nm_acd_manager_check_address self a = true →
      nm_acd_manager_check_address (acd_event e self
          [{ event := NAcdEventKind.N_ACD_EVENT_USED, probe := a }]).1 a = false ∧
      (acd_event e self [{ event := NAcdEventKind.N_ACD_EVENT_USED, probe := a }]).1.state
        = State.STATE_PROBE_DONE ∧
      (acd_event e self [{ event := NAcdEventKind.N_ACD_EVENT_USED, probe := a }]).1.completed
        = self.completed ∧
      (acd_event e self [{ event := NAcdEventKind.N_ACD_EVENT_USED, probe := a }]).1.signals
        = self.signals) := by
  obtain ⟨d, hdup⟩ := duplicate_of_isSome self.addresses a ha
  have hflag : ∀ k : NAcdEventKind,
      terminal { event := k, probe := a } →
      duplicate_of (acd_event e self [{ event := k, probe := a }]).1.addresses a
        = some (decide (k = NAcdEventKind.N_ACD_EVENT_USED)) := by
    intro k hk
    rw [acd_event_ok e self _ hd, loop_flags e _ self (by simpa using hk)]
    simp only [flags_after, List.foldl_cons, List.foldl_nil, duplicate_of_set, if_true, hdup,
      Option.map_some']
  refine ⟨?_, ?_, ?_⟩
  · simpa using hflag NAcdEventKind.N_ACD_EVENT_USED (Or.inr rfl)
  · simpa using hflag NAcdEventKind.N_ACD_EVENT_READY (Or.inl rfl)
  · intro hs _
    have h1 := hflag NAcdEventKind.N_ACD_EVENT_USED (Or.inr rfl)
    obtain ⟨o1, o2, o3⟩ := acd_event_outside_probing e
      [{ event := NAcdEventKind.N_ACD_EVENT_USED, probe := a }] self (by rw [hs]; decide)
    refine ⟨?_, o1.trans hs, o2, o3⟩
    simpa using check_address_eq _ a true (Or.inr (o1.trans hs)) (by simpa using h1)

theorem used_after_probe_done_witness :
    nm_acd_manager_check_address manager_done addr5 = true ∧
    nm_acd_manager_check_address (acd_event engine_ok manager_done
        [{ event := NAcdEventKind.N_ACD_EVENT_USED, probe := addr5 }]).1 addr5 = false ∧
    (acd_event engine_ok manager_done
        [{ event := NAcdEventKind.N_ACD_EVENT_USED, probe := addr5 }]).1.state
      = State.STATE_PROBE_DONE :=
  ⟨by decide,
   ((used_after_probe_done engine_ok manager_done addr5 rfl (by decide)).2.2
      (by decide) (by decide)).1,
   ((used_after_probe_done engine_ok manager_done addr5 rfl (by decide)).2.2
      (by decide) (by decide)).2.1⟩

end NMAcd

namespace NMDhcp

/-! ## Reading numbers and addresses -/

theorem isDigit_bounds (c : Char) (h : c.isDigit = true) : 48 ≤ c.toNat ∧ c.toNat ≤ 57 := by
  unfold Char.isDigit at h
  simp only [Bool.and_eq_true, decide_eq_true_eq, ge_iff_le] at h
  have h1 := h.1
  have h2 := h.2
  rw [UInt32.le_def] at h1 h2
  unfold Char.toNat
  constructor
  · simpa using h1
  · simpa using h2

theorem takeWhile_all (t : List Char) (h : ∀ c ∈ t, c.isDigit = true) :
    t.takeWhile Char.isDigit = t := by
  induction t with
  | nil => rfl
  | cons c r ih =>
    rw [List.takeWhile_cons, h c (List.mem_cons_self _ _), if_pos rfl,
      ih (fun x hx => h x (List.mem_cons_of_mem _ hx))]

/-- On a run of decimal digits `strtol` returns the number they denote, as long
as it fits a `long`. -/
theorem strtol_decimal (t : List Char) (h : is_decimal t)
    (hv : (decimal_value t : Int) ≤ LONG_MAX) :
    strtol t = decimal_value t := by
  obtain ⟨hne, hd⟩ := h
  cases t with
  | nil => exact absurd rfl hne
  | cons c r =>
    obtain ⟨h1, h2⟩ := isDigit_bounds c (hd c (List.mem_cons_self _ _))
    have hsp : isspace c = false := by
      unfold isspace
      simp only [Bool.or_eq_false_iff, decide_eq_false_iff_not, Bool.and_eq_false_imp,
        decide_eq_true_eq]
      constructor
      · omega
      · intro _; omega
    have hm : ¬ c.toNat = 45 := by omega
    have hp : ¬ c.toNat = 43 := by omega
    unfold strtol
    rw [List.dropWhile_cons, hsp]
    simp only [Bool.false_eq_true, if_false, hm, hp]
    rw [takeWhile_all (c :: r) hd]
    exact min_eq_left hv

theorem addr_len_eq (p : Nat) : addr_len (p : Int) = (p + 7) / 8 := by
  unfold addr_len
  split_ifs with h
  · omega
  · omega

theorem parse_octet_digits (t : List Char) (v : Nat) (h : parse_octet t = some v) :
    Char.ofNat 46 ∉ t ∧ v ≤ 255 := by
  unfold parse_octet at h
  split_ifs at h with h1 h2 h3 h4
  simp only [Option.some.injEq] at h
  constructor
  · intro hin
    have := (List.all_eq_true.1 h2) _ hin
    exact absurd this (by decide)
  · omega

theorem inet_pton_join (ts : List (List Char)) (a b c d : Nat)
    (h : ts.map parse_octet = [some a, some b, some c, some d]) :
    inet_pton (g_strjoin_dot ts) = some (ip4_of_octets [a, b, c, d]) := by
  have hdot : ∀ l ∈ ts, Char.ofNat 46 ∉ l := by
    intro l hl
    have hin : parse_octet l ∈ ts.map parse_octet := List.mem_map.2 ⟨l, hl, rfl⟩
    rw [h] at hin
    simp only [List.mem_cons, List.mem_singleton, List.not_mem_nil, or_false] at hin
    rcases hin with h1 | h1 | h1 | h1 <;> exact (parse_octet_digits l _ h1).1
  have hne : ts ≠ [] := by
    intro h0
    rw [h0] at h
    simp at h
  have hsplit := List.splitOn_intercalate ts (Char.ofNat 46) hdot hne
  unfold inet_pton g_strjoin_dot
  unfold List.splitOn at hsplit
  rw [hsplit, h]
  simp [ip4_of_octets]

theorem parse_octet_zero : parse_octet [Char.ofNat 48] = some 0 := by decide

/-- The mask of a prefix length up to 32 has exactly the `p` most significant of
its 32 bits set. -/
theorem netmask_bits (p i : Nat) (hp : p ≤ 32) :
    (nm_utils_ip4_prefix_to_netmask p).testBit i = decide (32 - p ≤ i ∧ i < 32) := by
  have hform : nm_utils_ip4_prefix_to_netmask p = (2 ^ p - 1) <<< (32 - p) := by
    unfold nm_utils_ip4_prefix_to_netmask
    rw [Nat.shiftLeft_eq, Nat.sub_mul, Nat.one_mul, ← Nat.pow_add]
    congr 2
    omega
  rw [hform, Nat.testBit_shiftLeft, Nat.testBit_two_pow_sub_one]
  by_cases h1 : 32 - p ≤ i
  · by_cases h2 : i < 32
    · have : i - (32 - p) < p := by omega
      simp [h1, h2, this]
    · have : ¬ i - (32 - p) < p := by omega
      simp [h1, h2, this]
  · simp [h1]

/-! ## One route entry -/

theorem inet_pton_octets (ts : List (List Char)) (vs : List Nat)
    (h : ts.map parse_octet = vs.map some) (hlen : vs.length = 4) :
    inet_pton (g_strjoin_dot ts) = some (ip4_of_octets vs) := by
  match vs, hlen with
  | [a, b, c, d], _ => exact inet_pton_join ts a b c d (by simpa using h)

theorem process_next_hop_ok (hop rest : List (List Char)) (route : NMIP4Route)
    (h0 h1 h2 h3 : Nat)
    (hhop : hop.map parse_octet = [some h0, some h1, some h2, some h3]) :
    process_next_hop (hop ++ rest) route
      = (rest, some { route with next_hop := ip4_of_octets [h0, h1, h2, h3] }) := by
  have hlen : hop.length = 4 := by
    have := congrArg List.length hhop
    simpa using this
  unfold process_next_hop
  rw [List.take_left' hlen, List.drop_left' hlen, inet_pton_join hop h0 h1 h2 h3 hhop]

theorem addr_octets_eq (addr tail : List (List Char)) (h : addr.length ≤ 4) :
    addr_octets (addr ++ tail) addr.length
      = addr ++ List.replicate (4 - addr.length) [Char.ofNat 48] := by
  unfold addr_octets
  rw [List.take_left' rfl, List.take_append_eq_append_take, List.take_of_length_le (by omega),
    List.take_replicate]
  congr 2
  omega

/-- The route that `process_rfc3442_route` makes of a well-formed entry, and the
position it returns. -/
theorem route_entry_parsed (pt : List Char) (addr hop rest : List (List Char)) (p : Nat)
    (avals : List Nat) (h0 h1 h2 h3 : Nat)
    (hpt : is_decimal pt) (hp : decimal_value pt = p) (hp32 : p ≤ 32)
    (halen : addr.length = (p + 7) / 8)
    (haddr : addr.map parse_octet = avals.map some)
    (hhop : hop.map parse_octet = [some h0, some h1, some h2, some h3]) :
    process_rfc3442_route (pt :: (addr ++ (hop ++ rest)))
      = (rest,
          some
            { dest := ip4_of_octets (avals ++ List.replicate (4 - avals.length) 0) &&&
                nm_utils_ip4_prefix_to_netmask p
              plen := p
              next_hop := ip4_of_octets [h0, h1, h2, h3] }) := by
  have hst : strtol pt = (p : Int) := by
    rw [strtol_decimal pt hpt (by rw [hp]; unfold LONG_MAX; omega), hp]
  have hal : addr_len (strtol pt) = addr.length := by
    rw [hst, addr_len_eq, halen]
  have hhl : hop.length = 4 := by
    have := congrArg List.length hhop
    simpa using this
  have hvl : avals.length = addr.length := by
    have := congrArg List.length haddr
    simpa using this.symm
  have h4 : addr.length ≤ 4 := by omega
  unfold process_rfc3442_route
  have hrange : ¬ (strtol pt < 0 ∨ strtol pt > 32) := by
    rw [hst]; omega
  have hlen : ¬ ((addr ++ (hop ++ rest)).length < addr_len (strtol pt) + 4) := by
    rw [hal]
    simp only [List.length_append, hhl]
    omega
  simp only [hrange, hlen, if_false]
  by_cases hz : p = 0
  · have ha0 : addr = [] := by
      apply List.length_eq_zero.1
      rw [halen, hz]
    have hv0 : avals = [] := by
      apply List.length_eq_zero.1
      rw [hvl, ha0]; rfl
    have hstz : strtol pt = 0 := by rw [hst, hz]; rfl
    simp only [hstz, ne_eq, not_true_eq_false, if_false, ha0, List.nil_append]
    rw [process_next_hop_ok hop rest _ h0 h1 h2 h3 hhop, hz, hv0]
    simp [ip4_of_octets]
  · have hnz : strtol pt ≠ 0 := by
      rw [hst]
      exact_mod_cast hz
    simp only [hnz, ne_eq, not_false_eq_true, if_true, hal]
    rw [addr_octets_eq addr (hop ++ rest) h4]
    have hmap : (addr ++ List.replicate (4 - addr.length) [Char.ofNat 48]).map parse_octet
        = (avals ++ List.replicate (4 - avals.length) 0).map some := by
      rw [List.map_append, List.map_append, haddr, List.map_replicate, List.map_replicate,
        parse_octet_zero, hvl]
    rw [inet_pton_octets _ _ hmap (by simp only [List.length_append, List.length_replicate]; omega)]
    simp only [List.drop_left' rfl]
    rw [process_next_hop_ok hop rest _ h0 h1 h2 h3 hhop, hst]
    simp

/-- C23: for a token list that begins with a run of decimal digits denoting a
prefix length `p` of at most 32, followed by `(p + 7) / 8` valid octets, four
valid octets and anything else, `process_rfc3442_route` stores a route whose
prefix is `p`, whose destination is the address made of the given address octets
padded with zero octets, masked with the mask of `p` bits, and whose next hop is
the address made of the four following octets; the position returned is the one
after these `1 + (p + 7) / 8 + 4` tokens.  The mask of `p` bits has exactly the
`p` most significant of its 32 bits set. -/
theorem rfc3442_route_parsed (pt : List Char) (addr hop rest : List (List Char)) (p : Nat)
    (avals : List Nat) (h0 h1 h2 h3 : Nat)
    (hpt : is_decimal pt) (hp : decimal_value pt = p) (hp32 : p ≤ 32)
    (halen : addr.length = (p + 7) / 8)
    (haddr : addr.map parse_octet = avals.map some)
    (hhop : hop.map parse_octet = [some h0, some h1, some h2, some h3]) :
    process_rfc3442_route (pt :: (addr ++ (hop ++ rest)))
      = (rest,
          some
            { dest := ip4_of_octets (avals ++ List.replicate (4 - avals.length) 0) &&&
                nm_utils_ip4_prefix_to_netmask p
              plen := p
              next_hop := ip4_of_octets [h0, h1, h2, h3] }) ∧
    (pt :: (addr ++ (hop ++ rest))).drop (1 + (p + 7) / 8 + 4) = rest ∧
    ∀ i, (nm_utils_ip4_prefix_to_netmask p).testBit i = decide (32 - p ≤ i ∧ i < 32) := by
  have hhl : hop.length = 4 := by
    have := congrArg List.length hhop
    simpa using this
  refine ⟨route_entry_parsed pt addr hop rest p avals h0 h1 h2 h3 hpt hp hp32 halen haddr hhop,
    ?_, fun i => netmask_bits p i hp32⟩
  · have hn : 1 + (p + 7) / 8 + 4 = (addr.length + 4) + 1 := by omega
    rw [hn, List.drop_succ_cons, ← List.append_assoc,
      List.drop_left' (by simp only [List.length_append, hhl])]

theorem rfc3442_route_parsed_witness :
    process_rfc3442_route
        ("24".toList ::
          (["192".toList, "168".toList, "5".toList] ++
            (["10".toList, "0".toList, "0".toList, "1".toList] ++ ["0".toList])))
      = (["0".toList],
          some
            { dest := ip4_of_octets ([192, 168, 5] ++ List.replicate (4 - 3) 0) &&&
                nm_utils_ip4_prefix_to_netmask 24
              plen := 24
              next_hop := ip4_of_octets [10, 0, 0, 1] }) :=
  (rfc3442_route_parsed "24".toList ["192".toList, "168".toList, "5".toList]
    ["10".toList, "0".toList, "0".toList, "1".toList] ["0".toList] 24 [192, 168, 5] 10 0 0 1
    (by decide) (by decide) (by decide) (by decide) (by decide) (by decide)).1

/-! ## The loop over the entries -/

theorem well_formed_parsed (ts : List (List Char)) (route : NMIP4Route)
    (h : well_formed_entry ts route) (rest : List (List Char)) :
    process_rfc3442_route (ts ++ rest) = (rest, some route) ∧ 5 ≤ ts.length ∧
    ∀ t ∈ ts, Char.ofNat 32 ∉ t := by
  obtain ⟨pt, addr, hop, avals, h0, h1, h2, h3, rfl, hpt, hp, hp32, halen, haddr, hhop, hd, hn⟩ := h
  have hhl : hop.length = 4 := by
    have := congrArg List.length hhop
    simpa using this
  refine ⟨?_, ?_, ?_⟩
  · have := route_entry_parsed pt addr hop rest route.plen avals h0 h1 h2 h3 hpt hp hp32 halen
      haddr hhop
    rw [← hd, ← hn] at this
    simpa [List.append_assoc] using this
  · simp only [List.length_cons, List.length_append, hhl]
    omega
  · have hoct : ∀ (l : List (List Char)) (vs : List (Option Nat)),
        l.map parse_octet = vs → (∀ v ∈ vs, v ≠ none) → ∀ t ∈ l, Char.ofNat 32 ∉ t := by
      intro l vs hl hvs t ht hin
      have hmem : parse_octet t ∈ vs := by
        rw [← hl]; exact List.mem_map.2 ⟨t, ht, rfl⟩
      have hsome := hvs _ hmem
      by_cases c2 : t.all Char.isDigit = true
      · have := (List.all_eq_true.1 c2) _ hin
        exact absurd this (by decide)
      · apply hsome
        unfold parse_octet
        split_ifs <;> rfl
    intro t ht
    simp only [List.mem_cons, List.mem_append] at ht
    rcases ht with rfl | ht | ht
    · intro hin
      exact absurd (hpt.2 _ hin) (by decide)
    · exact hoct addr _ haddr (by simp) t ht
    · exact hoct hop _ hhop (by simp) t ht

/-- The loop over the tokens of well-formed entries: every entry of prefix
length 0 sets the gateway, every other entry adds its route. -/
theorem loop_well_formed (entries : List (List (List Char) × NMIP4Route)) :
    ∀ (fuel : Nat) (bad : List (List Char)) (routes : List NMIP4Route) (gwaddr : Nat)
      (b : Bool),
      (∀ en ∈ entries, well_formed_entry en.1 en.2) →
      (tokens_of entries ++ bad).length ≤ fuel →
      (bad = [] ∨ (process_rfc3442_route bad).2 = none) →
      classless_loop fuel (tokens_of entries ++ bad) routes gwaddr b
        = some (routes ++ (routes_of entries).filter (fun r => r.plen ≠ 0),
            gateway_after gwaddr (routes_of entries),
            b || !entries.isEmpty) := by
  induction entries with
  | nil =>
    intro fuel bad routes gwaddr b _ hfuel hbad
    simp only [tokens_of, routes_of, List.map_nil, List.flatten_nil, List.nil_append,
      List.filter_nil, List.append_nil, gateway_after, List.foldl_nil, List.isEmpty_nil,
      Bool.not_true, Bool.or_false]
    cases bad with
    | nil => cases fuel <;> rfl
    | cons t o =>
      have hnone : (process_rfc3442_route (t :: o)).2 = none := by
        rcases hbad with h | h
        · exact absurd h (by simp)
        · exact h
      cases fuel with
      | zero => simp at hfuel
      | succ f =>
        rcases hp : process_rfc3442_route (t :: o) with ⟨o1, r⟩
        rw [hp] at hnone
        simp only at hnone
        subst hnone
        simp [classless_loop, hp]
  | cons en rest ih =>
    intro fuel bad routes gwaddr b hwf hfuel hbad
    obtain ⟨hparse, hlen, -⟩ := well_formed_parsed en.1 en.2 (hwf en (List.mem_cons_self _ _))
      (tokens_of rest ++ bad)
    have htok : tokens_of (en :: rest) ++ bad = en.1 ++ (tokens_of rest ++ bad) := by
      simp [tokens_of, List.append_assoc]
    rw [htok] at hfuel ⊢
    rw [List.length_append] at hfuel
    cases hts : en.1 with
    | nil => rw [hts] at hlen; simp at hlen
    | cons t o =>
      rw [hts] at hparse
      cases fuel with
      | zero => omega
      | succ f =>
        have hrec := ih f bad
        have hf : (tokens_of rest ++ bad).length ≤ f := by omega
        have hwf2 : ∀ x ∈ rest, well_formed_entry x.1 x.2 :=
          fun x hx => hwf x (List.mem_cons_of_mem _ hx)
        simp only [List.cons_append] at hparse ⊢
        simp only [classless_loop, hparse]
        by_cases hz : en.2.plen = 0
        · simp only [hz, if_true]
          rw [hrec routes en.2.next_hop true hwf2 hf hbad]
          simp [routes_of, gateway_after, hz]
        · simp only [hz, if_false]
          rw [hrec (routes ++ [en.2]) gwaddr true hwf2 hf hbad]
          simp [routes_of, gateway_after, hz]

theorem split_tokens (tokens : List (List Char)) (hne : tokens ≠ [])
    (hfirst : tokens.head? ≠ some [])
    (hsp : ∀ t ∈ tokens, Char.ofNat 32 ∉ t) :
    [Char.ofNat 32].intercalate tokens ≠ [] ∧
    g_strsplit_space ([Char.ofNat 32].intercalate tokens) = tokens := by
  have h1 : [Char.ofNat 32].intercalate tokens ≠ [] := by
    cases tokens with
    | nil => exact absurd rfl hne
    | cons t ts =>
      have ht : t ≠ [] := by
        intro h0
        apply hfirst
        simp [h0]
      cases ts with
      | nil => simpa [List.intercalate] using ht
      | cons u us =>
        simp [List.intercalate, ht]
  refine ⟨h1, ?_⟩
  unfold g_strsplit_space g_strsplit_set
  rw [if_neg h1]
  have := List.splitOn_intercalate tokens (Char.ofNat 32) hsp hne
  unfold List.splitOn at this
  exact this

/-- C24: for an option string made of the tokens of well-formed entries,
separated by single spaces, `nm_dhcp_client_process_classless_routes` returns
`TRUE`; the routes of the IP4 config afterwards are the former ones followed by
the routes of the entries whose prefix length is not 0, in input order, and the
gateway is the one that results when every entry of prefix length 0, in input
order, sets it to its next hop and every other entry leaves it. -/
theorem classless_routes_applied (options : String → Option (List Char))
    (entries : List (List (List Char) × NMIP4Route))
    (ip4_config : List NMIP4Route) (gwaddr : Nat)
    (hne : entries ≠ [])
    (hwf : ∀ en ∈ entries, well_formed_entry en.1 en.2)
    (hopt : classless_option options
      = some ([Char.ofNat 32].intercalate (tokens_of entries))) :
    nm_dhcp_client_process_classless_routes options ip4_config gwaddr
      = some (ip4_config ++ (routes_of entries).filter (fun r => r.plen ≠ 0),
          gateway_after gwaddr (routes_of entries), true) := by
  obtain ⟨en, rest, rfl⟩ := List.exists_cons_of_ne_nil hne
  obtain ⟨-, hlen, -⟩ := well_formed_parsed en.1 en.2 (hwf en (List.mem_cons_self _ _)) []
  have hsp : ∀ t ∈ tokens_of (en :: rest), Char.ofNat 32 ∉ t := by
    intro t ht
    unfold tokens_of at ht
    obtain ⟨l, hl, htl⟩ := List.mem_flatten.1 ht
    obtain ⟨x, hx, rfl⟩ := List.mem_map.1 hl
    exact (well_formed_parsed x.1 x.2 (hwf x hx) []).2.2 t htl
  have htok : tokens_of (en :: rest) = en.1 ++ tokens_of rest := by
    simp [tokens_of]
  have hlen5 : 5 ≤ (tokens_of (en :: rest)).length := by
    rw [htok, List.length_append]; omega
  have hne2 : tokens_of (en :: rest) ≠ [] := by
    intro h0
    rw [h0] at hlen5
    simp at hlen5
  have hfirst : (tokens_of (en :: rest)).head? ≠ some [] := by
    obtain ⟨pt, addr, hop, avals, h0, h1, h2, h3, hts, hpt, -⟩ := hwf en (List.mem_cons_self _ _)
    rw [htok, hts]
    simp only [List.cons_append, List.head?_cons, ne_eq, Option.some.injEq]
    exact hpt.1
  obtain ⟨hstr, hsplit⟩ := split_tokens (tokens_of (en :: rest)) hne2 hfirst hsp
  have hloop := loop_well_formed (en :: rest) (tokens_of (en :: rest)).length [] ip4_config
    gwaddr false hwf (by simp) (Or.inl rfl)
  simp only [List.append_nil] at hloop
  unfold nm_dhcp_client_process_classless_routes
  rw [hopt]
  have hl0 : ¬ ([Char.ofNat 32].intercalate (tokens_of (en :: rest))).length = 0 := by
    intro h0
    exact hstr (List.length_eq_zero.1 h0)
  simp only [hl0, if_false, hsplit]
  rw [if_neg (by omega), hloop]
  simp

theorem classless_routes_applied_witness :
    nm_dhcp_client_process_classless_routes sample_options [] 0
      = some ([] ++ (routes_of sample_entries).filter (fun r => r.plen ≠ 0),
          gateway_after 0 (routes_of sample_entries), true) :=
  classless_routes_applied sample_options sample_entries [] 0 (by decide)
    (by
      intro en hen
      simp only [sample_entries, List.mem_cons, List.mem_singleton, List.not_mem_nil,
        or_false] at hen
      rcases hen with h | h
      · subst h
        exact ⟨"24".toList, ["192".toList, "168".toList, "5".toList],
          ["10".toList, "0".toList, "0".toList, "1".toList], [192, 168, 5], 10, 0, 0, 1,
          by decide, by decide, by decide, by decide, by decide, by decide, by decide,
          by decide, by decide⟩
      · subst h
        exact ⟨"0".toList, [], ["10".toList, "0".toList, "0".toList, "254".toList], [],
          10, 0, 0, 254,
          by decide, by decide, by decide, by decide, by decide, by decide, by decide,
          by decide, by decide⟩)
    (by decide)

/-! ## The value returned -/

theorem merge_lines_eq (s_ip4 : Option NMSettingIP4Config) (lines : List (List Char)) :
    ∀ acc : List Char,
      merge_lines s_ip4 lines acc
        = acc ++
          ((((lines.map g_strstrip).filter
              (fun l => !(l.length == 0) && !ignore_line s_ip4 l)).map
            (fun l => l ++ [Char.ofNat 10])).flatten) := by
  induction lines with
  | nil => intro acc; simp [merge_lines]
  | cons line rest ih =>
    intro acc
    by_cases h0 : (g_strstrip line).length = 0
    · simp [merge_lines, h0, ih]
    · by_cases hi : ignore_line s_ip4 (g_strstrip line) = true
      · simp [merge_lines, h0, hi, ih]
      · simp [merge_lines, h0, hi, ih, List.append_assoc]

theorem ignore_line_iff (s_ip4 : Option NMSettingIP4Config) (l : List Char) :
    ignore_line s_ip4 l = true ↔
      ∃ cfg, s_ip4 = some cfg ∧
        ((cfg.dhcp_client_id ≠ none ∧ "send dhcp-client-identifier".toList <+: l) ∨
          (cfg.dhcp_hostname ≠ none ∧ "send host-name".toList <+: l)) := by
  unfold ignore_line DHCP_CLIENT_ID_TAG DHCP_HOSTNAME_TAG
  cases s_ip4 with
  | none => simp
  | some cfg =>
    simp only [Bool.or_eq_true, Bool.and_eq_true, List.isPrefixOf_iff_prefix, Option.some.injEq,
      exists_eq_left', Option.isSome_iff_ne_none]

theorem g_ascii_isspace_iff (ch : Char) :
    g_ascii_isspace ch = true ↔
      ch.toNat = 32 ∨ ch.toNat = 9 ∨ ch.toNat = 10 ∨ ch.toNat = 12 ∨ ch.toNat = 13 := by
  unfold g_ascii_isspace
  simp only [Bool.or_eq_true, decide_eq_true_eq, or_assoc]

theorem dropWhile_head (p : Char → Bool) (l : List Char) (ch : Char)
    (h : (l.dropWhile p).head? = some ch) : p ch = false := by
  have := List.head?_dropWhile_not p l
  rw [h] at this
  exact this

/-- The function `g_strstrip` removes a run of white space at each end, and what
is left neither starts nor ends with white space. -/
theorem g_strstrip_spec (s : List Char) :
    ∃ pre post, s = pre ++ g_strstrip s ++ post ∧
      (∀ ch ∈ pre, g_ascii_isspace ch = true) ∧
      (∀ ch ∈ post, g_ascii_isspace ch = true) ∧
      (∀ ch, (g_strstrip s).head? = some ch → g_ascii_isspace ch = false) ∧
      (∀ ch, (g_strstrip s).getLast? = some ch → g_ascii_isspace ch = false) := by
  have hm : s.dropWhile g_ascii_isspace
      = g_strstrip s
        ++ ((s.dropWhile g_ascii_isspace).reverse.takeWhile g_ascii_isspace).reverse := by
    unfold g_strstrip
    rw [← List.reverse_append, List.takeWhile_append_dropWhile, List.reverse_reverse]
  refine ⟨s.takeWhile g_ascii_isspace,
    ((s.dropWhile g_ascii_isspace).reverse.takeWhile g_ascii_isspace).reverse, ?_, ?_, ?_, ?_, ?_⟩
  · rw [List.append_assoc, ← hm, List.takeWhile_append_dropWhile]
  · intro ch hch
    exact List.mem_takeWhile_imp hch
  · intro ch hch
    exact List.mem_takeWhile_imp (List.mem_reverse.1 hch)
  · intro ch hch
    apply dropWhile_head g_ascii_isspace s ch
    rw [hm]
    cases ht : g_strstrip s with
    | nil => rw [ht] at hch; cases hch
    | cons x xs => rw [ht] at hch; simpa using hch
  · intro ch hch
    apply dropWhile_head g_ascii_isspace (s.dropWhile g_ascii_isspace).reverse ch
    unfold g_strstrip at hch
    rw [List.getLast?_reverse] at hch
    exact hch

/-- C26: for a device with an interface name and an existing configuration,
`merge_dhclient_config` hands to `g_file_set_contents`, and returns its result,
the text made of the two comment lines, then every kept line of the existing
configuration followed by a line feed, and then the lines of NetworkManager.
The kept lines are, in the original order, the lines between line feeds and
carriage returns, stripped of white space, except the empty ones and the ones
that start with `send dhcp-client-identifier` when the setting has a DHCP
client id or with `send host-name` when it has a DHCP hostname. The lines of
NetworkManager are `send dhcp-client-identifier "ID"; # added by NetworkManager`
for a client id `ID` and then `send host-name "NAME"; # added by NetworkManager`
for a hostname `NAME`, each with a line feed, and nothing for an option that is
not set. White space is what `g_ascii_isspace` accepts: space, tab, line feed,
form feed and carriage return, not the vertical tab; stripping removes a run of
it at each end and leaves a text that neither starts nor ends with it. -/
theorem merged_config (d : NMDHCPDevice) (iface : List Char)
    (s_ip4 : Option NMSettingIP4Config) (c orig : List Char) (written : Bool)
    (hif : d.iface = some iface) :
    merge_dhclient_config (some d) s_ip4 (some c) orig written
      = (some
          ("# Created by NetworkManager\n".toList ++
            ("# Merged from ".toList ++ orig ++ "\n\n".toList) ++
            ((kept_lines s_ip4 c).map (fun l => l ++ [Char.ofNat 10])).flatten ++
            nm_options s_ip4),
         written) ∧
    (∀ l ∈ kept_lines s_ip4 c,
      l ≠ [] ∧
      l ∈ (g_strsplit_set c (fun x => x == Char.ofNat 10 || x == Char.ofNat 13)).map g_strstrip ∧
      ¬ ∃ cfg, s_ip4 = some cfg ∧
        ((cfg.dhcp_client_id ≠ none ∧ "send dhcp-client-identifier".toList <+: l) ∨
          (cfg.dhcp_hostname ≠ none ∧ "send host-name".toList <+: l))) ∧
    (∀ l ∈ (g_strsplit_set c (fun x => x == Char.ofNat 10 || x == Char.ofNat 13)).map g_strstrip,
      l ≠ [] →
      (¬ ∃ cfg, s_ip4 = some cfg ∧
        ((cfg.dhcp_client_id ≠ none ∧ "send dhcp-client-identifier".toList <+: l) ∨
          (cfg.dhcp_hostname ≠ none ∧ "send host-name".toList <+: l))) →
      l ∈ kept_lines s_ip4 c) ∧
    (kept_lines s_ip4 c).Sublist
      ((g_strsplit_set c (fun x => x == Char.ofNat 10 || x == Char.ofNat 13)).map g_strstrip) ∧
    (s_ip4 = none → nm_options s_ip4 = []) ∧
    (∀ cfg, s_ip4 = some cfg →
      nm_options s_ip4
        = (match cfg.dhcp_client_id with
            | some tmp =>
              "send dhcp-client-identifier \"".toList ++ tmp ++
                "\"; # added by NetworkManager\n".toList
            | none => []) ++
          (match cfg.dhcp_hostname with
            | some tmp =>
              "send host-name \"".toList ++ tmp ++ "\"; # added by NetworkManager\n".toList
            | none => [])) ∧
    (∀ ch : Char, g_ascii_isspace ch = true ↔
      ch.toNat = 32 ∨ ch.toNat = 9 ∨ ch.toNat = 10 ∨ ch.toNat = 12 ∨ ch.toNat = 13) ∧
    (∀ s : List Char, ∃ pre post, s = pre ++ g_strstrip s ++ post ∧
      (∀ ch ∈ pre, g_ascii_isspace ch = true) ∧
      (∀ ch ∈ post, g_ascii_isspace ch = true) ∧
      (∀ ch, (g_strstrip s).head? = some ch → g_ascii_isspace ch = false) ∧
      (∀ ch, (g_strstrip s).getLast? = some ch → g_ascii_isspace ch = false)) := by
  refine ⟨?_, ?_, ?_, ?_, ?_, ?_, g_ascii_isspace_iff, g_strstrip_spec⟩
  · simp only [merge_dhclient_config, hif, merged_contents, merge_lines_eq, kept_lines]
  · intro l hl
    unfold kept_lines at hl
    rw [List.mem_filter] at hl
    obtain ⟨hmem, hkeep⟩ := hl
    simp only [Bool.and_eq_true, Bool.not_eq_true', beq_eq_false_iff_ne, ne_eq] at hkeep
    refine ⟨?_, hmem, ?_⟩
    · intro h0
      apply hkeep.1
      rw [h0]; rfl
    · rw [← ignore_line_iff, hkeep.2]
      decide
  · intro l hl hne hnot
    unfold kept_lines
    rw [List.mem_filter]
    refine ⟨hl, ?_⟩
    have hlen : ¬ l.length = 0 := fun h0 => hne (List.length_eq_zero.1 h0)
    have hign : ignore_line s_ip4 l = false := by
      rw [← ignore_line_iff] at hnot
      simpa using hnot
    simp [hlen, hign]
  · unfold kept_lines
    exact List.filter_sublist _
  · intro hnone
    rw [hnone]
    rfl
  · intro cfg hcfg
    rw [hcfg]
    cases cfg with
    | mk cid host =>
      cases cid with
      | none =>
        cases host with
        | none => rfl
        | some h => rfl
      | some i =>
        cases host with
        | none => rfl
        | some h => rfl

theorem merged_config_witness :
    merge_dhclient_config (some sample_device) (some sample_setting) (some sample_config)
        "/etc/dhclient-eth0.conf".toList true
      = (some
          ("# Created by NetworkManager\n".toList ++
            ("# Merged from ".toList ++ "/etc/dhclient-eth0.conf".toList ++ "\n\n".toList) ++
            ((kept_lines (some sample_setting) sample_config).map
              (fun l => l ++ [Char.ofNat 10])).flatten ++
            nm_options (some sample_setting)),
         true) ∧
    kept_lines (some sample_setting) sample_config
      = ["foo bar;".toList, "send host-name \"x\";".toList, "\x0bv".toList] ∧
    nm_options (some sample_setting)
      = "send dhcp-client-identifier \"abc\"; # added by NetworkManager\n".toList :=
  ⟨(merged_config sample_device "eth0".toList (some sample_setting) sample_config
      "/etc/dhclient-eth0.conf".toList true rfl).1, by decide, by decide⟩

end NMDhcp
